import Mathlib

/-!
# Skibus simulation (proj2.c / proj2.h): model and verified properties

The C program forks one bus process and `num_skiers` skier processes that
share two memory segments (the skier array and `shared_data_t`), one output
file and one POSIX semaphore.  The development below embeds

* `rand_range` and `parse_config` as pure functions (the values returned by
  `rand()` and the command line are inputs),
* `print_message`, `skibus_process` and `skier_process` as small-step
  programs over an explicit state (shared memory, semaphore value, output
  file, and one program counter per process), interleaved by an arbitrary
  scheduler.

C `int` values are modelled by `Int`.  `bus_occupied` is incremented only while
it is below `bus_capacity`, so it never leaves the range of `int`.
`action_count` is incremented once per line without any bound, so its increment
is taken modulo 2^32 (`wrap_int`); the statements about its value are made for
logs of at most `INT_MAX` lines.
-/

set_option autoImplicit false
set_option maxRecDepth 100000

namespace Skibus

/-! ## Definitions -/

/-- Constant `MAX_SKIERS` of proj2.h. -/
def MAX_SKIERS : Int := 20000

/-- Constant `MAX_STOPS` of proj2.h. -/
def MAX_STOPS : Int := 10

/-- Constant `NUM_ARGS` of proj2.h: `argc` for five arguments plus the program name. -/
def NUM_ARGS : Nat := 6

/-- Largest value of a C `int` (32 bits). -/
def INT_MAX : Int := 2147483647

/-- Smallest value of a C `int` (32 bits). -/
def INT_MIN : Int := -2147483648

/-- The value a 32-bit `int` holds after the result `x` of an arithmetic
operation is stored in it: `x` reduced modulo 2^32 into `INT_MIN .. INT_MAX`.
C leaves signed overflow undefined; two's complement hardware wraps.  Inside
the range nothing changes. -/
def wrap_int (x : Int) : Int := (x + 2147483648) % 4294967296 - 2147483648

/-- Struct `config_t`.  The field `max_travel_time` is declared but never
written or read by the program. -/
structure config_t where
  num_skiers : Int
  num_stops : Int
  bus_capacity : Int
  max_travel_time : Int
  max_skier_wait_time : Int
  max_bus_travel_time : Int
  deriving DecidableEq, Repr

/-- Enum `skier_state_t`. -/
inductive skier_state_t where
  | SKIER_BREAKFAST
  | SKIER_WAITING
  | SKIER_ONRIDE
  | SKIER_FINISHED
  deriving DecidableEq, Repr

/-- Struct `skier_t`. -/
structure skier_t where
  id : Int
  stop_id : Int
  state : skier_state_t
  deriving DecidableEq, Repr

/-- Struct `shared_data_t`. -/
structure shared_data_t where
  bus_stop_id : Int
  bus_occupied : Int
  action_count : Int
  deriving DecidableEq, Repr

/-- Enum `message_type_t`. -/
inductive message_type_t where
  | MSG_SKIER_START
  | MSG_SKIER_ARRIVED
  | MSG_SKIER_BOARDING
  | MSG_SKIER_SKIING
  | MSG_BUS_START
  | MSG_BUS_ARRIVED
  | MSG_BUS_LEAVING
  | MSG_BUS_ARRIVED_FINAL
  | MSG_BUS_LEAVING_FINAL
  | MSG_BUS_FINISH
  deriving DecidableEq, Repr

/-- The `do value = rand(); while (value >= RAND_MAX - remainder)` loop.  The
list holds the values that successive calls of `rand()` return; the result is
the first accepted value and the values not yet drawn, or `none` when every
value of the list is rejected (the loop is still drawing). -/
def reject_loop (RAND_MAX remainder : Int) : List Int → Option (Int × List Int)
  | [] => none
  | value :: rest =>
    if value ≥ RAND_MAX - remainder then reject_loop RAND_MAX remainder rest
    else some (value, rest)

/-- Function `rand_range(min, max)`; `%` of C is `Int.tmod`. -/
def rand_range (RAND_MAX : Int) (min max : Int) (draws : List Int) : Option (Int × List Int) :=
  if min = max then some (min, draws)
  else
    let lo := if min > max then max else min
    let hi := if min > max then min else max
    let range := hi - lo + 1
    let remainder := RAND_MAX.tmod range
    match reject_loop RAND_MAX remainder draws with
    | none => none
    | some (value, rest) => some (value.tmod range + lo, rest)

/-- Number of raw values `v` in `0 .. RAND_MAX` (the values `rand()` can return)
that the rejection loop of `rand_range(min, max)` accepts and maps to `r`. -/
def accepted_count (RAND_MAX : Int) (min max r : Int) : Nat :=
  ((List.range (RAND_MAX.toNat + 1)).filter fun (v : Nat) =>
    decide ((v : Int) < RAND_MAX - RAND_MAX.tmod (max - min + 1)
      ∧ (v : Int).tmod (max - min + 1) + min = r)).length

/-- Function `isspace` of the C library in the "C" locale. -/
def isspace (c : Char) : Bool :=
  c = ' ' || c = '\t' || c = '\n' || c = '\x0b' || c = '\x0c' || c = '\r'

/-- Function `isdigit` of the C library. -/
def isdigit (c : Char) : Bool := decide ('0' ≤ c) && decide (c ≤ '9')

/-- The digit loop of `atoi`: accumulate decimal digits, stop at the first
character that is not a digit. -/
def atoi_digits (acc : Int) : List Char → Int
  | [] => acc
  | c :: cs => if isdigit c then atoi_digits (acc * 10 + ((c.toNat : Int) - 48)) cs else acc

/-- Function `atoi` of the C library: skip white space, read an optional sign,
then the longest run of decimal digits; the result is 0 when there is no digit.
The result is the mathematical value; C defines `atoi` only when that value is
representable as `int`. -/
def atoi (s : String) : Int :=
  match s.toList.dropWhile isspace with
  | [] => 0
  | c :: cs =>
    if c = '-' then - atoi_digits 0 cs
    else if c = '+' then atoi_digits 0 cs
    else atoi_digits 0 (c :: cs)

/-- Function `parse_config(argc, argv)`: `argv` includes the program name, so
`argc = argv.length`.  The result `none` stands for `exit(EXIT_FAILURE)`.
`uninit` is the indeterminate content of the field the function never assigns. -/
def parse_config (uninit : Int) (argv : List String) : Option config_t :=
  if argv.length ≠ NUM_ARGS then none
  else
    let config : config_t :=
      { num_skiers := atoi (argv.getD 1 "")
        num_stops := atoi (argv.getD 2 "")
        bus_capacity := atoi (argv.getD 3 "")
        max_travel_time := uninit
        max_skier_wait_time := atoi (argv.getD 4 "")
        max_bus_travel_time := atoi (argv.getD 5 "") }
    if config.num_skiers < 1 ∨ config.num_skiers > MAX_SKIERS then none
    else if config.num_stops < 1 ∨ config.num_stops > MAX_STOPS then none
    else if config.bus_capacity < 10 ∨ config.bus_capacity > 100 then none
    else if config.max_skier_wait_time < 0 ∨ config.max_skier_wait_time > 10000 then none
    else if config.max_bus_travel_time < 0 ∨ config.max_bus_travel_time > 1000 then none
    else some config

/-- The text after the sequence number and the subject of a log line. -/
inductive Verb where
  | started
  | arrived_to (n : Int)
  | boarding
  | going_to_ski
  | leaving (n : Int)
  | arrived_to_final
  | leaving_final
  | finish
  deriving DecidableEq, Repr

/-- One line of proj2.out, `"<seq>: L <id>: <verb>"` or `"<seq>: BUS: <verb>"`:
`subject = some id` is the skier `L id`, `subject = none` is `BUS`. -/
structure Line where
  seq : Int
  subject : Option Int
  verb : Verb
  deriving DecidableEq, Repr

/-- What the processes share: the two shared memory segments, the value of the
semaphore `shared_mem_sem` and the lines written to the output file so far
(oldest first). -/
structure Memory where
  skiers : List skier_t
  shared_data : shared_data_t
  sem : Nat
  output : List Line
  deriving DecidableEq, Repr

/-- POSIX `sem_wait` once the value is positive: decrement it.  While the
value is 0 the caller is blocked; every call site below tests `m.sem = 0`
first and cannot step (`none`) in that case. -/
def sem_wait (m : Memory) : Memory := { m with sem := m.sem - 1 }

/-- POSIX `sem_post`: increments the value. -/
def sem_post (m : Memory) : Memory := { m with sem := m.sem + 1 }

/-- Progress of one call `print_message(msg_type, shared_data, skiers, index, 1)`. -/
inductive PrintStage where
  /-- Line 368, before `sem_wait`. -/
  | enter
  /-- Lines 370-426: the buffer is formatted from `action_count` and written. -/
  | write
  /-- Line 427, before `shared_data->action_count++`. -/
  | count
  /-- Line 429, before `sem_post`. -/
  | leave
  deriving DecidableEq, Repr

/-- The array read `skiers[index]` of C; `none` is a read outside the array. -/
def skier_at (skiers : List skier_t) (index : Int) : Option skier_t :=
  if index < 0 then none else skiers[index.toNat]?

/-- The buffer that lines 370-423 build.  A skier message reads `skiers[index]`. -/
def format_line (msg_type : message_type_t) (shared_data : shared_data_t)
    (skiers : List skier_t) (index : Int) : Option Line :=
  match msg_type with
  | .MSG_SKIER_START =>
    (skier_at skiers index).map fun sk => ⟨shared_data.action_count, some sk.id, .started⟩
  | .MSG_SKIER_ARRIVED =>
    (skier_at skiers index).map fun sk =>
      ⟨shared_data.action_count, some sk.id, .arrived_to (sk.stop_id + 1)⟩
  | .MSG_SKIER_BOARDING =>
    (skier_at skiers index).map fun sk => ⟨shared_data.action_count, some sk.id, .boarding⟩
  | .MSG_SKIER_SKIING =>
    (skier_at skiers index).map fun sk => ⟨shared_data.action_count, some sk.id, .going_to_ski⟩
  | .MSG_BUS_START => some ⟨shared_data.action_count, none, .started⟩
  | .MSG_BUS_ARRIVED => some ⟨shared_data.action_count, none, .arrived_to (index + 1)⟩
  | .MSG_BUS_LEAVING => some ⟨shared_data.action_count, none, .leaving (index + 1)⟩
  | .MSG_BUS_ARRIVED_FINAL => some ⟨shared_data.action_count, none, .arrived_to_final⟩
  | .MSG_BUS_LEAVING_FINAL => some ⟨shared_data.action_count, none, .leaving_final⟩
  | .MSG_BUS_FINISH => some ⟨shared_data.action_count, none, .finish⟩

/-- One step of a call of `print_message` with `use_semaphore = 1`.  The
second component is the stage reached, `none` once the call has returned.
`shared_data->action_count++` (line 427) is an increment of a C `int`. -/
def print_message (msg_type : message_type_t) (index : Int) (m : Memory) :
    PrintStage → Option (Memory × Option PrintStage)
  | .enter => if m.sem = 0 then none else some (sem_wait m, some .write)
  | .write =>
    match format_line msg_type m.shared_data m.skiers index with
    | none => none
    | some buffer => some ({ m with output := m.output ++ [buffer] }, some .count)
  | .count =>
    some ({ m with shared_data :=
              { m.shared_data with action_count := wrap_int (m.shared_data.action_count + 1) } },
          some .leave)
  | .leave => some (sem_post m, none)

/-- Program points of `skibus_process`. -/
inductive BusLoc where
  /-- Line 213. -/
  | start (p : PrintStage)
  /-- Line 215. -/
  | reset_wait
  /-- Lines 216-217. -/
  | reset
  /-- Lines 218-221. -/
  | reset_post
  /-- Lines 223-224: loop test and travel sleep. -/
  | loop_head
  /-- Line 225. -/
  | arrived (p : PrintStage)
  /-- Lines 228-229: `sem_wait`, `skier_id = 0`. -/
  | board_wait
  /-- Lines 229-232: one iteration of the boarding loop up to the state change. -/
  | board_scan
  /-- Line 233. -/
  | board_post
  /-- Line 234. -/
  | boarding (p : PrintStage)
  /-- Line 235. -/
  | board_rewait
  /-- Line 236 and `skier_id++`. -/
  | board_count
  /-- Line 240. -/
  | board_end
  /-- Line 242. -/
  | leaving (p : PrintStage)
  /-- Lines 243-247: advance `stop`, test for a full round, sleep. -/
  | advance
  /-- Line 248. -/
  | arrived_final (p : PrintStage)
  /-- Lines 251-252: `sem_wait`, `skier_id = 0`. -/
  | unload_wait
  /-- Lines 252-254: one iteration of the unloading loop up to the state change. -/
  | unload_scan
  /-- Line 255. -/
  | unload_post
  /-- Line 256. -/
  | skiing (p : PrintStage)
  /-- Line 257 and `skier_id++`. -/
  | unload_rewait
  /-- Lines 260-269: reset the occupancy, run the all-finished check. -/
  | unload_reset
  /-- Line 270. -/
  | unload_end
  /-- Line 271. -/
  | leaving_final (p : PrintStage)
  /-- Line 274. -/
  | finish (p : PrintStage)
  /-- The function has returned. -/
  | done
  deriving DecidableEq, Repr

/-- The bus process: program point and the locals `stop`, `skier_id`,
`all_finished`. -/
structure BusProc where
  loc : BusLoc
  stop : Int
  skier_id : Nat
  all_finished : Bool
  deriving DecidableEq, Repr

/-- The loop of lines 264-269 over the indices still to visit: `some false` at
the first skier that is not finished (the `break`), `some true` when the loop
runs to its end. -/
def check_loop (skiers : List skier_t) : List Nat → Option Bool
  | [] => some true
  | skier_id :: rest =>
    match skiers[skier_id]? with
    | none => none
    | some sk =>
      if sk.state ≠ .SKIER_FINISHED then some false else check_loop skiers rest

/-- Lines 263-269: `all_finished` after the check over `0 .. num_skiers - 1`. -/
def check_all_finished (config : config_t) (skiers : List skier_t) : Option Bool :=
  check_loop skiers (List.range config.num_skiers.toNat)

/-- Continue a print call of the bus: stay in the call or go on to `next`. -/
def bus_print (b : BusProc) (at_stage : PrintStage → BusLoc) (next : BusLoc)
    (r : Option (Memory × Option PrintStage)) : Option (Memory × BusProc) :=
  match r with
  | none => none
  | some (m1, some p) => some (m1, { b with loc := at_stage p })
  | some (m1, none) => some (m1, { b with loc := next })

/-- One step of `skibus_process`; `none` when the process is blocked in
`sem_wait`, has returned, or reads outside the skier array. -/
def skibus_process (config : config_t) (m : Memory) (b : BusProc) :
    Option (Memory × BusProc) :=
  match b.loc with
  | .start p => bus_print b .start .reset_wait (print_message .MSG_BUS_START 0 m p)
  | .reset_wait => if m.sem = 0 then none else some (sem_wait m, { b with loc := .reset })
  | .reset =>
    some ({ m with shared_data := { m.shared_data with bus_occupied := 0, bus_stop_id := 0 } },
          { b with loc := .reset_post })
  | .reset_post => some (sem_post m, { b with loc := .loop_head, stop := 0, all_finished := false })
  | .loop_head =>
    if b.all_finished then some (m, { b with loc := .finish .enter })
    else some (m, { b with loc := .arrived .enter })
  | .arrived p => bus_print b .arrived .board_wait (print_message .MSG_BUS_ARRIVED b.stop m p)
  | .board_wait =>
    if m.sem = 0 then none else some (sem_wait m, { b with loc := .board_scan, skier_id := 0 })
  | .board_scan =>
    if (b.skier_id : Int) < config.num_skiers then
      match m.skiers[b.skier_id]? with
      | none => none
      | some sk =>
        if sk.state = .SKIER_WAITING ∧ sk.stop_id = b.stop then
          if m.shared_data.bus_occupied < config.bus_capacity then
            some ({ m with skiers := m.skiers.set b.skier_id { sk with state := .SKIER_ONRIDE } },
                  { b with loc := .board_post })
          else some (m, { b with skier_id := b.skier_id + 1 })
        else some (m, { b with skier_id := b.skier_id + 1 })
    else some (m, { b with loc := .board_end })
  | .board_post => some (sem_post m, { b with loc := .boarding .enter })
  | .boarding p =>
    bus_print b .boarding .board_rewait (print_message .MSG_SKIER_BOARDING b.skier_id m p)
  | .board_rewait =>
    if m.sem = 0 then none else some (sem_wait m, { b with loc := .board_count })
  | .board_count =>
    some ({ m with shared_data :=
              { m.shared_data with bus_occupied := m.shared_data.bus_occupied + 1 } },
          { b with loc := .board_scan, skier_id := b.skier_id + 1 })
  | .board_end => some (sem_post m, { b with loc := .leaving .enter })
  | .leaving p => bus_print b .leaving .advance (print_message .MSG_BUS_LEAVING b.stop m p)
  | .advance =>
    let stop := (b.stop + 1).tmod config.num_stops
    if stop = 0 then some (m, { b with stop := stop, loc := .arrived_final .enter })
    else some (m, { b with stop := stop, loc := .loop_head })
  | .arrived_final p =>
    bus_print b .arrived_final .unload_wait (print_message .MSG_BUS_ARRIVED_FINAL 0 m p)
  | .unload_wait =>
    if m.sem = 0 then none else some (sem_wait m, { b with loc := .unload_scan, skier_id := 0 })
  | .unload_scan =>
    if (b.skier_id : Int) < config.num_skiers then
      match m.skiers[b.skier_id]? with
      | none => none
      | some sk =>
        if sk.state = .SKIER_ONRIDE then
          some ({ m with skiers := m.skiers.set b.skier_id { sk with state := .SKIER_FINISHED } },
                { b with loc := .unload_post })
        else some (m, { b with skier_id := b.skier_id + 1 })
    else some (m, { b with loc := .unload_reset })
  | .unload_post => some (sem_post m, { b with loc := .skiing .enter })
  | .skiing p =>
    bus_print b .skiing .unload_rewait (print_message .MSG_SKIER_SKIING b.skier_id m p)
  | .unload_rewait =>
    if m.sem = 0 then none
    else some (sem_wait m, { b with loc := .unload_scan, skier_id := b.skier_id + 1 })
  | .unload_reset =>
    match check_all_finished config m.skiers with
    | none => none
    | some flag =>
      some ({ m with shared_data := { m.shared_data with bus_occupied := 0 } },
            { b with loc := .unload_end, all_finished := flag })
  | .unload_end => some (sem_post m, { b with loc := .leaving_final .enter })
  | .leaving_final p =>
    bus_print b .leaving_final .loop_head (print_message .MSG_BUS_LEAVING_FINAL 0 m p)
  | .finish p => bus_print b .finish .done (print_message .MSG_BUS_FINISH 0 m p)
  | .done => none

/-- Program points of `skier_process`. -/
inductive SkierLoc where
  /-- Line 281. -/
  | start (p : PrintStage)
  /-- Lines 282-283: breakfast sleep, then `sem_wait`. -/
  | arrive_wait
  /-- Line 284. -/
  | arrive
  /-- Line 285. -/
  | arrive_post
  /-- Line 286. -/
  | arrived (p : PrintStage)
  /-- The function has returned. -/
  | done
  deriving DecidableEq, Repr

/-- Continue a print call of a skier: stay in the call or go on to `next`. -/
def skier_print (at_stage : PrintStage → SkierLoc) (next : SkierLoc)
    (r : Option (Memory × Option PrintStage)) : Option (Memory × SkierLoc) :=
  match r with
  | none => none
  | some (m1, some p) => some (m1, at_stage p)
  | some (m1, none) => some (m1, next)

/-- One step of `skier_process(skier_id, ...)`. -/
def skier_process (skier_id : Nat) (m : Memory) : SkierLoc → Option (Memory × SkierLoc)
  | .start p => skier_print .start .arrive_wait (print_message .MSG_SKIER_START skier_id m p)
  | .arrive_wait => if m.sem = 0 then none else some (sem_wait m, .arrive)
  | .arrive =>
    match m.skiers[skier_id]? with
    | none => none
    | some sk =>
      some ({ m with skiers := m.skiers.set skier_id { sk with state := .SKIER_WAITING } },
            .arrive_post)
  | .arrive_post => some (sem_post m, .arrived .enter)
  | .arrived p => skier_print .arrived .done (print_message .MSG_SKIER_ARRIVED skier_id m p)
  | .done => none

/-- State of the simulation: the shared memory and every process. -/
structure State where
  mem : Memory
  bus : BusProc
  procs : List SkierLoc
  deriving DecidableEq, Repr

/-- The processes forked by `main`: child 0 is the bus, child `i + 1` runs
`skier_process(i, ...)`. -/
inductive Actor where
  | bus
  | skier (i : Nat)
  deriving DecidableEq, Repr

/-- The shared memory after `init_resources` succeeded (lines 48, 85-89,
114-116); `stop_of i` is the value `rand_range(0, num_stops - 1)` returned for
skier `i`. -/
def init_resources (config : config_t) (stop_of : Nat → Int) : Memory :=
  { skiers := (List.range config.num_skiers.toNat).map fun (i : Nat) =>
      { id := (i : Int) + 1, stop_id := stop_of i, state := .SKIER_BREAKFAST }
    shared_data := { bus_stop_id := 0, bus_occupied := 0, action_count := 1 }
    sem := 1
    output := [] }

/-- The simulation right after the forks of `main`, before any child ran. -/
def initial (config : config_t) (stop_of : Nat → Int) : State :=
  { mem := init_resources config stop_of
    bus := { loc := .start .enter, stop := 0, skier_id := 0, all_finished := false }
    procs := List.replicate config.num_skiers.toNat (.start .enter) }

/-- One step of the process `a`; `none` when it cannot move. -/
def step (config : config_t) (s : State) : Actor → Option State
  | .bus =>
    match skibus_process config s.mem s.bus with
    | none => none
    | some (m1, b1) => some { s with mem := m1, bus := b1 }
  | .skier i =>
    match s.procs[i]? with
    | none => none
    | some l =>
      match skier_process i s.mem l with
      | none => none
      | some (m1, l1) => some { s with mem := m1, procs := s.procs.set i l1 }

/-- The scheduler picks the process `a`: it makes one step, or the state is
left as it is when that process is blocked or has ended. -/
def next (config : config_t) (s : State) (a : Actor) : State :=
  (step config s a).getD s

/-- Run the processes in the order given by a schedule. -/
def run (config : config_t) (s : State) (schedule : List Actor) : State :=
  schedule.foldl (next config) s

/-- States the simulation can be in, under every interleaving. -/
inductive Reachable (config : config_t) (stop_of : Nat → Int) : State → Prop where
  | init : Reachable config stop_of (initial config stop_of)
  | step {s s1 : State} (a : Actor) :
      Reachable config stop_of s → step config s a = some s1 → Reachable config stop_of s1

/-- A print call holds the semaphore from after its `sem_wait` to its `sem_post`. -/
def PrintStage.holds : PrintStage → Bool
  | .enter => false
  | _ => true

/-- Program points of the bus at which it holds the semaphore. -/
def BusLoc.holds : BusLoc → Bool
  | .start p => p.holds
  | .reset => true
  | .reset_post => true
  | .arrived p => p.holds
  | .board_scan => true
  | .board_post => true
  | .boarding p => p.holds
  | .board_count => true
  | .board_end => true
  | .leaving p => p.holds
  | .arrived_final p => p.holds
  | .unload_scan => true
  | .unload_post => true
  | .skiing p => p.holds
  | .unload_reset => true
  | .unload_end => true
  | .leaving_final p => p.holds
  | .finish p => p.holds
  | _ => false

/-- Program points of a skier at which it holds the semaphore. -/
def SkierLoc.holds : SkierLoc → Bool
  | .start p => p.holds
  | .arrive => true
  | .arrive_post => true
  | .arrived p => p.holds
  | _ => false

/-- The bus has written a line and not yet incremented `action_count`. -/
def BusLoc.counting : BusLoc → Bool
  | .start .count => true
  | .arrived .count => true
  | .boarding .count => true
  | .leaving .count => true
  | .arrived_final .count => true
  | .skiing .count => true
  | .leaving_final .count => true
  | .finish .count => true
  | _ => false

/-- A skier has written a line and not yet incremented `action_count`. -/
def SkierLoc.counting : SkierLoc → Bool
  | .start .count => true
  | .arrived .count => true
  | _ => false

/-- Program points of a skier before the assignment of line 284 has run. -/
def SkierLoc.at_breakfast : SkierLoc → Bool
  | .start _ => true
  | .arrive_wait => true
  | .arrive => true
  | _ => false

/-- Program points between the state change of a boarding (line 232) and its
count (line 236). -/
def BusLoc.pending : BusLoc → Bool
  | .board_post => true
  | .boarding _ => true
  | .board_rewait => true
  | .board_count => true
  | _ => false

/-- Number of skiers that are `SKIER_ONRIDE`. -/
def on_ride (skiers : List skier_t) : Nat :=
  skiers.countP fun sk => decide (sk.state = .SKIER_ONRIDE)

/-- Replay of the event log: every `boarding` line adds one passenger, every
`arrived to final` line (the start of an unloading phase) empties the bus. -/
def replay (output : List Line) : Int :=
  output.foldl (fun occ l =>
    match l.verb with
    | .boarding => occ + 1
    | .arrived_to_final => 0
    | _ => occ) 0

/-- The sequence numbers `1, 2, ..., n`. -/
def seq_numbers (n : Nat) : List Int := (List.range n).map fun (k : Nat) => (k : Int) + 1

/-- The states visited when the processes run in the order of a schedule. -/
def trace (config : config_t) (s : State) : List Actor → List State
  | [] => [s]
  | a :: rest => s :: trace config (next config s a) rest

/-- The state history of skier `j` along a schedule: the states of its record
in the visited simulation states, repeats of the same state merged. -/
def history (config : config_t) (s : State) (schedule : List Actor) (j : Nat) :
    List skier_state_t :=
  List.destutter (· ≠ ·) ((trace config s schedule).filterMap fun t =>
    (t.mem.skiers[j]?).map fun sk => sk.state)

/-- Steps made while the bus is inside one boarding scan: from the state
`s0` the processes step in any order, as long as the bus has not reached the
`sem_post` of line 240 that ends the scan. -/
inductive ScanSteps (config : config_t) (s0 : State) : State → Prop where
  | refl : ScanSteps config s0 s0
  | step {s s1 : State} (a : Actor) :
      ScanSteps config s0 s → s.bus.loc ≠ .board_end → step config s a = some s1 →
      ScanSteps config s0 s1

/-- Steps of the bus alone inside one boarding scan, with no other process
running in between: the scan as a sequential loop, from any state `s0`. -/
inductive BusScanSteps (config : config_t) (s0 : State) : State → Prop where
  | refl : BusScanSteps config s0 s0
  | step {s s1 : State} :
      BusScanSteps config s0 s → s.bus.loc ≠ .board_end → step config s .bus = some s1 →
      BusScanSteps config s0 s1

/-- A call of `print_message` run from `sem_wait` to `sem_post` without
interruption; `none` when the semaphore is taken or `skiers[index]` does not
exist. -/
def print_message_call (m : Memory) (call : message_type_t × Int) : Option Memory :=
  match print_message call.1 call.2 m .enter with
  | some (m1, _) =>
    match print_message call.1 call.2 m1 .write with
    | some (m2, _) =>
      match print_message call.1 call.2 m2 .count with
      | some (m3, _) =>
        match print_message call.1 call.2 m3 .leave with
        | some (m4, _) => some m4
        | none => none
      | none => none
    | none => none
  | none => none

/-- A sequence of calls of `print_message`, one after the other. -/
def print_message_calls (m : Memory) : List (message_type_t × Int) → Option Memory
  | [] => some m
  | call :: rest =>
    match print_message_call m call with
    | some m1 => print_message_calls m1 rest
    | none => none

/-- The skier array and the process table keep their size, and every record
keeps the id and the stop that `init_resources` gave it. -/
def shape_inv (config : config_t) (stop_of : Nat → Int) (s : State) : Prop :=
  s.mem.skiers.length = config.num_skiers.toNat ∧ s.procs.length = config.num_skiers.toNat
    ∧ ∀ (j : Nat) (sk : skier_t), s.mem.skiers[j]? = some sk →
        sk.id = (j : Int) + 1 ∧ sk.stop_id = stop_of j

/-- A skier whose process has not yet run line 284 is still at breakfast. -/
def breakfast_inv (s : State) : Prop :=
  ∀ (j : Nat) (l : SkierLoc) (sk : skier_t), s.procs[j]? = some l → s.mem.skiers[j]? = some sk →
    l.at_breakfast = true → sk.state = .SKIER_BREAKFAST

/-- Mutual exclusion: the semaphore value plus the number of processes between
a `sem_wait` and the matching `sem_post` is 1. -/
def excl_inv (s : State) : Prop :=
  s.mem.sem + (if s.bus.loc.holds = true then 1 else 0) + s.procs.countP SkierLoc.holds = 1

/-- As long as the output has at most `INT_MAX` lines: the lines are numbered
1, 2, ...; `action_count` is the number of lines while a process has written
its line and not yet incremented the counter; at any other time, with fewer
than `INT_MAX` lines, it is the number of lines plus one. -/
def seq_inv (s : State) : Prop :=
  (s.mem.output.length : Int) ≤ INT_MAX →
    s.mem.output.map Line.seq = seq_numbers s.mem.output.length
    ∧ ((s.bus.loc.counting = true ∨ 0 < s.procs.countP SkierLoc.counting) →
        s.mem.shared_data.action_count = (s.mem.output.length : Int))
    ∧ (s.bus.loc.counting = false → s.procs.countP SkierLoc.counting = 0 →
        (s.mem.output.length : Int) < INT_MAX →
        s.mem.shared_data.action_count = (s.mem.output.length : Int) + 1)

/-- Part of the bus loop a program point belongs to, as far as the passenger
count is concerned. -/
inductive Phase where
  | init
  | steady
  | pending
  | unloading
  | unloaded_one
  | cleared
  | emptied
  deriving DecidableEq, Repr

/-- The phase of a program point of the bus: `pending` between the state
change of a boarding and its count, `unloading` and `unloaded_one` inside the
unloading loop, `cleared` at its end, `emptied` after the reset of line 260,
`init` before the first reset, `steady` everywhere else. -/
def BusLoc.phase : BusLoc → Phase
  | .start _ => .init
  | .reset_wait => .init
  | .reset => .init
  | .board_post => .pending
  | .boarding _ => .pending
  | .board_rewait => .pending
  | .board_count => .pending
  | .unload_scan => .unloading
  | .unload_post => .unloaded_one
  | .skiing _ => .unloaded_one
  | .unload_rewait => .unloaded_one
  | .unload_reset => .cleared
  | .unload_end => .emptied
  | .leaving_final _ => .emptied
  | _ => .steady

/-- Relation of the number of riders to `bus_occupied`, phase by phase. -/
def count_inv (s : State) : Prop :=
  match s.bus.loc.phase with
  | .init => on_ride s.mem.skiers = 0 ∧ s.mem.shared_data.bus_occupied = 0
  | .steady => (on_ride s.mem.skiers : Int) = s.mem.shared_data.bus_occupied
  | .pending => (on_ride s.mem.skiers : Int) = s.mem.shared_data.bus_occupied + 1
  | .unloading => ∀ (j : Nat) (sk : skier_t), j < s.bus.skier_id → s.mem.skiers[j]? = some sk →
      sk.state ≠ .SKIER_ONRIDE
  | .unloaded_one => ∀ (j : Nat) (sk : skier_t), j < s.bus.skier_id + 1 →
      s.mem.skiers[j]? = some sk → sk.state ≠ .SKIER_ONRIDE
  | .cleared => on_ride s.mem.skiers = 0
  | .emptied => on_ride s.mem.skiers = 0 ∧ s.mem.shared_data.bus_occupied = 0

/-- The occupancy is within the capacity, and strictly below it while a
boarding is in flight. -/
def occ_inv (config : config_t) (s : State) : Prop :=
  0 ≤ s.mem.shared_data.bus_occupied ∧ s.mem.shared_data.bus_occupied ≤ config.bus_capacity
    ∧ (s.bus.loc.pending = true → s.mem.shared_data.bus_occupied < config.bus_capacity)

/-- The shared field `bus_stop_id` is 0. -/
def stop_inv (s : State) : Prop := s.mem.shared_data.bus_stop_id = 0

/-- How the replayed log relates to `bus_occupied` at a program point. -/
inductive LogPhase where
  | equal
  | ahead
  | emptied
  deriving DecidableEq, Repr

/-- The program points at which the replayed log is one boarding ahead of
`bus_occupied` (`boarding` written, line 236 not yet run), at which it is
already emptied (`arrived to final` written, line 260 not yet run), or equal. -/
def BusLoc.log_phase : BusLoc → LogPhase
  | .boarding .count => .ahead
  | .boarding .leave => .ahead
  | .board_rewait => .ahead
  | .board_count => .ahead
  | .arrived_final .count => .emptied
  | .arrived_final .leave => .emptied
  | .unload_wait => .emptied
  | .unload_scan => .emptied
  | .unload_post => .emptied
  | .skiing _ => .emptied
  | .unload_rewait => .emptied
  | .unload_reset => .emptied
  | _ => .equal

/-- Relation of the replayed log to `bus_occupied`, phase by phase. -/
def replay_inv (s : State) : Prop :=
  match s.bus.loc.log_phase with
  | .equal => replay s.mem.output = s.mem.shared_data.bus_occupied
  | .ahead => replay s.mem.output = s.mem.shared_data.bus_occupied + 1
  | .emptied => replay s.mem.output = 0

/-- Program points the bus can be at once `all_finished` is set. -/
def BusLoc.after_check : BusLoc → Bool
  | .unload_end => true
  | .leaving_final _ => true
  | .loop_head => true
  | .finish _ => true
  | .done => true
  | _ => false

/-- Program points after the exit of the main loop. -/
def BusLoc.finishing : BusLoc → Bool
  | .finish _ => true
  | .done => true
  | _ => false

/-- Program points at which the line `BUS: finish` has been written. -/
def BusLoc.finish_logged : BusLoc → Bool
  | .finish .count => true
  | .finish .leave => true
  | .done => true
  | _ => false

/-- The flag `all_finished` is set only when every skier is finished and the
bus is between the end of an unloading phase and its return; the bus is past
its loop only with the flag set; `finish` is in the log only past the loop. -/
def fin_inv (s : State) : Prop :=
  (s.bus.all_finished = true →
      (∀ sk ∈ s.mem.skiers, sk.state = .SKIER_FINISHED) ∧ s.bus.loc.after_check = true)
    ∧ (s.bus.loc.finishing = true → s.bus.all_finished = true)
    ∧ ((∃ l ∈ s.mem.output, l.verb = .finish) → s.bus.loc.finish_logged = true)

/-- The invariants of the simulation that hold for every configuration. -/
structure AllInv (config : config_t) (stop_of : Nat → Int) (s : State) : Prop where
  shape : shape_inv config stop_of s
  breakfast : breakfast_inv s
  excl : excl_inv s
  seq : seq_inv s
  count : count_inv s
  replay : replay_inv s
  fin : fin_inv s
  stop : stop_inv s

/-- The successor of a skier state in the life cycle, if it has one. -/
def skier_state_t.succ : skier_state_t → Option skier_state_t
  | .SKIER_BREAKFAST => some .SKIER_WAITING
  | .SKIER_WAITING => some .SKIER_ONRIDE
  | .SKIER_ONRIDE => some .SKIER_FINISHED
  | .SKIER_FINISHED => none

/-- Program points of one boarding scan, from after the `sem_wait` of line 228
to the `sem_post` of line 240. -/
def BusLoc.in_scan : BusLoc → Bool
  | .board_scan => true
  | .board_post => true
  | .boarding _ => true
  | .board_rewait => true
  | .board_count => true
  | .board_end => true
  | _ => false

/-- Inside a boarding scan at stop `S`: the skiers at the indices `a < b`
wait or ride, b rides only if a does, and a still waits only if the scan has
not reached it yet or the bus is full. -/
def scan_order_inv (config : config_t) (a b : Nat) (S : Int) (s : State) : Prop :=
  s.bus.stop = S ∧ s.bus.loc.in_scan = true ∧
  ∃ ska skb, s.mem.skiers[a]? = some ska ∧ s.mem.skiers[b]? = some skb
    ∧ (ska.state = .SKIER_WAITING ∨ ska.state = .SKIER_ONRIDE)
    ∧ (skb.state = .SKIER_WAITING ∨ skb.state = .SKIER_ONRIDE)
    ∧ ska.stop_id = S ∧ skb.stop_id = S
    ∧ (skb.state = .SKIER_ONRIDE → ska.state = .SKIER_ONRIDE)
    ∧ (ska.state = .SKIER_WAITING →
        (s.bus.skier_id < a ∨ (s.bus.skier_id = a ∧ s.bus.loc = .board_scan))
        ∨ config.bus_capacity ≤ s.mem.shared_data.bus_occupied)

/-- Inside a boarding scan at stop `S` that started with one free seat and no
waiting skier below index `a`: b waits, and either the scan has not passed a
(one seat free), or a is being boarded, or a rides and the bus is full. -/
def one_seat_inv (config : config_t) (a b : Nat) (S : Int) (s : State) : Prop :=
  ∃ ska skb, s.mem.skiers[a]? = some ska ∧ s.mem.skiers[b]? = some skb
    ∧ skb.state = .SKIER_WAITING
    ∧ ((s.bus.loc = .board_scan ∧ s.bus.skier_id ≤ a
          ∧ s.mem.shared_data.bus_occupied + 1 = config.bus_capacity
          ∧ ska.state = .SKIER_WAITING ∧ ska.stop_id = S ∧ s.bus.stop = S
          ∧ ∀ (j : Nat) (sk : skier_t), s.bus.skier_id ≤ j → j < a → s.mem.skiers[j]? = some sk →
              ¬ (sk.state = .SKIER_WAITING ∧ sk.stop_id = S))
      ∨ (s.bus.loc.pending = true
          ∧ s.mem.shared_data.bus_occupied + 1 = config.bus_capacity
          ∧ ska.state = .SKIER_ONRIDE)
      ∨ (s.mem.shared_data.bus_occupied = config.bus_capacity ∧ ska.state = .SKIER_ONRIDE
          ∧ (s.bus.loc = .board_scan ∨ s.bus.loc = .board_end)))

/-- The life cycle from a state on. -/
def chain_from : skier_state_t → List skier_state_t
  | .SKIER_BREAKFAST => [.SKIER_BREAKFAST, .SKIER_WAITING, .SKIER_ONRIDE, .SKIER_FINISHED]
  | .SKIER_WAITING => [.SKIER_WAITING, .SKIER_ONRIDE, .SKIER_FINISHED]
  | .SKIER_ONRIDE => [.SKIER_ONRIDE, .SKIER_FINISHED]
  | .SKIER_FINISHED => [.SKIER_FINISHED]

/-- A valid configuration with two skiers and one stop. -/
def demo_config : config_t :=
  { num_skiers := 2, num_stops := 1, bus_capacity := 10, max_travel_time := 0,
    max_skier_wait_time := 0, max_bus_travel_time := 0 }

/-- The process `a` is scheduled `n` times in a row. -/
def times (n : Nat) (a : Actor) : List Actor := List.replicate n a

/-- Skier 1 of `demo_config` runs up to its arrival, then the bus runs until it
has changed the state of skier 1 to `SKIER_ONRIDE` and released the semaphore
(line 233). -/
def demo_schedule : List Actor := times 7 (.skier 0) ++ times 15 .bus

/-- Message types whose line starts with `L <id>` and reads `skiers[index]`. -/
def message_type_t.about_skier : message_type_t → Bool
  | .MSG_SKIER_START => true
  | .MSG_SKIER_ARRIVED => true
  | .MSG_SKIER_BOARDING => true
  | .MSG_SKIER_SKIING => true
  | _ => false

/-- A valid configuration with eleven skiers and two stops. -/
def full_config : config_t :=
  { num_skiers := 11, num_stops := 2, bus_capacity := 10, max_travel_time := 0,
    max_skier_wait_time := 0, max_bus_travel_time := 0 }

/-- Stops for `full_config`: skiers 1 to 9 are assigned the first stop, skiers
10 and 11 the second. -/
def full_stops (i : Nat) : Int := if i < 9 then 0 else 1

/-- Every skier of `full_config` runs up to its arrival; then the bus boards
nine skiers at the first stop and runs until it starts the boarding scan at the
second stop, with one free seat. -/
def full_schedule : List Actor :=
  ((List.range 11).map fun i => times 7 (.skier i)).flatten ++ times 13 .bus ++ times 87 .bus

/-- A schedule stays inside one boarding scan: every scheduled process can step
and the bus has not ended the scan before any of the steps. -/
def scan_path (config : config_t) : State → List Actor → Bool
  | _, [] => true
  | s, a :: rest =>
    decide (s.bus.loc ≠ .board_end) && (step config s a).isSome
      && scan_path config (next config s a) rest

/-- Both skiers of `demo_config` run to their end, then the bus runs up to the
end of the unloading loop of its first round (before line 260). -/
def round_schedule : List Actor := times 11 (.skier 0) ++ times 11 (.skier 1) ++ times 56 .bus

/-- A valid configuration with three skiers, two stops and a hundred seats. -/
def seat_config : config_t :=
  { num_skiers := 3, num_stops := 2, bus_capacity := 100, max_travel_time := 0,
    max_skier_wait_time := 0, max_bus_travel_time := 0 }

/-- A state of `seat_config` at the start of a boarding scan at the first stop:
skiers 2 and 3 wait there, skier 1 waits at the second stop, and 99 of the 100
seats are taken. -/
def seat_state : State :=
  { mem := { skiers := [⟨1, 1, .SKIER_WAITING⟩, ⟨2, 0, .SKIER_WAITING⟩, ⟨3, 0, .SKIER_WAITING⟩]
             shared_data := { bus_stop_id := 0, bus_occupied := 99, action_count := 1 }
             sem := 0
             output := [] }
    bus := { loc := .board_scan, stop := 0, skier_id := 0, all_finished := false }
    procs := [.done, .done, .done] }

/-- A valid configuration with one skier and two stops. -/
def two_stops_config : config_t :=
  { num_skiers := 1, num_stops := 2, bus_capacity := 10, max_travel_time := 0,
    max_skier_wait_time := 0, max_bus_travel_time := 0 }

/-- The five range checks of `parse_config` (lines 310-329). -/
def in_ranges (n1 n2 n3 n4 n5 : Int) : Prop :=
  (1 ≤ n1 ∧ n1 ≤ 20000) ∧ (1 ≤ n2 ∧ n2 ≤ 10) ∧ (10 ≤ n3 ∧ n3 ≤ 100)
    ∧ (0 ≤ n4 ∧ n4 ≤ 10000) ∧ (0 ≤ n5 ∧ n5 ≤ 1000)

/-- The range checks are decidable. -/
instance in_ranges_decidable (n1 n2 n3 n4 n5 : Int) : Decidable (in_ranges n1 n2 n3 n4 n5) := by
  unfold in_ranges; infer_instance

/-- Program points of the bus at a `sem_wait`. -/
def BusLoc.waits : BusLoc → Bool
  | .start .enter => true
  | .reset_wait => true
  | .arrived .enter => true
  | .board_wait => true
  | .boarding .enter => true
  | .board_rewait => true
  | .leaving .enter => true
  | .arrived_final .enter => true
  | .unload_wait => true
  | .skiing .enter => true
  | .unload_rewait => true
  | .leaving_final .enter => true
  | .finish .enter => true
  | _ => false

/-- Program points of a skier at a `sem_wait`. -/
def SkierLoc.waits : SkierLoc → Bool
  | .start .enter => true
  | .arrive_wait => true
  | .arrived .enter => true
  | _ => false

/-- Program points at which the bus works on the record `skiers[skier_id]` that
passed the loop test `skier_id < num_skiers`. -/
def BusLoc.at_skier : BusLoc → Bool
  | .board_post => true
  | .boarding _ => true
  | .board_rewait => true
  | .board_count => true
  | .unload_post => true
  | .skiing _ => true
  | .unload_rewait => true
  | _ => false

/-- Between the loop test and the increment of `skier_id` the index is inside
the skier array. -/
def idx_inv (config : config_t) (s : State) : Prop :=
  s.bus.loc.at_skier = true → (s.bus.skier_id : Int) < config.num_skiers

/-- Once `BUS: finish` has been written it is in the log. -/
def finish_inv (s : State) : Prop :=
  s.bus.loc.finish_logged = true → ∃ l ∈ s.mem.output, l.subject = none ∧ l.verb = .finish

/-- Steps left in a call of `print_message`. -/
def PrintStage.left : PrintStage → Nat
  | .enter => 4
  | .write => 3
  | .count => 2
  | .leave => 1

/-- Steps a skier process still makes before it returns. -/
def SkierLoc.left : SkierLoc → Nat
  | .start p => 7 + p.left
  | .arrive_wait => 7
  | .arrive => 6
  | .arrive_post => 5
  | .arrived p => p.left
  | .done => 0

/-- Steps all skier processes together still make. -/
def procs_left (procs : List SkierLoc) : Nat := (procs.map SkierLoc.left).sum

/-- Steps the bus still makes from the end of an unloading phase that found
every skier finished to its return. -/
def BusLoc.exit_left : BusLoc → Nat
  | .unload_reset => 11
  | .unload_end => 10
  | .leaving_final p => 5 + p.left
  | .loop_head => 5
  | .finish p => p.left
  | _ => 0

/-- Upper bound of the steps the bus still makes up to the end of the boarding
scan: eight steps for a skier that boards, one for a skier that is passed over,
one for the loop exit. -/
def scan_left (config : config_t) (b : BusProc) : Nat :=
  match b.loc with
  | .board_scan => 8 * (config.num_skiers.toNat - b.skier_id) + 1
  | .board_post => 8 * (config.num_skiers.toNat - b.skier_id - 1) + 8
  | .boarding p => 8 * (config.num_skiers.toNat - b.skier_id - 1) + 3 + p.left
  | .board_rewait => 8 * (config.num_skiers.toNat - b.skier_id - 1) + 3
  | .board_count => 8 * (config.num_skiers.toNat - b.skier_id - 1) + 2
  | _ => 0

/-- Every process of the schedule can step when its turn comes. -/
def enabled_path (config : config_t) : State → List Actor → Bool
  | _, [] => true
  | s, a :: rest => (step config s a).isSome && enabled_path config (next config s a) rest

/-! ## Theorems -/

theorem bus_print_enter (b : BusProc) (f : PrintStage → BusLoc) (n : BusLoc)
    (msg : message_type_t) (index : Int) (m : Memory) :
    bus_print b f n (print_message msg index m .enter)
      = if m.sem = 0 then none else some (sem_wait m, { b with loc := f .write }) := by
  simp only [print_message]; split <;> rfl

theorem bus_print_write (b : BusProc) (f : PrintStage → BusLoc) (n : BusLoc)
    (msg : message_type_t) (index : Int) (m : Memory) :
    bus_print b f n (print_message msg index m .write)
      = match format_line msg m.shared_data m.skiers index with
        | none => none
        | some buffer =>
          some ({ m with output := m.output ++ [buffer] }, { b with loc := f .count }) := by
  simp only [print_message]; split <;> rfl

theorem bus_print_count (b : BusProc) (f : PrintStage → BusLoc) (n : BusLoc)
    (msg : message_type_t) (index : Int) (m : Memory) :
    bus_print b f n (print_message msg index m .count)
      = some ({ m with shared_data :=
                  { m.shared_data with
                    action_count := wrap_int (m.shared_data.action_count + 1) } },
              { b with loc := f .leave }) := rfl

theorem bus_print_leave (b : BusProc) (f : PrintStage → BusLoc) (n : BusLoc)
    (msg : message_type_t) (index : Int) (m : Memory) :
    bus_print b f n (print_message msg index m .leave)
      = some (sem_post m, { b with loc := n }) := rfl

theorem skier_print_enter (f : PrintStage → SkierLoc) (n : SkierLoc)
    (msg : message_type_t) (index : Int) (m : Memory) :
    skier_print f n (print_message msg index m .enter)
      = if m.sem = 0 then none else some (sem_wait m, f .write) := by
  simp only [print_message]; split <;> rfl

theorem skier_print_write (f : PrintStage → SkierLoc) (n : SkierLoc)
    (msg : message_type_t) (index : Int) (m : Memory) :
    skier_print f n (print_message msg index m .write)
      = match format_line msg m.shared_data m.skiers index with
        | none => none
        | some buffer => some ({ m with output := m.output ++ [buffer] }, f .count) := by
  simp only [print_message]; split <;> rfl

theorem skier_print_count (f : PrintStage → SkierLoc) (n : SkierLoc)
    (msg : message_type_t) (index : Int) (m : Memory) :
    skier_print f n (print_message msg index m .count)
      = some ({ m with shared_data :=
                  { m.shared_data with
                    action_count := wrap_int (m.shared_data.action_count + 1) } },
              f .leave) := rfl

theorem skier_print_leave (f : PrintStage → SkierLoc) (n : SkierLoc)
    (msg : message_type_t) (index : Int) (m : Memory) :
    skier_print f n (print_message msg index m .leave) = some (sem_post m, n) := rfl

/-- What `format_line` puts into the buffer. -/
theorem format_line_some {msg : message_type_t} {sd : shared_data_t} {sks : List skier_t}
    {index : Int} {l : Line} (h : format_line msg sd sks index = some l) :
    l.seq = sd.action_count
      ∧ (l.verb = .boarding ↔ msg = .MSG_SKIER_BOARDING)
      ∧ (l.verb = .arrived_to_final ↔ msg = .MSG_BUS_ARRIVED_FINAL)
      ∧ (l.verb = .finish ↔ msg = .MSG_BUS_FINISH) := by
  cases msg <;> simp only [format_line, Option.map_eq_some', Option.some.injEq] at h
  all_goals (obtain ⟨sk, _, rfl⟩ := h; simp)

theorem step_bus_inv {config : config_t} {s s1 : State} (h : step config s .bus = some s1) :
    skibus_process config s.mem s.bus = some (s1.mem, s1.bus) ∧ s1.procs = s.procs := by
  simp only [step] at h
  split at h
  · cases h
  · next m1 b1 heq => cases h; exact ⟨heq, rfl⟩

theorem step_skier_inv {config : config_t} {s s1 : State} {j : Nat}
    (h : step config s (.skier j) = some s1) :
    ∃ l l1, s.procs[j]? = some l ∧ skier_process j s.mem l = some (s1.mem, l1)
      ∧ s1.procs = s.procs.set j l1 ∧ s1.bus = s.bus := by
  simp only [step] at h
  split at h
  · cases h
  · next l hl =>
    split at h
    · cases h
    · next m1 l1 heq => cases h; exact ⟨l, l1, hl, heq, rfl, rfl⟩

theorem countP_set_add {α : Type} (p : α → Bool) (l : List α) (i : Nat) (x a : α)
    (h : l[i]? = some x) :
    (l.set i a).countP p + (if p x = true then 1 else 0)
      = l.countP p + (if p a = true then 1 else 0) := by
  induction l generalizing i with
  | nil => simp at h
  | cons y ys ih =>
    cases i with
    | zero =>
      simp only [List.getElem?_cons_zero, Option.some.injEq] at h
      subst h
      simp only [List.set_cons_zero, List.countP_cons]
      omega
    | succ k =>
      simp only [List.getElem?_cons_succ] at h
      have := ih k h
      simp only [List.set_cons_succ, List.countP_cons]
      omega

theorem countP_lt_countP {α : Type} (p q : α → Bool) (hqp : ∀ x, q x = true → p x = true)
    (l : List α) (i : Nat) (x : α) (h : l[i]? = some x) (hp : p x = true) (hq : q x = false) :
    l.countP q + 1 ≤ l.countP p := by
  induction l generalizing i with
  | nil => simp at h
  | cons y ys ih =>
    have hmono : ys.countP q ≤ ys.countP p := List.countP_mono_left (fun x _ => hqp x)
    cases i with
    | zero =>
      simp only [List.getElem?_cons_zero, Option.some.injEq] at h
      subst h
      simp only [List.countP_cons, hp, hq, if_true]
      simp
      omega
    | succ k =>
      simp only [List.getElem?_cons_succ] at h
      have := ih k h
      simp only [List.countP_cons]
      by_cases h1 : q y = true
      · simp only [h1, hqp y h1, if_true]; omega
      · by_cases h2 : p y = true
        · simp [h1, h2]; omega
        · simp [h1, h2]; omega

theorem skibus_process_skiers {config : config_t} {m m1 : Memory} {b b1 : BusProc}
    (h : skibus_process config m b = some (m1, b1)) :
    m1.skiers = m.skiers ∨
    ∃ sk st, m.skiers[b.skier_id]? = some sk
      ∧ m1.skiers = m.skiers.set b.skier_id { sk with state := st }
      ∧ b1.skier_id = b.skier_id ∧ (b.skier_id : Int) < config.num_skiers
      ∧ ((b.loc = .board_scan ∧ sk.state = .SKIER_WAITING ∧ sk.stop_id = b.stop
            ∧ m.shared_data.bus_occupied < config.bus_capacity
            ∧ st = .SKIER_ONRIDE ∧ b1.loc = .board_post)
          ∨ (b.loc = .unload_scan ∧ sk.state = .SKIER_ONRIDE
            ∧ st = .SKIER_FINISHED ∧ b1.loc = .unload_post)) := by
  obtain ⟨loc, stop, i, af⟩ := b
  cases loc <;> (try (rename_i p; cases p))
    <;> simp only [skibus_process, bus_print_enter, bus_print_write, bus_print_count,
        bus_print_leave] at h
    <;> (repeat' split at h)
    <;> cases h
    <;> first
      | (left; rfl)
      | (right; exact ⟨_, _, by assumption, rfl, rfl, by assumption, by simp_all⟩)

theorem skier_process_skiers {j : Nat} {m m1 : Memory} {l l1 : SkierLoc}
    (h : skier_process j m l = some (m1, l1)) :
    m1.skiers = m.skiers ∨
    ∃ sk, m.skiers[j]? = some sk ∧ l = .arrive ∧ l1 = .arrive_post
      ∧ m1.skiers = m.skiers.set j { sk with state := .SKIER_WAITING } := by
  cases l <;> (try (rename_i p; cases p))
    <;> simp only [skier_process, skier_print_enter, skier_print_write, skier_print_count,
        skier_print_leave] at h
    <;> (repeat' split at h)
    <;> cases h
    <;> first
      | (left; rfl)
      | (right; exact ⟨_, by assumption, rfl, rfl, rfl⟩)

/-- Reading the array after one record changed its state. -/
theorem getElem?_set_state {sks : List skier_t} {i j : Nat} {sk0 sk : skier_t}
    {st : skier_state_t}
    (h : (sks.set i { sk0 with state := st })[j]? = some sk) :
    (i = j ∧ sk = { sk0 with state := st }) ∨ (i ≠ j ∧ sks[j]? = some sk) := by
  rw [List.getElem?_set] at h
  split at h
  · next hij =>
    split at h
    · left; exact ⟨hij, by cases h; rfl⟩
    · cases h
  · next hij => right; exact ⟨hij, h⟩

theorem getElem?_set_state_rev {sks : List skier_t} {i j : Nat} {sk0 sk : skier_t}
    {st : skier_state_t} (h0 : sks[i]? = some sk0) (h : sks[j]? = some sk) :
    (sks.set i { sk0 with state := st })[j]?
      = some (if i = j then { sk0 with state := st } else sk) := by
  rw [List.getElem?_set]
  split
  · next hij =>
    subst hij
    have : i < sks.length := (List.getElem?_eq_some_iff.1 h0).1
    simp [this]
  · exact h

theorem skier_process_breakfast {j : Nat} {m m1 : Memory} {l l1 : SkierLoc}
    (h : skier_process j m l = some (m1, l1)) (h1 : l1.at_breakfast = true) :
    l.at_breakfast = true ∧ m1.skiers = m.skiers := by
  cases l <;> (try (rename_i p; cases p))
    <;> simp only [skier_process, skier_print_enter, skier_print_write, skier_print_count,
        skier_print_leave] at h
    <;> (repeat' split at h)
    <;> cases h
    <;> simp_all [SkierLoc.at_breakfast, sem_wait, sem_post]

theorem shape_inv_init (config : config_t) (stop_of : Nat → Int) :
    shape_inv config stop_of (initial config stop_of) := by
  refine ⟨by simp [initial, init_resources], by simp [initial], ?_⟩
  intro j sk h
  simp only [initial, init_resources, List.getElem?_map, Option.map_eq_some'] at h
  obtain ⟨k, hk, rfl⟩ := h
  rw [List.getElem?_range] at hk
  · cases hk; simp
  · by_contra hc
    rw [List.getElem?_eq_none (by simpa using hc)] at hk
    cases hk

theorem breakfast_inv_init (config : config_t) (stop_of : Nat → Int) :
    breakfast_inv (initial config stop_of) := by
  intro j l sk _ h _
  simp only [initial, init_resources, List.getElem?_map, Option.map_eq_some'] at h
  obtain ⟨k, _, rfl⟩ := h
  rfl

theorem shape_inv_step {config : config_t} {stop_of : Nat → Int} {s s1 : State} {a : Actor}
    (h : step config s a = some s1) (hi : shape_inv config stop_of s) :
    shape_inv config stop_of s1 := by
  obtain ⟨h1, h2, h3⟩ := hi
  cases a with
  | bus =>
    obtain ⟨hb, hp⟩ := step_bus_inv h
    rcases skibus_process_skiers hb with e | ⟨sk, st, hsk, e, -⟩
    · rw [shape_inv, e, hp]; exact ⟨h1, h2, h3⟩
    · rw [shape_inv, e, hp]
      refine ⟨by simpa using h1, h2, ?_⟩
      intro j sk' hj
      rcases getElem?_set_state hj with ⟨rfl, rfl⟩ | ⟨_, hj'⟩
      · exact h3 _ sk hsk
      · exact h3 _ _ hj'
  | skier k =>
    obtain ⟨l, l1, hl, hs, hp, -⟩ := step_skier_inv h
    rcases skier_process_skiers hs with e | ⟨sk, hsk, -, -, e⟩
    · rw [shape_inv, e, hp]; exact ⟨h1, by simpa using h2, h3⟩
    · rw [shape_inv, e, hp]
      refine ⟨by simpa using h1, by simpa using h2, ?_⟩
      intro j sk' hj
      rcases getElem?_set_state hj with ⟨rfl, rfl⟩ | ⟨_, hj'⟩
      · exact h3 _ sk hsk
      · exact h3 _ _ hj'

theorem breakfast_inv_step {config : config_t} {s s1 : State} {a : Actor}
    (h : step config s a = some s1) (hi : breakfast_inv s) : breakfast_inv s1 := by
  cases a with
  | bus =>
    obtain ⟨hb, hp⟩ := step_bus_inv h
    rcases skibus_process_skiers hb with e | ⟨sk, st, hsk, e, -, -, hk⟩
    · intro j l sk hl hj; rw [hp] at hl; rw [e] at hj; exact hi j l sk hl hj
    · intro j l sk' hl hj hbf
      rw [hp] at hl; rw [e] at hj
      rcases getElem?_set_state hj with ⟨rfl, rfl⟩ | ⟨_, hj'⟩
      · have := hi _ l sk hl hsk hbf
        rcases hk with ⟨-, hw, -⟩ | ⟨-, hw, -⟩ <;> rw [this] at hw <;> cases hw
      · exact hi j l sk' hl hj' hbf
  | skier k =>
    obtain ⟨l, l1, hl, hs, hp, -⟩ := step_skier_inv h
    intro j l' sk' hl' hj hbf
    rw [hp, List.getElem?_set] at hl'
    split at hl'
    · next hkj =>
      subst hkj
      split at hl'
      · cases hl'
        obtain ⟨hb0, e⟩ := skier_process_breakfast hs hbf
        rw [e] at hj
        exact hi _ l sk' hl hj hb0
      · cases hl'
    · next hkj =>
      rcases skier_process_skiers hs with e | ⟨sk, hsk, -, -, e⟩
      · rw [e] at hj; exact hi j l' sk' hl' hj hbf
      · rw [e] at hj
        rcases getElem?_set_state hj with ⟨rfl, -⟩ | ⟨_, hj'⟩
        · exact absurd rfl hkj
        · exact hi j l' sk' hl' hj' hbf

/-- Semaphore, output and counter across one step of the bus. -/
theorem skibus_process_sync {config : config_t} {m m1 : Memory} {b b1 : BusProc}
    (h : skibus_process config m b = some (m1, b1)) :
    m1.sem + (if b1.loc.holds = true then 1 else 0) = m.sem + (if b.loc.holds = true then 1 else 0)
    ∧ (b.loc.counting = true → b.loc.holds = true) ∧ (b1.loc.counting = true → b1.loc.holds = true)
    ∧ ((m1.output = m.output ∧ m1.shared_data.action_count = m.shared_data.action_count
          ∧ b1.loc.counting = b.loc.counting)
        ∨ (m1.output = m.output
          ∧ m1.shared_data.action_count = wrap_int (m.shared_data.action_count + 1)
          ∧ b.loc.counting = true ∧ b1.loc.counting = false)
        ∨ (∃ l, l.seq = m.shared_data.action_count ∧ m1.output = m.output ++ [l]
            ∧ m1.shared_data.action_count = m.shared_data.action_count
            ∧ b.loc.holds = true ∧ b.loc.counting = false ∧ b1.loc.counting = true)) := by
  obtain ⟨loc, stop, i, af⟩ := b
  cases loc <;> (try (rename_i p; cases p))
    <;> simp only [skibus_process, bus_print_enter, bus_print_write, bus_print_count,
        bus_print_leave] at h
    <;> (repeat' split at h)
    <;> cases h
    <;> refine ⟨?_, by simp [BusLoc.counting, BusLoc.holds, PrintStage.holds],
          by simp [BusLoc.counting, BusLoc.holds, PrintStage.holds], ?_⟩
    <;> first
      | (simp [BusLoc.holds, PrintStage.holds, sem_wait, sem_post]; done)
      | (simp [BusLoc.holds, PrintStage.holds, sem_wait, sem_post]; omega)
      | (left; simp [BusLoc.counting, sem_wait, sem_post]; done)
      | (right; left; exact ⟨rfl, rfl, rfl, rfl⟩)
      | (right; right
         exact ⟨_, (format_line_some (by assumption)).1, rfl, rfl, rfl, rfl, rfl⟩)

/-- Semaphore, output and counter across one step of a skier. -/
theorem skier_process_sync {j : Nat} {m m1 : Memory} {l l1 : SkierLoc}
    (h : skier_process j m l = some (m1, l1)) :
    m1.sem + (if l1.holds = true then 1 else 0) = m.sem + (if l.holds = true then 1 else 0)
    ∧ (l.counting = true → l.holds = true) ∧ (l1.counting = true → l1.holds = true)
    ∧ ((m1.output = m.output ∧ m1.shared_data.action_count = m.shared_data.action_count
          ∧ l1.counting = l.counting)
        ∨ (m1.output = m.output
          ∧ m1.shared_data.action_count = wrap_int (m.shared_data.action_count + 1)
          ∧ l.counting = true ∧ l1.counting = false)
        ∨ (∃ ln, ln.seq = m.shared_data.action_count ∧ m1.output = m.output ++ [ln]
            ∧ m1.shared_data.action_count = m.shared_data.action_count
            ∧ l.holds = true ∧ l.counting = false ∧ l1.counting = true)) := by
  cases l <;> (try (rename_i p; cases p))
    <;> simp only [skier_process, skier_print_enter, skier_print_write, skier_print_count,
        skier_print_leave] at h
    <;> (repeat' split at h)
    <;> cases h
    <;> refine ⟨?_, by simp [SkierLoc.counting, SkierLoc.holds, PrintStage.holds],
          by simp [SkierLoc.counting, SkierLoc.holds, PrintStage.holds], ?_⟩
    <;> first
      | (simp [SkierLoc.holds, PrintStage.holds, sem_wait, sem_post]; done)
      | (simp [SkierLoc.holds, PrintStage.holds, sem_wait, sem_post]; omega)
      | (left; simp [SkierLoc.counting, sem_wait, sem_post]; done)
      | (right; left; exact ⟨rfl, rfl, rfl, rfl⟩)
      | (right; right
         exact ⟨_, (format_line_some (by assumption)).1, rfl, rfl, rfl, rfl, rfl⟩)

theorem skier_counting_holds (l : SkierLoc) (h : l.counting = true) : l.holds = true := by
  cases l <;> (try (rename_i p; cases p)) <;> simp_all [SkierLoc.counting, SkierLoc.holds, PrintStage.holds]

theorem bus_counting_holds (l : BusLoc) (h : l.counting = true) : l.holds = true := by
  cases l <;> (try (rename_i p; cases p))
    <;> simp_all [BusLoc.counting, BusLoc.holds, PrintStage.holds]

theorem excl_inv_init (config : config_t) (stop_of : Nat → Int) :
    excl_inv (initial config stop_of) := by
  simp [excl_inv, initial, init_resources, BusLoc.holds, PrintStage.holds, List.countP_replicate,
    SkierLoc.holds]

theorem excl_inv_step {config : config_t} {s s1 : State} {a : Actor}
    (h : step config s a = some s1) (hi : excl_inv s) : excl_inv s1 := by
  unfold excl_inv at hi ⊢
  cases a with
  | bus =>
    obtain ⟨hb, hp⟩ := step_bus_inv h
    have := (skibus_process_sync hb).1
    rw [hp]; omega
  | skier k =>
    obtain ⟨l, l1, hl, hs, hp, hbus⟩ := step_skier_inv h
    have h1 := (skier_process_sync hs).1
    have h2 := countP_set_add SkierLoc.holds s.procs k l l1 hl
    rw [hp, hbus]; omega

theorem seq_numbers_succ (n : Nat) : seq_numbers (n + 1) = seq_numbers n ++ [(n : Int) + 1] := by
  simp [seq_numbers, List.range_succ]

theorem seq_inv_init (config : config_t) (stop_of : Nat → Int) :
    seq_inv (initial config stop_of) := by
  simp [seq_inv, initial, init_resources, BusLoc.counting, List.countP_replicate,
    SkierLoc.counting, seq_numbers]

/-- Inside the range of `int` the stored value is the result itself. -/
theorem wrap_int_eq {x : Int} (h0 : INT_MIN ≤ x) (h1 : x ≤ INT_MAX) : wrap_int x = x := by
  unfold wrap_int
  unfold INT_MIN at h0
  unfold INT_MAX at h1
  omega

theorem seq_inv_step {config : config_t} {s s1 : State} {a : Actor}
    (h : step config s a = some s1) (he : excl_inv s) (hi : seq_inv s) : seq_inv s1 := by
  unfold seq_inv at hi ⊢
  unfold excl_inv at he
  have hmono : s.procs.countP SkierLoc.counting ≤ s.procs.countP SkierLoc.holds :=
    List.countP_mono_left (fun x _ => skier_counting_holds x)
  cases a with
  | bus =>
    obtain ⟨hb, hp⟩ := step_bus_inv h
    obtain ⟨-, hc0, -, ⟨e1, e2, e3⟩ | ⟨e1, e2, e3, e4⟩ | ⟨ln, e1, e2, e3, e4, e5, e6⟩⟩ :=
      skibus_process_sync hb
    · rw [hp, e1, e2, e3]; exact hi
    · rw [hp, e1, e2, e4]
      intro hlen
      obtain ⟨hi1, hi2, -⟩ := hi hlen
      have hac := hi2 (Or.inl e3)
      rw [hc0 e3] at he
      simp only [if_true] at he
      refine ⟨hi1, ?_, ?_⟩
      · rintro (hx | hx)
        · cases hx
        · omega
      · intro _ _ hlt
        rw [hac]
        exact wrap_int_eq (by unfold INT_MIN; omega) (by omega)
    · rw [hp, e2, e3, e6]
      intro hlen
      simp only [List.length_append, List.length_singleton, Nat.cast_add, Nat.cast_one]
        at hlen ⊢
      rw [e4] at he
      simp only [if_true] at he
      have hz : s.procs.countP SkierLoc.counting = 0 := by omega
      obtain ⟨hi1, -, hi3⟩ := hi (by omega)
      have hac := hi3 e5 hz (by omega)
      refine ⟨?_, fun _ => hac, fun hx => by cases hx⟩
      rw [List.map_append, hi1, seq_numbers_succ]
      simp only [List.map_cons, List.map_nil, e1, hac]
  | skier k =>
    obtain ⟨l, l1, hl, hs, hp, hbus⟩ := step_skier_inv h
    have hset := countP_set_add SkierLoc.counting s.procs k l l1 hl
    have hmem : l ∈ s.procs := List.mem_iff_getElem?.2 ⟨k, hl⟩
    have hbh := bus_counting_holds s.bus.loc
    have hfree : l.holds = true → s.bus.loc.counting = false
        ∧ s.procs.countP SkierLoc.holds = 1 := by
      intro hh
      have hpos : 0 < s.procs.countP SkierLoc.holds := List.countP_pos_iff.2 ⟨l, hmem, hh⟩
      have hb0 : s.bus.loc.holds = false := by
        by_contra hc
        simp only [Bool.not_eq_false] at hc
        rw [hc] at he
        simp only [if_true] at he
        omega
      refine ⟨?_, ?_⟩
      · by_contra hc
        simp only [Bool.not_eq_false] at hc
        rw [hbh hc] at hb0
        cases hb0
      · rw [hb0] at he
        simp only [Bool.false_eq_true, if_false] at he
        omega
    obtain ⟨-, hc0, -, ⟨e1, e2, e3⟩ | ⟨e1, e2, e3, e4⟩ | ⟨ln, e1, e2, e3, e4, e5, e6⟩⟩ :=
      skier_process_sync hs
    · rw [e3] at hset
      have hcnt : (s.procs.set k l1).countP SkierLoc.counting
          = s.procs.countP SkierLoc.counting := by omega
      rw [hp, hbus, e1, e2, hcnt]; exact hi
    · obtain ⟨hbc, hone⟩ := hfree (hc0 e3)
      have hpos : 0 < s.procs.countP SkierLoc.counting := List.countP_pos_iff.2 ⟨l, hmem, e3⟩
      rw [e3, e4] at hset
      simp only [if_true, Bool.false_eq_true, if_false] at hset
      rw [hp, hbus, e1, e2]
      intro hlen
      obtain ⟨hi1, hi2, -⟩ := hi hlen
      have hac := hi2 (Or.inr hpos)
      refine ⟨hi1, ?_, ?_⟩
      · rintro (hx | hx)
        · rw [hbc] at hx; cases hx
        · omega
      · intro _ _ hlt
        rw [hac]
        exact wrap_int_eq (by unfold INT_MIN; omega) (by omega)
    · obtain ⟨hbc, hone⟩ := hfree e4
      have hlt := countP_lt_countP SkierLoc.holds SkierLoc.counting skier_counting_holds
        s.procs k l hl e4 e5
      have hz : s.procs.countP SkierLoc.counting = 0 := by omega
      rw [hp, hbus, e2, e3]
      intro hlen
      simp only [List.length_append, List.length_singleton, Nat.cast_add, Nat.cast_one]
        at hlen ⊢
      obtain ⟨hi1, -, hi3⟩ := hi (by omega)
      have hac := hi3 hbc hz (by omega)
      refine ⟨?_, fun _ => hac, ?_⟩
      · rw [List.map_append, hi1, seq_numbers_succ]
        simp only [List.map_cons, List.map_nil, e1, hac]
      · intro _ hx
        rw [e5, e6] at hset
        simp only [if_true, Bool.false_eq_true, if_false] at hset
        omega

theorem on_ride_eq_zero {sks : List skier_t}
    (h : ∀ (j : Nat) (sk : skier_t), sks[j]? = some sk → sk.state ≠ .SKIER_ONRIDE) :
    on_ride sks = 0 := by
  unfold on_ride
  rw [List.countP_eq_zero]
  intro sk hsk
  obtain ⟨j, hj⟩ := List.mem_iff_getElem?.1 hsk
  simpa using h j sk hj

theorem on_ride_set {sks : List skier_t} {i : Nat} {sk : skier_t} (st : skier_state_t)
    (h : sks[i]? = some sk) :
    on_ride (sks.set i { sk with state := st })
        + (if sk.state = .SKIER_ONRIDE then 1 else 0)
      = on_ride sks + (if st = .SKIER_ONRIDE then 1 else 0) := by
  have := countP_set_add (fun sk : skier_t => decide (sk.state = .SKIER_ONRIDE)) sks i sk
    { sk with state := st } h
  simpa [on_ride] using this

set_option maxHeartbeats 1000000 in
theorem count_inv_bus {config : config_t} {s s1 : State}
    (h : step config s .bus = some s1) (hlen : s.mem.skiers.length = config.num_skiers.toNat)
    (hi : count_inv s) : count_inv s1 := by
  obtain ⟨hb, -⟩ := step_bus_inv h
  obtain ⟨m, ⟨loc, stop, i, af⟩, procs⟩ := s
  obtain ⟨m1, b1, procs1⟩ := s1
  simp only at hb hlen
  unfold count_inv at hi ⊢
  cases loc <;> (try (rename_i p; cases p))
    <;> simp only [skibus_process, bus_print_enter, bus_print_write, bus_print_count,
        bus_print_leave] at hb
    <;> (repeat' split at hb)
    <;> cases hb
    <;> simp only [BusLoc.phase, sem_wait, sem_post] at hi ⊢
    <;> (try exact hi)
  all_goals first
    | (simp_all; done)
    | (rename_i hsk hw _
       have := on_ride_set .SKIER_ONRIDE hsk
       simp only [hw.1, if_true] at this
       simp at this
       omega)
    | (rename_i hsk hw
       intro j sk hj hget
       rcases getElem?_set_state hget with ⟨rfl, rfl⟩ | ⟨hne, hget1⟩
       · simp
       · exact hi j sk (by omega) hget1)
    | (rename_i hsk hw
       intro j sk hj hget
       by_cases hji : j = i
       · subst hji; rw [hsk] at hget; cases hget; exact hw
       · exact hi j sk (by omega) hget)
    | (rename_i hge
       apply on_ride_eq_zero
       intro j sk hget
       have hlt : j < m.skiers.length := (List.getElem?_eq_some_iff.1 hget).1
       exact hi j sk (by omega) hget)

theorem skier_process_shared {j : Nat} {m m1 : Memory} {l l1 : SkierLoc}
    (h : skier_process j m l = some (m1, l1)) :
    m1.shared_data.bus_occupied = m.shared_data.bus_occupied
      ∧ m1.shared_data.bus_stop_id = m.shared_data.bus_stop_id := by
  cases l <;> (try (rename_i p; cases p))
    <;> simp only [skier_process, skier_print_enter, skier_print_write, skier_print_count,
        skier_print_leave] at h
    <;> (repeat' split at h)
    <;> cases h
    <;> exact ⟨rfl, rfl⟩

theorem count_inv_skier {config : config_t} {s s1 : State} {k : Nat}
    (h : step config s (.skier k) = some s1) (hbf : breakfast_inv s)
    (hi : count_inv s) : count_inv s1 := by
  obtain ⟨l, l1, hl, hs, hp, hbus⟩ := step_skier_inv h
  have hocc := (skier_process_shared hs).1
  unfold count_inv at hi ⊢
  rw [hbus, hocc]
  rcases skier_process_skiers hs with e | ⟨sk, hsk, rfl, -, e⟩
  · rw [e]; exact hi
  · have hst := hbf k _ sk hl hsk rfl
    have hon : on_ride s1.mem.skiers = on_ride s.mem.skiers := by
      have := on_ride_set .SKIER_WAITING hsk
      rw [e]
      simpa [hst] using this
    rw [hon]
    have key : ∀ (j : Nat) (sk1 : skier_t), s1.mem.skiers[j]? = some sk1 →
        sk1.state = .SKIER_ONRIDE → s.mem.skiers[j]? = some sk1 := by
      intro j sk1 hj h1
      rw [e] at hj
      rcases getElem?_set_state hj with ⟨rfl, rfl⟩ | ⟨_, hj1⟩
      · cases h1
      · exact hj1
    split <;> rename_i hph <;> rw [hph] at hi <;> simp only at hi ⊢
    · exact hi
    · exact hi
    · exact hi
    · intro j sk1 hj hget hc; exact hi j sk1 hj (key j sk1 hget hc) hc
    · intro j sk1 hj hget hc; exact hi j sk1 hj (key j sk1 hget hc) hc
    · exact hi
    · exact hi

theorem count_inv_init (config : config_t) (stop_of : Nat → Int) :
    count_inv (initial config stop_of) := by
  simp only [count_inv, initial, BusLoc.phase, init_resources, and_true]
  apply on_ride_eq_zero
  intro j sk h
  simp only [List.getElem?_map, Option.map_eq_some'] at h
  obtain ⟨k, _, rfl⟩ := h
  simp

theorem occ_inv_init (config : config_t) (stop_of : Nat → Int) (hc : 0 ≤ config.bus_capacity) :
    occ_inv config (initial config stop_of) := by
  simp [occ_inv, initial, init_resources, BusLoc.pending, hc]

theorem occ_inv_step {config : config_t} (hc : 0 ≤ config.bus_capacity) {s s1 : State}
    {a : Actor} (h : step config s a = some s1) (hi : occ_inv config s) : occ_inv config s1 := by
  unfold occ_inv at hi ⊢
  cases a with
  | bus =>
    obtain ⟨hb, -⟩ := step_bus_inv h
    obtain ⟨m, ⟨loc, stop, i, af⟩, procs⟩ := s
    obtain ⟨m1, b1, procs1⟩ := s1
    simp only at hb hi ⊢
    cases loc <;> (try (rename_i p; cases p))
      <;> simp only [skibus_process, bus_print_enter, bus_print_write, bus_print_count,
          bus_print_leave] at hb
      <;> (repeat' split at hb)
      <;> cases hb
      <;> simp_all [BusLoc.pending, sem_wait, sem_post]
      <;> omega
  | skier k =>
    obtain ⟨l, l1, hl, hs, hp, hbus⟩ := step_skier_inv h
    rw [hbus, (skier_process_shared hs).1]; exact hi

theorem stop_inv_step {config : config_t} {s s1 : State}
    {a : Actor} (h : step config s a = some s1) (hi : stop_inv s) : stop_inv s1 := by
  unfold stop_inv at hi ⊢
  cases a with
  | bus =>
    obtain ⟨hb, -⟩ := step_bus_inv h
    obtain ⟨m, ⟨loc, stop, i, af⟩, procs⟩ := s
    obtain ⟨m1, b1, procs1⟩ := s1
    simp only at hb hi ⊢
    cases loc <;> (try (rename_i p; cases p))
      <;> simp only [skibus_process, bus_print_enter, bus_print_write, bus_print_count,
          bus_print_leave] at hb
      <;> (repeat' split at hb)
      <;> cases hb
      <;> simp_all [sem_wait, sem_post]
  | skier k =>
    obtain ⟨l, l1, hl, hs, hp, hbus⟩ := step_skier_inv h
    rw [(skier_process_shared hs).2]; exact hi

theorem replay_append (out : List Line) (l : Line) :
    replay (out ++ [l]) = if l.verb = .boarding then replay out + 1
      else if l.verb = .arrived_to_final then 0 else replay out := by
  simp only [replay, List.foldl_append, List.foldl_cons, List.foldl_nil]
  cases l.verb <;> simp

theorem replay_inv_init (config : config_t) (stop_of : Nat → Int) :
    replay_inv (initial config stop_of) := by
  simp [replay_inv, initial, init_resources, BusLoc.log_phase, replay]

set_option maxHeartbeats 1000000 in
theorem replay_inv_step {config : config_t} {s s1 : State}
    {a : Actor} (h : step config s a = some s1) (hc : count_inv s) (hi : replay_inv s) :
    replay_inv s1 := by
  unfold replay_inv at hi ⊢
  cases a with
  | bus =>
    obtain ⟨hb, -⟩ := step_bus_inv h
    obtain ⟨m, ⟨loc, stop, i, af⟩, procs⟩ := s
    obtain ⟨m1, b1, procs1⟩ := s1
    simp only at hb hi ⊢
    cases loc <;> (try (rename_i p; cases p))
      <;> simp only [skibus_process, bus_print_enter, bus_print_write, bus_print_count,
          bus_print_leave] at hb
      <;> (repeat' split at hb)
      <;> cases hb
      <;> simp only [BusLoc.log_phase, sem_wait, sem_post] at hi ⊢
      <;> first
        | exact hi
        | (rename_i hf
           obtain ⟨-, h1, h2, -⟩ := format_line_some hf
           rw [replay_append]
           simp [h1, h2, hi]; done)
        | (simp only [count_inv, BusLoc.phase] at hc; simp_all; done)
  | skier k =>
    obtain ⟨l, l1, hl, hs, hp, hbus⟩ := step_skier_inv h
    rw [hbus, (skier_process_shared hs).1]
    have hout : replay s1.mem.output = replay s.mem.output := by
      generalize s1.mem = m1 at hs
      cases l <;> (try (rename_i p; cases p))
        <;> simp only [skier_process, skier_print_enter, skier_print_write, skier_print_count,
            skier_print_leave] at hs
        <;> (repeat' split at hs)
        <;> cases hs
        <;> first
          | rfl
          | (rename_i hf
             obtain ⟨-, h1, h2, -⟩ := format_line_some hf
             rw [replay_append]
             simp [h1, h2]; done)
    rw [hout]; exact hi

theorem check_loop_spec (sks : List skier_t) (idxs : List Nat) (flag : Bool)
    (h : check_loop sks idxs = some flag) :
    flag = true ↔ ∀ i ∈ idxs, ∀ sk, sks[i]? = some sk → sk.state = .SKIER_FINISHED := by
  induction idxs with
  | nil => simp [check_loop] at h; simp [h]
  | cons i rest ih =>
    simp only [check_loop] at h
    split at h
    · cases h
    · next sk hsk =>
      split at h
      · next hne =>
        cases h
        simp only [Bool.false_eq_true, List.mem_cons, forall_eq_or_imp, false_iff, not_and]
        intro hc
        exact absurd (hc sk hsk) hne
      · next hfin =>
        simp only [ne_eq, Decidable.not_not] at hfin
        rw [ih h]
        simp only [List.mem_cons, forall_eq_or_imp]
        constructor
        · intro hr
          refine ⟨?_, hr⟩
          intro sk1 h1
          rw [hsk] at h1; cases h1; exact hfin
        · intro hr; exact hr.2

theorem check_loop_total (sks : List skier_t) (idxs : List Nat)
    (h : ∀ i ∈ idxs, i < sks.length) : ∃ flag, check_loop sks idxs = some flag := by
  induction idxs with
  | nil => exact ⟨true, rfl⟩
  | cons i rest ih =>
    have hi : i < sks.length := h i (by simp)
    obtain ⟨flag, hf⟩ := ih (fun j hj => h j (by simp [hj]))
    simp only [check_loop, List.getElem?_eq_getElem hi]
    split
    · exact ⟨false, rfl⟩
    · exact ⟨flag, hf⟩

/-- The check of lines 263-269 computes "every skier record is finished". -/
theorem check_all_finished_spec (config : config_t) (sks : List skier_t)
    (hlen : sks.length = config.num_skiers.toNat) :
    ∃ flag, check_all_finished config sks = some flag
      ∧ (flag = true ↔ ∀ sk ∈ sks, sk.state = .SKIER_FINISHED) := by
  obtain ⟨flag, hf⟩ := check_loop_total sks (List.range config.num_skiers.toNat)
    (fun i hi => by rw [hlen]; simpa using hi)
  refine ⟨flag, hf, ?_⟩
  rw [check_loop_spec sks _ flag hf]
  constructor
  · intro h sk hsk
    obtain ⟨j, hj⟩ := List.mem_iff_getElem?.1 hsk
    have hlt : j < sks.length := (List.getElem?_eq_some_iff.1 hj).1
    exact h j (by rw [List.mem_range]; omega) sk hj
  · intro h i _ sk hsk
    exact h sk (List.mem_iff_getElem?.2 ⟨_, hsk⟩)

theorem fin_inv_init (config : config_t) (stop_of : Nat → Int) :
    fin_inv (initial config stop_of) := by
  simp [fin_inv, initial, init_resources, BusLoc.finishing]

set_option maxHeartbeats 1000000 in
theorem fin_inv_step {config : config_t} {s s1 : State} {a : Actor}
    (h : step config s a = some s1) (hlen : s.mem.skiers.length = config.num_skiers.toNat)
    (hbf : breakfast_inv s) (hi : fin_inv s) : fin_inv s1 := by
  unfold fin_inv at hi ⊢
  cases a with
  | bus =>
    obtain ⟨hb, -⟩ := step_bus_inv h
    obtain ⟨m, ⟨loc, stop, i, af⟩, procs⟩ := s
    obtain ⟨m1, b1, procs1⟩ := s1
    simp only at hb hi hlen ⊢
    cases loc <;> (try (rename_i p; cases p))
      <;> simp only [skibus_process, bus_print_enter, bus_print_write, bus_print_count,
          bus_print_leave] at hb
      <;> (repeat' split at hb)
      <;> cases hb
      <;> simp only [BusLoc.after_check, BusLoc.finishing, BusLoc.finish_logged, sem_wait,
          sem_post] at hi ⊢
      <;> first
        | exact hi
        | (simp_all; done)
        | (rename_i flag hck
           obtain ⟨flag1, h1, h2⟩ := check_all_finished_spec config m.skiers hlen
           rw [hck] at h1; cases h1
           simp_all; done)
        | (rename_i hf
           obtain ⟨-, -, -, h3⟩ := format_line_some hf
           simp_all; done)
        | (rename_i hf
           obtain ⟨-, -, -, h3⟩ := format_line_some hf
           simp_all
           aesop)
  | skier k =>
    obtain ⟨l, l1, hl, hs, hp, hbus⟩ := step_skier_inv h
    rw [hbus]
    have hout : (∃ l ∈ s1.mem.output, l.verb = .finish) → ∃ l ∈ s.mem.output, l.verb = .finish := by
      generalize s1.mem = m1 at hs
      cases l <;> (try (rename_i p; cases p))
        <;> simp only [skier_process, skier_print_enter, skier_print_write, skier_print_count,
            skier_print_leave] at hs
        <;> (repeat' split at hs)
        <;> cases hs
        <;> first
          | exact id
          | (rename_i hf
             obtain ⟨-, -, -, h3⟩ := format_line_some hf
             simp only [reduceCtorEq, iff_false] at h3
             rintro ⟨x, hx, hv⟩
             rcases List.mem_append.1 hx with hx | hx
             · exact ⟨x, hx, hv⟩
             · simp only [List.mem_singleton] at hx
               subst hx
               exact absurd hv h3)
    refine ⟨?_, hi.2.1, fun hx => hi.2.2 (hout hx)⟩
    intro haf
    obtain ⟨h1, h2⟩ := hi.1 haf
    refine ⟨?_, h2⟩
    rcases skier_process_skiers hs with e | ⟨sk, hsk, rfl, -, e⟩
    · rw [e]; exact h1
    · have hst := hbf k _ sk hl hsk rfl
      have := h1 sk (List.mem_iff_getElem?.2 ⟨_, hsk⟩)
      rw [hst] at this; cases this

theorem reachable_inv {config : config_t} {stop_of : Nat → Int} {s : State}
    (h : Reachable config stop_of s) : AllInv config stop_of s := by
  induction h with
  | init =>
    exact ⟨shape_inv_init _ _, breakfast_inv_init _ _, excl_inv_init _ _, seq_inv_init _ _,
      count_inv_init _ _, replay_inv_init _ _, fin_inv_init _ _, rfl⟩
  | step a _ hs ih =>
    refine ⟨shape_inv_step hs ih.shape, breakfast_inv_step hs ih.breakfast,
      excl_inv_step hs ih.excl, seq_inv_step hs ih.excl ih.seq, ?_,
      replay_inv_step hs ih.count ih.replay, fin_inv_step hs ih.shape.1 ih.breakfast ih.fin,
      stop_inv_step hs ih.stop⟩
    cases a with
    | bus => exact count_inv_bus hs ih.shape.1 ih.count
    | skier k => exact count_inv_skier hs ih.breakfast ih.count

theorem reachable_occ {config : config_t} {stop_of : Nat → Int} {s : State}
    (hc : 0 ≤ config.bus_capacity) (h : Reachable config stop_of s) : occ_inv config s := by
  induction h with
  | init => exact occ_inv_init _ _ hc
  | step a _ hs ih => exact occ_inv_step hc hs ih

theorem reachable_next {config : config_t} {stop_of : Nat → Int} {s : State}
    (h : Reachable config stop_of s) (a : Actor) : Reachable config stop_of (next config s a) := by
  unfold next
  cases hs : step config s a with
  | none => simpa using h
  | some s1 => simpa using Reachable.step a h hs

theorem reachable_run {config : config_t} {stop_of : Nat → Int} {s : State}
    (h : Reachable config stop_of s) (schedule : List Actor) :
    Reachable config stop_of (run config s schedule) := by
  induction schedule generalizing s with
  | nil => exact h
  | cons a rest ih => exact ih (reachable_next h a)

/-- Every reachable state is the result of running some schedule. -/
theorem reachable_iff_run {config : config_t} {stop_of : Nat → Int} {s : State} :
    Reachable config stop_of s ↔ ∃ schedule, s = run config (initial config stop_of) schedule := by
  constructor
  · intro h
    induction h with
    | init => exact ⟨[], rfl⟩
    | step a _ hs ih =>
      obtain ⟨sched, rfl⟩ := ih
      refine ⟨sched ++ [a], ?_⟩
      have : run config (initial config stop_of) (sched ++ [a])
          = next config (run config (initial config stop_of) sched) a := by
        simp [run, List.foldl_append]
      rw [this, next, hs]; rfl
  · rintro ⟨sched, rfl⟩
    exact reachable_run Reachable.init sched

/-- In one step a skier record keeps its state or moves to the next one, and
each move belongs to one actor. -/
theorem step_skier_state {config : config_t} {stop_of : Nat → Int} {s s1 : State} {a : Actor}
    (hr : Reachable config stop_of s) (h : step config s a = some s1) (j : Nat) (sk : skier_t)
    (hj : s.mem.skiers[j]? = some sk) :
    ∃ sk1, s1.mem.skiers[j]? = some sk1 ∧ sk1.id = sk.id ∧ sk1.stop_id = sk.stop_id
      ∧ (sk1.state = sk.state
        ∨ (a = .skier j ∧ sk.state = .SKIER_BREAKFAST ∧ sk1.state = .SKIER_WAITING)
        ∨ (a = .bus ∧ s.bus.loc = .board_scan ∧ s.bus.skier_id = j
            ∧ s.mem.shared_data.bus_occupied < config.bus_capacity
            ∧ sk.stop_id = s.bus.stop
            ∧ sk.state = .SKIER_WAITING ∧ sk1.state = .SKIER_ONRIDE)
        ∨ (a = .bus ∧ s.bus.loc = .unload_scan ∧ s.bus.skier_id = j
            ∧ sk.state = .SKIER_ONRIDE ∧ sk1.state = .SKIER_FINISHED)) := by
  have hinv := reachable_inv hr
  cases a with
  | bus =>
    obtain ⟨hb, hp⟩ := step_bus_inv h
    rcases skibus_process_skiers hb with e | ⟨sk0, st, hsk, e, -, -, hk⟩
    · exact ⟨sk, by rw [e]; exact hj, rfl, rfl, Or.inl rfl⟩
    · rw [e, getElem?_set_state_rev hsk hj]
      by_cases hij : s.bus.skier_id = j
      · subst hij
        rw [hj] at hsk; cases hsk
        refine ⟨{ sk with state := st }, by simp, rfl, rfl, ?_⟩
        rcases hk with ⟨h1, h2, h3, h4, h5, -⟩ | ⟨h1, h2, h3, -⟩
        · right; right; left; exact ⟨rfl, h1, rfl, h4, h3, h2, h5⟩
        · right; right; right; exact ⟨rfl, h1, rfl, h2, h3⟩
      · exact ⟨sk, by simp [hij], rfl, rfl, Or.inl rfl⟩
  | skier k =>
    obtain ⟨l, l1, hl, hs, hp, -⟩ := step_skier_inv h
    rcases skier_process_skiers hs with e | ⟨sk0, hsk, rfl, -, e⟩
    · exact ⟨sk, by rw [e]; exact hj, rfl, rfl, Or.inl rfl⟩
    · rw [e, getElem?_set_state_rev hsk hj]
      by_cases hij : k = j
      · subst hij
        rw [hj] at hsk; cases hsk
        refine ⟨{ sk with state := .SKIER_WAITING }, by simp, rfl, rfl, ?_⟩
        right; left
        exact ⟨rfl, hinv.breakfast k _ sk hl hj rfl, rfl⟩
      · exact ⟨sk, by simp [hij], rfl, rfl, Or.inl rfl⟩

/-- While the bus holds the semaphore no skier process can step. -/
theorem skier_blocked (config : config_t) {s : State} (he : excl_inv s)
    (hb : s.bus.loc.holds = true) (k : Nat) : step config s (.skier k) = none := by
  unfold excl_inv at he
  rw [hb] at he
  simp only [if_true] at he
  have hsem : s.mem.sem = 0 := by omega
  have hcnt : s.procs.countP SkierLoc.holds = 0 := by omega
  simp only [step]
  cases hl : s.procs[k]? with
  | none => rfl
  | some l =>
    have hh : l.holds = false := by
      rw [List.countP_eq_zero] at hcnt
      simpa using hcnt l (List.mem_iff_getElem?.2 ⟨k, hl⟩)
    simp only
    cases l <;> (try (rename_i p; cases p))
      <;> simp_all [SkierLoc.holds, PrintStage.holds, skier_process, skier_print_enter]

/-- The steps of the bus inside a boarding scan. -/
theorem scan_bus_step {config : config_t} {m m1 : Memory} {b b1 : BusProc}
    (h : skibus_process config m b = some (m1, b1)) (hin : b.loc.in_scan = true)
    (hne : b.loc ≠ .board_end) :
    b1.stop = b.stop ∧ b1.loc.in_scan = true ∧
    ((b.loc = .board_scan ∧ m1 = m ∧ b1.skier_id = b.skier_id + 1 ∧ b1.loc = .board_scan
        ∧ (b.skier_id : Int) < config.num_skiers
        ∧ ∃ sk, m.skiers[b.skier_id]? = some sk
            ∧ ¬ (sk.state = .SKIER_WAITING ∧ sk.stop_id = b.stop
                ∧ m.shared_data.bus_occupied < config.bus_capacity))
    ∨ (b.loc = .board_scan ∧ m1 = m ∧ b1.skier_id = b.skier_id ∧ b1.loc = .board_end
        ∧ ¬ (b.skier_id : Int) < config.num_skiers)
    ∨ (b.loc = .board_scan ∧ b1.skier_id = b.skier_id ∧ b1.loc = .board_post
        ∧ m1.shared_data = m.shared_data
        ∧ m.shared_data.bus_occupied < config.bus_capacity
        ∧ ∃ sk, m.skiers[b.skier_id]? = some sk ∧ sk.state = .SKIER_WAITING
            ∧ sk.stop_id = b.stop
            ∧ m1.skiers = m.skiers.set b.skier_id { sk with state := .SKIER_ONRIDE })
    ∨ (b.loc = .board_count ∧ b1.skier_id = b.skier_id + 1 ∧ b1.loc = .board_scan
        ∧ m1.skiers = m.skiers
        ∧ m1.shared_data.bus_occupied = m.shared_data.bus_occupied + 1)
    ∨ (b.loc.pending = true ∧ b.loc ≠ .board_count ∧ b1.loc.pending = true
        ∧ b1.skier_id = b.skier_id ∧ m1.skiers = m.skiers
        ∧ m1.shared_data.bus_occupied = m.shared_data.bus_occupied)) := by
  obtain ⟨loc, stop, i, af⟩ := b
  cases loc <;> (try (rename_i p; cases p))
    <;> simp only [BusLoc.in_scan, Bool.false_eq_true, ne_eq, not_true_eq_false] at hin hne
    <;> simp only [skibus_process, bus_print_enter, bus_print_write, bus_print_count,
        bus_print_leave] at h
    <;> (repeat' split at h)
    <;> cases h
    <;> refine ⟨rfl, rfl, ?_⟩
    <;> first
      | (right; right; right; right
         simp [BusLoc.pending, sem_wait, sem_post]; done)
      | (right; right; right; left
         simp; done)
      | (right; left
         simp only [true_and, and_self]
         assumption)
      | (right; right; left
         simp only [true_and]
         rename_i hsk hw hocc
         exact ⟨hocc, _, hsk, hw.1, hw.2, rfl⟩)
      | (left
         simp only [true_and]
         refine ⟨by assumption, _, by assumption, ?_⟩
         rintro ⟨h1, h2, h3⟩
         simp_all)

theorem pending_ne_scan {l : BusLoc} (h : l.pending = true) : l ≠ .board_scan := by
  intro hc; subst hc; simp [BusLoc.pending] at h

/-- A skier that waits or rides is not touched by a step of a skier process. -/
theorem skier_step_keeps {config : config_t} {stop_of : Nat → Int} {s s1 : State} {k : Nat}
    (hr : Reachable config stop_of s) (h : step config s (.skier k) = some s1) (j : Nat)
    (sk : skier_t) (hj : s.mem.skiers[j]? = some sk) (hst : sk.state ≠ .SKIER_BREAKFAST) :
    s1.mem.skiers[j]? = some sk := by
  obtain ⟨sk1, h1, h2, h3, h4⟩ := step_skier_state hr h j sk hj
  have : sk1 = sk := by
    rcases h4 with h4 | ⟨-, h4, -⟩ | ⟨h4, -⟩ | ⟨h4, -⟩
    · cases sk; cases sk1; simp_all
    · exact absurd h4 hst
    · cases h4
    · cases h4
  rw [h1, this]

theorem scan_order_bus_step {config : config_t} {a b : Nat} {S : Int} {s s1 : State}
    (hlen : s.mem.skiers.length = config.num_skiers.toNat) (hab : a < b)
    (hi : scan_order_inv config a b S s) (hne : s.bus.loc ≠ .board_end)
    (h : step config s .bus = some s1) : scan_order_inv config a b S s1 := by
  obtain ⟨hS, hin, ska, skb, ha, hb, hsa, hsb, hpa, hpb, hba, hw⟩ := hi
  obtain ⟨hstep, -⟩ := step_bus_inv h
  obtain ⟨h1, h2, hc⟩ := scan_bus_step hstep hin hne
  refine ⟨by rw [h1, hS], h2, ?_⟩
  rcases hc with ⟨hl, hm, hid, hl1, hlt, sk, hsk, hno⟩ | ⟨hl, hm, hid, hl1, hge⟩
    | ⟨hl, hid, hl1, hsd, hocc, sk, hsk, hskw, hsks, hset⟩ | ⟨hl, hid, hl1, hsks, hocc⟩
    | ⟨hl, hl0, hl1, hid, hsks, hocc⟩
  · refine ⟨ska, skb, by rw [hm]; exact ha, by rw [hm]; exact hb, hsa, hsb, hpa, hpb, hba, ?_⟩
    intro hwa
    rw [hm, hid, hl1]
    rcases hw hwa with (hlt1 | ⟨heq, -⟩) | hfull
    · left; by_cases hh : s.bus.skier_id + 1 < a
      · exact Or.inl hh
      · exact Or.inr ⟨by omega, rfl⟩
    · right
      rw [heq, ha] at hsk; cases hsk
      by_contra hc
      exact hno ⟨hwa, by rw [hpa, hS], by omega⟩
    · exact Or.inr hfull
  · refine ⟨ska, skb, by rw [hm]; exact ha, by rw [hm]; exact hb, hsa, hsb, hpa, hpb, hba, ?_⟩
    intro hwa
    rw [hm]
    have halt : a < s.mem.skiers.length := (List.getElem?_eq_some_iff.1 ha).1
    rw [hlen] at halt
    rcases hw hwa with (hlt1 | ⟨heq, -⟩) | hfull
    · exfalso; omega
    · exfalso; omega
    · exact Or.inr hfull
  · rw [hset, getElem?_set_state_rev hsk ha, getElem?_set_state_rev hsk hb]
    by_cases hia : s.bus.skier_id = a
    · have hib : s.bus.skier_id ≠ b := by omega
      have hab1 : ¬ a = b := by omega
      rw [hia, ha] at hsk; cases hsk
      refine ⟨_, _, rfl, rfl, ?_⟩
      simp [hia, hab1, hsb, hpa, hpb]
    · by_cases hib : s.bus.skier_id = b
      · rw [hib, hb] at hsk; cases hsk
        have hao : ska.state = .SKIER_ONRIDE := by
          rcases hsa with hwa | hoa
          · rcases hw hwa with (hlt1 | ⟨heq, -⟩) | hfull
            · omega
            · omega
            · omega
          · exact hoa
        have hba1 : ¬ b = a := by omega
        refine ⟨_, _, rfl, rfl, ?_⟩
        simp [hib, hba1, hao, hpa, hpb]
      · refine ⟨_, _, rfl, rfl, ?_⟩
        simp only [hia, hib, if_false]
        refine ⟨hsa, hsb, hpa, hpb, hba, ?_⟩
        intro hwa
        rw [hid, hsd]
        rcases hw hwa with (hlt1 | ⟨heq, -⟩) | hfull
        · exact Or.inl (Or.inl hlt1)
        · exact absurd heq hia
        · exact Or.inr hfull
  · refine ⟨ska, skb, by rw [hsks]; exact ha, by rw [hsks]; exact hb, hsa, hsb, hpa, hpb,
      hba, ?_⟩
    intro hwa
    rw [hid, hl1, hocc]
    rcases hw hwa with (hlt1 | ⟨-, heq⟩) | hfull
    · left; by_cases hh : s.bus.skier_id + 1 < a
      · exact Or.inl hh
      · exact Or.inr ⟨by omega, rfl⟩
    · rw [hl] at heq; cases heq
    · right; omega
  · refine ⟨ska, skb, by rw [hsks]; exact ha, by rw [hsks]; exact hb, hsa, hsb, hpa, hpb,
      hba, ?_⟩
    intro hwa
    rw [hid, hocc]
    rcases hw hwa with (hlt1 | ⟨-, heq⟩) | hfull
    · exact Or.inl (Or.inl hlt1)
    · exact absurd heq (pending_ne_scan hl)
    · exact Or.inr hfull

theorem scan_order_step {config : config_t} {stop_of : Nat → Int} {a b : Nat} {S : Int}
    {s s1 : State} {act : Actor} (hr : Reachable config stop_of s) (hab : a < b)
    (hi : scan_order_inv config a b S s) (hne : s.bus.loc ≠ .board_end)
    (h : step config s act = some s1) : scan_order_inv config a b S s1 := by
  cases act with
  | bus => exact scan_order_bus_step (reachable_inv hr).shape.1 hab hi hne h
  | skier k =>
    obtain ⟨hS, hin, ska, skb, ha, hb, hsa, hsb, hpa, hpb, hba, hw⟩ := hi
    obtain ⟨l, l1, hl, hs, hp, hbus⟩ := step_skier_inv h
    have ha1 := skier_step_keeps hr h a ska ha (by rcases hsa with e | e <;> rw [e] <;> simp)
    have hb1 := skier_step_keeps hr h b skb hb (by rcases hsb with e | e <;> rw [e] <;> simp)
    rw [scan_order_inv, hbus, (skier_process_shared hs).1]
    exact ⟨hS, hin, ska, skb, ha1, hb1, hsa, hsb, hpa, hpb, hba, hw⟩

theorem scan_steps_reachable {config : config_t} {stop_of : Nat → Int} {s0 s : State}
    (h0 : Reachable config stop_of s0) (hs : ScanSteps config s0 s) :
    Reachable config stop_of s := by
  induction hs with
  | refl => exact h0
  | step a _ _ hstep ih => exact Reachable.step a ih hstep

theorem pending_in_scan {l : BusLoc} (h : l.pending = true) : l.in_scan = true := by
  cases l <;> simp_all [BusLoc.pending, BusLoc.in_scan]

theorem one_seat_bus_step {config : config_t} {a b : Nat} {S : Int} {s s1 : State}
    (hlen : s.mem.skiers.length = config.num_skiers.toNat) (hab : a < b)
    (hi : one_seat_inv config a b S s) (hne : s.bus.loc ≠ .board_end)
    (h : step config s .bus = some s1) : one_seat_inv config a b S s1 := by
  obtain ⟨ska, skb, ha, hb, hbw, hph⟩ := hi
  have hin : s.bus.loc.in_scan = true := by
    rcases hph with ⟨hl, -⟩ | ⟨hl, -⟩ | ⟨-, -, hl | hl⟩
    · rw [hl]; rfl
    · exact pending_in_scan hl
    · rw [hl]; rfl
    · exact absurd hl hne
  obtain ⟨hstep, -⟩ := step_bus_inv h
  obtain ⟨h1, h2, hc⟩ := scan_bus_step hstep hin hne
  rcases hc with ⟨hl, hm, hid, hl1, hlt, sk, hsk, hno⟩ | ⟨hl, hm, hid, hl1, hge⟩
    | ⟨hl, hid, hl1, hsd, hocc, sk, hsk, hskw, hsks, hset⟩ | ⟨hl, hid, hl1, hsks, hocc⟩
    | ⟨hl, hl0, hl1, hid, hsks, hocc⟩
  · -- the scan skips the skier at `skier_id`
    refine ⟨ska, skb, by rw [hm]; exact ha, by rw [hm]; exact hb, hbw, ?_⟩
    rw [hm, hid, hl1, h1]
    rcases hph with ⟨-, hle, hfree, hwa, hpa, hS, hlow⟩ | ⟨hp, -⟩ | ⟨hfull, hoa, -⟩
    · left
      have hia : s.bus.skier_id ≠ a := by
        intro hia
        rw [hia, ha] at hsk; cases hsk
        exact hno ⟨hwa, by rw [hpa, hS], by omega⟩
      exact ⟨rfl, by omega, hfree, hwa, hpa, hS, fun j sk1 h3 h4 => hlow j sk1 (by omega) h4⟩
    · exact absurd hl (pending_ne_scan hp)
    · right; right; exact ⟨hfull, hoa, Or.inl rfl⟩
  · -- the scan has visited every skier
    refine ⟨ska, skb, by rw [hm]; exact ha, by rw [hm]; exact hb, hbw, ?_⟩
    rw [hm, hl1]
    have halt : a < s.mem.skiers.length := (List.getElem?_eq_some_iff.1 ha).1
    rw [hlen] at halt
    rcases hph with ⟨-, hle, -⟩ | ⟨hp, -⟩ | ⟨hfull, hoa, -⟩
    · exfalso; omega
    · exact absurd hl (pending_ne_scan hp)
    · right; right; exact ⟨hfull, hoa, Or.inr rfl⟩
  · -- the skier at `skier_id` boards
    rcases hph with ⟨-, hle, hfree, hwa, hpa, hS, hlow⟩ | ⟨hp, -⟩ | ⟨hfull, hoa, -⟩
    · have hia : s.bus.skier_id = a := by
        by_contra hia
        exact hlow _ sk (le_refl _) (by omega) hsk ⟨hskw, by rw [hsks, hS]⟩
      have hab1 : ¬ a = b := by omega
      rw [hia] at hsk hset
      rw [ha] at hsk; cases hsk
      refine ⟨{ ska with state := .SKIER_ONRIDE }, skb, ?_, ?_, hbw, ?_⟩
      · rw [hset, getElem?_set_state_rev ha ha]; simp
      · rw [hset, getElem?_set_state_rev ha hb]; simp [hab1]
      · right; left
        rw [hl1, hsd]
        exact ⟨rfl, hfree, rfl⟩
    · exact absurd hl (pending_ne_scan hp)
    · omega
  · -- the boarding is counted
    refine ⟨ska, skb, by rw [hsks]; exact ha, by rw [hsks]; exact hb, hbw, ?_⟩
    rw [hl1, hocc]
    rcases hph with ⟨hl2, -⟩ | ⟨hp, hfree, hoa⟩ | ⟨-, -, hl2 | hl2⟩
    · rw [hl] at hl2; cases hl2
    · right; right; exact ⟨by omega, hoa, Or.inl rfl⟩
    · rw [hl] at hl2; cases hl2
    · rw [hl] at hl2; cases hl2
  · -- a step between the state change and the count
    refine ⟨ska, skb, by rw [hsks]; exact ha, by rw [hsks]; exact hb, hbw, ?_⟩
    rw [hocc]
    rcases hph with ⟨hl2, -⟩ | ⟨hp, hfree, hoa⟩ | ⟨-, -, hl2 | hl2⟩
    · exact absurd hl2 (pending_ne_scan hl)
    · right; left; exact ⟨hl1, hfree, hoa⟩
    · exact absurd hl2 (pending_ne_scan hl)
    · exact absurd hl2 hne

theorem one_seat_step {config : config_t} {stop_of : Nat → Int} {a b : Nat} {S : Int}
    {s s1 : State} {act : Actor} (hr : Reachable config stop_of s) (hab : a < b)
    (hi : one_seat_inv config a b S s) (hne : s.bus.loc ≠ .board_end)
    (h : step config s act = some s1) : one_seat_inv config a b S s1 := by
  cases act with
  | bus => exact one_seat_bus_step (reachable_inv hr).shape.1 hab hi hne h
  | skier k =>
    have hinv := reachable_inv hr
    obtain ⟨ska, skb, ha, hb, hbw, hph⟩ := hi
    obtain ⟨l, l1, hl, hs, hp, hbus⟩ := step_skier_inv h
    rcases hph with ⟨hl2, -⟩ | ⟨hp2, hfree, hoa⟩ | ⟨hfull, hoa, hl2⟩
    · have := skier_blocked config hinv.excl (by rw [hl2]; rfl) k
      rw [this] at h; cases h
    · have ha1 := skier_step_keeps hr h a ska ha (by rw [hoa]; simp)
      have hb1 := skier_step_keeps hr h b skb hb (by rw [hbw]; simp)
      refine ⟨ska, skb, ha1, hb1, hbw, ?_⟩
      rw [hbus, (skier_process_shared hs).1]
      right; left; exact ⟨hp2, hfree, hoa⟩
    · have ha1 := skier_step_keeps hr h a ska ha (by rw [hoa]; simp)
      have hb1 := skier_step_keeps hr h b skb hb (by rw [hbw]; simp)
      refine ⟨ska, skb, ha1, hb1, hbw, ?_⟩
      rw [hbus, (skier_process_shared hs).1]
      right; right; exact ⟨hfull, hoa, hl2⟩


theorem next_skier_state {config : config_t} {stop_of : Nat → Int} {s : State} (a : Actor)
    (hr : Reachable config stop_of s) (j : Nat) (sk : skier_t)
    (hj : s.mem.skiers[j]? = some sk) :
    ∃ sk1, (next config s a).mem.skiers[j]? = some sk1
      ∧ (sk1.state = sk.state ∨ sk.state.succ = some sk1.state) := by
  unfold next
  cases hs : step config s a with
  | none => exact ⟨sk, by simpa using hj, Or.inl rfl⟩
  | some s1 =>
    obtain ⟨sk1, h1, -, -, h4⟩ := step_skier_state hr hs j sk hj
    refine ⟨sk1, by simpa using h1, ?_⟩
    rcases h4 with h4 | ⟨-, h4, h5⟩ | ⟨-, -, -, -, -, h4, h5⟩ | ⟨-, -, -, h4, h5⟩
    · exact Or.inl h4
    · right; rw [h4, h5]; rfl
    · right; rw [h4, h5]; rfl
    · right; rw [h4, h5]; rfl

theorem trace_history {config : config_t} {stop_of : Nat → Int} (schedule : List Actor)
    (j : Nat) : ∀ (s : State), Reachable config stop_of s → ∀ (sk : skier_t),
      s.mem.skiers[j]? = some sk →
      ∃ tl, ((trace config s schedule).filterMap fun t =>
          (t.mem.skiers[j]?).map fun sk => sk.state) = sk.state :: tl
        ∧ List.destutter' (· ≠ ·) sk.state tl <+: chain_from sk.state := by
  induction schedule with
  | nil =>
    intro s _ sk hj
    refine ⟨[], by simp [trace, hj], ?_⟩
    cases sk.state <;> simp [chain_from, List.destutter']
  | cons a rest ih =>
    intro s hr sk hj
    obtain ⟨sk1, h1, h2⟩ := next_skier_state a hr j sk hj
    obtain ⟨tl, e1, e2⟩ := ih (next config s a) (reachable_next hr a) sk1 h1
    refine ⟨sk1.state :: tl, by simp [trace, hj, e1], ?_⟩
    rcases h2 with h2 | h2
    · rw [h2] at e2 ⊢
      simpa [List.destutter'] using e2
    · have hne : sk.state ≠ sk1.state := by
        intro hc; rw [hc] at h2
        cases hst : sk1.state <;> rw [hst] at h2 <;> simp [skier_state_t.succ] at h2
      rw [List.destutter'_cons_pos _ hne]
      obtain ⟨t, ht⟩ := e2
      refine ⟨t, ?_⟩
      rw [List.cons_append, ht]
      cases hst : sk.state <;> rw [hst] at h2
        <;> simp only [skier_state_t.succ, Option.some.injEq, reduceCtorEq] at h2
        <;> rw [← h2] <;> rfl

/-- C1: in every reachable state of the simulation, for every capacity of at
least 10, `0 ≤ bus_occupied ≤ bus_capacity`; and a step that changes a skier to
`SKIER_ONRIDE` is a step of the bus's boarding scan taken in a state with
`bus_occupied < bus_capacity`, so never with `bus_occupied = bus_capacity`. -/
theorem occupancy_within_capacity (config : config_t) (stop_of : Nat → Int)
    (hcap : 10 ≤ config.bus_capacity) (s : State) (hr : Reachable config stop_of s) :
    0 ≤ s.mem.shared_data.bus_occupied
    ∧ s.mem.shared_data.bus_occupied ≤ config.bus_capacity
    ∧ ∀ (a : Actor) (s1 : State) (j : Nat) (sk sk1 : skier_t), step config s a = some s1 →
        s.mem.skiers[j]? = some sk → s1.mem.skiers[j]? = some sk1 →
        sk.state ≠ .SKIER_ONRIDE → sk1.state = .SKIER_ONRIDE →
        a = .bus ∧ s.bus.loc = .board_scan
          ∧ s.mem.shared_data.bus_occupied < config.bus_capacity
          ∧ s.mem.shared_data.bus_occupied ≠ config.bus_capacity := by
  obtain ⟨h1, h2, -⟩ := reachable_occ (by omega) hr
  refine ⟨h1, h2, ?_⟩
  intro a s1 j sk sk1 hstep hj hj1 hne hon
  obtain ⟨sk2, e1, -, -, e4⟩ := step_skier_state hr hstep j sk hj
  rw [hj1] at e1; cases e1
  rcases e4 with e | ⟨-, -, e⟩ | ⟨ha, hl, -, hocc, -⟩ | ⟨-, -, -, -, e⟩
  · rw [e] at hon; exact absurd hon hne
  · rw [e] at hon; cases hon
  · exact ⟨ha, hl, hocc, by omega⟩
  · rw [e] at hon; cases hon

set_option maxRecDepth 100000 in

theorem occupancy_within_capacity_witness :
    (10 : Int) ≤ demo_config.bus_capacity
    ∧ Reachable demo_config (fun _ => 0)
        (run demo_config (initial demo_config fun _ => 0) (demo_schedule ++ times 6 .bus))
    ∧ (run demo_config (initial demo_config fun _ => 0)
        (demo_schedule ++ times 6 .bus)).mem.shared_data.bus_occupied = 1
    ∧ 0 ≤ (run demo_config (initial demo_config fun _ => 0)
        (demo_schedule ++ times 6 .bus)).mem.shared_data.bus_occupied
    ∧ (run demo_config (initial demo_config fun _ => 0)
        (demo_schedule ++ times 6 .bus)).mem.shared_data.bus_occupied
        ≤ demo_config.bus_capacity :=
  ⟨by decide, reachable_run Reachable.init _, by decide,
   (occupancy_within_capacity demo_config (fun _ => 0) (by decide) _
      (reachable_run Reachable.init _)).1,
   (occupancy_within_capacity demo_config (fun _ => 0) (by decide) _
      (reachable_run Reachable.init _)).2.1⟩

theorem skier_at_some {sks : List skier_t} {index : Int} (h0 : 0 ≤ index)
    (h1 : index < sks.length) : ∃ sk, skier_at sks index = some sk := by
  have hlt : index.toNat < sks.length := by omega
  refine ⟨sks[index.toNat], ?_⟩
  have : ¬ index < 0 := by omega
  simp [skier_at, this, List.getElem?_eq_getElem hlt]

theorem format_line_total {msg : message_type_t} (sd : shared_data_t) {sks : List skier_t}
    {index : Int} (h : msg.about_skier = true → 0 ≤ index ∧ index < sks.length) :
    ∃ l, format_line msg sd sks index = some l := by
  cases msg <;> simp only [message_type_t.about_skier, Bool.false_eq_true, false_implies,
      forall_true_left] at h
    <;> simp only [format_line]
    <;> first
      | exact ⟨_, rfl⟩
      | (obtain ⟨sk, hsk⟩ := skier_at_some h.1 h.2
         rw [hsk]; exact ⟨_, rfl⟩)

/-- One uninterrupted call of `print_message`: one line, numbered with the
counter, and the counter incremented as a C `int`. -/
theorem print_message_call_spec {m : Memory} {call : message_type_t × Int}
    (hsem : m.sem ≠ 0)
    (hv : call.1.about_skier = true → 0 ≤ call.2 ∧ call.2 < m.skiers.length) :
    ∃ m1 l, print_message_call m call = some m1 ∧ l.seq = m.shared_data.action_count
      ∧ m1.output = m.output ++ [l]
      ∧ m1.shared_data.action_count = wrap_int (m.shared_data.action_count + 1)
      ∧ m1.sem = m.sem ∧ m1.skiers = m.skiers := by
  obtain ⟨l, hl⟩ := format_line_total m.shared_data hv
  refine ⟨⟨m.skiers,
    { m.shared_data with action_count := wrap_int (m.shared_data.action_count + 1) },
    m.sem - 1 + 1, m.output ++ [l]⟩, l, ?_, (format_line_some hl).1, rfl, rfl, ?_, rfl⟩
  · simp only [print_message_call, print_message, hsem, if_false, sem_wait, sem_post, hl]
  · simp only
    omega

/-- A sequence of calls that keeps the log within `INT_MAX` lines numbers its
lines consecutively; the counter ends as the `int` that holds the number of
lines plus one. -/
theorem print_message_calls_spec (calls : List (message_type_t × Int)) :
    ∀ (m : Memory), m.sem ≠ 0 →
      (∀ call ∈ calls, call.1.about_skier = true → 0 ≤ call.2 ∧ call.2 < m.skiers.length) →
      m.output.map Line.seq = seq_numbers m.output.length →
      m.shared_data.action_count = wrap_int ((m.output.length : Int) + 1) →
      (m.output.length : Int) + calls.length ≤ INT_MAX →
      ∃ m1, print_message_calls m calls = some m1
        ∧ m1.output.length = m.output.length + calls.length
        ∧ m1.output.map Line.seq = seq_numbers (m.output.length + calls.length)
        ∧ m1.shared_data.action_count
            = wrap_int ((m.output.length : Int) + calls.length + 1) := by
  induction calls with
  | nil =>
    intro m _ _ h1 h2 _
    exact ⟨m, rfl, rfl, h1, by simpa using h2⟩
  | cons call rest ih =>
    intro m hsem hv h1 h2 hb
    simp only [List.length_cons, Nat.cast_add, Nat.cast_one] at hb
    obtain ⟨m1, l, e1, e2, e3, e4, e5, e6⟩ :=
      print_message_call_spec hsem (hv call (by simp))
    have hlen : m1.output.length = m.output.length + 1 := by rw [e3]; simp
    have hac : m.shared_data.action_count = (m.output.length : Int) + 1 := by
      rw [h2]
      exact wrap_int_eq (by unfold INT_MIN; omega) (by omega)
    obtain ⟨m2, f1, f2, f3, f4⟩ := ih m1 (by rw [e5]; exact hsem)
      (fun c hc => by rw [e6]; exact hv c (by simp [hc]))
      (by rw [hlen, seq_numbers_succ, e3, List.map_append, h1]; simp [e2, hac])
      (by rw [e4, hac, hlen]; push_cast; rfl)
      (by rw [hlen]; push_cast; omega)
    refine ⟨m2, by simp only [print_message_calls, e1]; exact f1, ?_, ?_, ?_⟩
    · rw [f2, hlen]; simp; omega
    · rw [f3, hlen]; congr 1; simp; omega
    · rw [f4, hlen]; congr 1; push_cast; simp; ring

/-- C2 (as stated) fails: `action_count` is a C `int`.  The call number
2147483647 = `INT_MAX` of `print_message` from the initial memory still writes
the line numbered 2147483647, but the increment of line 427 then overflows: the
counter cannot hold k + 1 = 2147483648 and is left at -2147483648. -/
theorem action_count_overflows :
    (print_message_calls (init_resources demo_config fun _ => 0)
        (List.replicate 2147483647 (.MSG_BUS_START, 0))).map
      (fun m => (m.output.length, (m.output.map Line.seq).getLast?,
        m.shared_data.action_count))
      = some (2147483647, some 2147483647, -2147483648)
    ∧ (-2147483648 : Int) ≠ 2147483647 + 1 := by
  refine ⟨?_, by decide⟩
  obtain ⟨m, h1, h2, h3, h4⟩ := print_message_calls_spec
    (List.replicate 2147483647 (.MSG_BUS_START, 0)) (init_resources demo_config fun _ => 0)
    (Nat.one_ne_zero)
    (fun c hc hs => by
      rw [List.eq_of_mem_replicate hc] at hs
      cases hs)
    rfl rfl
    (by rw [List.length_replicate]; decide)
  rw [List.length_replicate] at h2 h3 h4
  have e0 : (init_resources demo_config fun _ => 0).output.length = 0 := rfl
  rw [e0, Nat.zero_add] at h2 h3
  rw [e0] at h4
  have e1 : seq_numbers 2147483647 = seq_numbers 2147483646 ++ [((2147483646 : Nat) : Int) + 1] :=
    seq_numbers_succ 2147483646
  have e2 : wrap_int (((0 : Nat) : Int) + ((2147483647 : Nat) : Int) + 1) = -2147483648 := by
    decide
  rw [h1, Option.map_some', h2, h3, h4, e1, e2, List.getLast?_append]
  rfl

/-- C2 (amended): starting from `action_count = 1`, as long as the log has at
most `INT_MAX` = 2147483647 lines, the k-th line of the output carries the
sequence number k, in every reachable state of the simulation (any actors, any
interleaving); with fewer than `INT_MAX` lines, whenever no process stands
between writing its line and incrementing the counter, `action_count` is the
number of lines plus one (and it is the number of lines itself while one does).
The same holds for every sequence of at most `INT_MAX` calls of `print_message`
run one after the other from the initial memory, with any message types: the
k-th call writes line number k and, for k below `INT_MAX`, leaves
`action_count = k + 1`. -/
theorem action_sequence_contiguous (config : config_t) (stop_of : Nat → Int) :
    (∀ s, Reachable config stop_of s → (s.mem.output.length : Int) ≤ INT_MAX →
        s.mem.output.map Line.seq = seq_numbers s.mem.output.length
        ∧ (s.bus.loc.counting = false → (∀ l ∈ s.procs, l.counting = false) →
            (s.mem.output.length : Int) < INT_MAX →
            s.mem.shared_data.action_count = (s.mem.output.length : Int) + 1)
        ∧ ((s.bus.loc.counting = true ∨ ∃ l ∈ s.procs, l.counting = true) →
            s.mem.shared_data.action_count = (s.mem.output.length : Int)))
    ∧ (∀ calls : List (message_type_t × Int), (calls.length : Int) ≤ INT_MAX →
        (∀ call ∈ calls, call.1.about_skier = true →
            0 ≤ call.2 ∧ call.2 < config.num_skiers) →
        ∃ m, print_message_calls (init_resources config stop_of) calls = some m
          ∧ m.output.length = calls.length
          ∧ m.output.map Line.seq = seq_numbers calls.length
          ∧ ((calls.length : Int) < INT_MAX →
              m.shared_data.action_count = (calls.length : Int) + 1)) := by
  constructor
  · intro s hr hlen
    obtain ⟨h1, h2, h3⟩ := (reachable_inv hr).seq hlen
    refine ⟨h1, ?_, ?_⟩
    · intro hb hp hlt
      have hz : s.procs.countP SkierLoc.counting = 0 := by
        rw [List.countP_eq_zero]; intro l hl; simp [hp l hl]
      exact h3 hb hz hlt
    · intro hc
      apply h2
      rcases hc with hc | ⟨l, hl, hc⟩
      · exact Or.inl hc
      · exact Or.inr (List.countP_pos_iff.2 ⟨l, hl, hc⟩)
  · intro calls hb hv
    have hlen : ((init_resources config stop_of).skiers.length : Int) = config.num_skiers.toNat := by
      simp [init_resources]
    obtain ⟨m, h1, h2, h3, h4⟩ := print_message_calls_spec calls (init_resources config stop_of)
      (by simp [init_resources])
      (fun c hc hs => by
        obtain ⟨a, b⟩ := hv c hc hs
        exact ⟨a, by rw [hlen]; omega⟩)
      (by simp [init_resources, seq_numbers]) (by simp [init_resources, wrap_int])
      (by simpa [init_resources] using hb)
    refine ⟨m, h1, ?_, ?_, ?_⟩
    · simpa [init_resources] using h2
    · simpa [init_resources] using h3
    · intro hlt
      simp only [init_resources, List.length_nil, Nat.cast_zero, Int.zero_add] at h4
      rw [h4]
      exact wrap_int_eq (by unfold INT_MIN; omega) (by omega)

theorem action_sequence_contiguous_witness :
    (run demo_config (initial demo_config fun _ => 0) demo_schedule).mem.output.map Line.seq
        = [1, 2, 3]
    ∧ (run demo_config (initial demo_config fun _ => 0) demo_schedule).mem.shared_data.action_count
        = 4
    ∧ ∃ m, print_message_calls (init_resources demo_config fun _ => 0)
          [(.MSG_SKIER_START, 0), (.MSG_BUS_START, 0), (.MSG_SKIER_START, 1)] = some m
        ∧ m.output.map Line.seq = seq_numbers 3 ∧ m.shared_data.action_count = 4 := by
  have h := action_sequence_contiguous demo_config (fun _ => 0)
  refine ⟨by decide, by decide, ?_⟩
  obtain ⟨m, h1, -, h3, h4⟩ := h.2
    [(.MSG_SKIER_START, 0), (.MSG_BUS_START, 0), (.MSG_SKIER_START, 1)] (by decide) (by decide)
  exact ⟨m, h1, h3, by simpa using h4 (by decide)⟩

theorem scan_steps_of_path {config : config_t} {s0 : State} (schedule : List Actor) :
    ∀ (s : State), ScanSteps config s0 s → scan_path config s schedule = true →
      ScanSteps config s0 (run config s schedule) := by
  induction schedule with
  | nil => intro s hs _; exact hs
  | cons a rest ih =>
    intro s hs hp
    simp only [scan_path, Bool.and_eq_true, decide_eq_true_eq] at hp
    obtain ⟨⟨h1, h2⟩, h3⟩ := hp
    obtain ⟨s1, hs1⟩ := Option.isSome_iff_exists.1 h2
    have hn : next config s a = s1 := by simp [next, hs1]
    simp only [run, List.foldl_cons]
    exact ih _ (by rw [hn]; exact ScanSteps.step a hs h1 hs1) h3

/-- C3: in every step of any actor a skier record keeps its state or moves to
the immediate successor in the order AT_BREAKFAST, WAITING, ON_RIDE, FINISHED:
only the skier's own process moves it from breakfast to waiting, only the
boarding scan of the bus from waiting to riding, only the unloading scan from
riding to finished.  Hence along every schedule the state history of every
skier is a prefix of that order. -/
theorem skier_lifecycle (config : config_t) (stop_of : Nat → Int) :
    (∀ (s s1 : State) (a : Actor) (j : Nat) (sk : skier_t), Reachable config stop_of s →
        step config s a = some s1 → s.mem.skiers[j]? = some sk →
        ∃ sk1, s1.mem.skiers[j]? = some sk1
          ∧ (sk1.state = sk.state
            ∨ (a = .skier j ∧ sk.state = .SKIER_BREAKFAST ∧ sk1.state = .SKIER_WAITING)
            ∨ (a = .bus ∧ s.bus.loc = .board_scan
                ∧ sk.state = .SKIER_WAITING ∧ sk1.state = .SKIER_ONRIDE)
            ∨ (a = .bus ∧ s.bus.loc = .unload_scan
                ∧ sk.state = .SKIER_ONRIDE ∧ sk1.state = .SKIER_FINISHED)))
    ∧ (∀ (schedule : List Actor) (j : Nat),
        history config (initial config stop_of) schedule j
          <+: [.SKIER_BREAKFAST, .SKIER_WAITING, .SKIER_ONRIDE, .SKIER_FINISHED]) := by
  constructor
  · intro s s1 a j sk hr hstep hj
    obtain ⟨sk1, h1, -, -, h4⟩ := step_skier_state hr hstep j sk hj
    refine ⟨sk1, h1, ?_⟩
    rcases h4 with h | ⟨h, h5, h6⟩ | ⟨h, h5, -, -, -, h6, h7⟩ | ⟨h, h5, -, h6, h7⟩
    · exact Or.inl h
    · exact Or.inr (Or.inl ⟨h, h5, h6⟩)
    · exact Or.inr (Or.inr (Or.inl ⟨h, h5, h6, h7⟩))
    · exact Or.inr (Or.inr (Or.inr ⟨h, h5, h6, h7⟩))
  · intro schedule j
    unfold history
    cases hj : (initial config stop_of).mem.skiers[j]? with
    | none =>
      have hnone : ∀ (sched : List Actor) (s : State), Reachable config stop_of s →
          s.mem.skiers[j]? = none →
          ((trace config s sched).filterMap fun t =>
            (t.mem.skiers[j]?).map fun sk => sk.state) = [] := by
        intro sched
        induction sched with
        | nil => intro s _ h; simp [trace, h]
        | cons a rest ih =>
          intro s hr h
          have hlen : (next config s a).mem.skiers.length = s.mem.skiers.length := by
            rw [(reachable_inv (reachable_next hr a)).shape.1, (reachable_inv hr).shape.1]
          have h1 : (next config s a).mem.skiers[j]? = none := by
            rw [List.getElem?_eq_none_iff] at h ⊢; omega
          simp [trace, h, ih _ (reachable_next hr a) h1]
      rw [hnone schedule _ Reachable.init hj]
      simp
    | some sk =>
      obtain ⟨tl, e1, e2⟩ := trace_history schedule j (initial config stop_of)
        (@Reachable.init config stop_of) sk hj
      have hb : sk.state = .SKIER_BREAKFAST := by
        simp only [initial, init_resources, List.getElem?_map, Option.map_eq_some'] at hj
        obtain ⟨k, _, rfl⟩ := hj
        rfl
      rw [e1, List.destutter_cons']
      rw [hb] at e2 ⊢
      exact e2

theorem skier_lifecycle_witness :
    history demo_config (initial demo_config fun _ => 0) (round_schedule ++ times 11 .bus) 0
        <+: [.SKIER_BREAKFAST, .SKIER_WAITING, .SKIER_ONRIDE, .SKIER_FINISHED]
    ∧ history demo_config (initial demo_config fun _ => 0) (round_schedule ++ times 11 .bus) 0
        = [.SKIER_BREAKFAST, .SKIER_WAITING, .SKIER_ONRIDE, .SKIER_FINISHED]
    ∧ history demo_config (initial demo_config fun _ => 0) demo_schedule 0
        = [.SKIER_BREAKFAST, .SKIER_WAITING, .SKIER_ONRIDE] :=
  ⟨(skier_lifecycle demo_config fun _ => 0).2 _ 0, by decide, by decide⟩

theorem idx_inv_step {config : config_t} {s s1 : State} {a : Actor}
    (h : step config s a = some s1) (hi : idx_inv config s) : idx_inv config s1 := by
  unfold idx_inv at hi ⊢
  cases a with
  | bus =>
    obtain ⟨hb, -⟩ := step_bus_inv h
    obtain ⟨m, ⟨loc, stop, i, af⟩, procs⟩ := s
    obtain ⟨m1, b1, procs1⟩ := s1
    simp only at hb hi ⊢
    cases loc <;> (try (rename_i p; cases p))
      <;> simp only [skibus_process, bus_print_enter, bus_print_write, bus_print_count,
          bus_print_leave] at hb
      <;> (repeat' split at hb)
      <;> cases hb
      <;> simp only [BusLoc.at_skier, Bool.false_eq_true, false_implies, true_implies,
          forall_true_left] at hi ⊢
      <;> assumption
  | skier k =>
    obtain ⟨l, l1, hl, hs, hp, hbus⟩ := step_skier_inv h
    rw [hbus]; exact hi

theorem reachable_idx {config : config_t} {stop_of : Nat → Int} {s : State}
    (h : Reachable config stop_of s) : idx_inv config s := by
  induction h with
  | init => intro hc; simp [initial, BusLoc.at_skier] at hc
  | step a _ hs ih => exact idx_inv_step hs ih

theorem finish_inv_step {config : config_t} {s s1 : State} {a : Actor}
    (h : step config s a = some s1) (hi : finish_inv s) : finish_inv s1 := by
  unfold finish_inv at hi ⊢
  cases a with
  | bus =>
    obtain ⟨hb, -⟩ := step_bus_inv h
    obtain ⟨m, ⟨loc, stop, i, af⟩, procs⟩ := s
    obtain ⟨m1, b1, procs1⟩ := s1
    simp only at hb hi ⊢
    cases loc <;> (try (rename_i p; cases p))
      <;> simp only [skibus_process, bus_print_enter, bus_print_write, bus_print_count,
          bus_print_leave] at hb
      <;> (repeat' split at hb)
      <;> cases hb
      <;> simp only [BusLoc.finish_logged, Bool.false_eq_true, false_implies, true_implies,
          forall_true_left, sem_post] at hi ⊢
      <;> first
        | exact hi
        | (rename_i hf
           simp only [format_line, Option.some.injEq] at hf
           subst hf
           exact ⟨⟨m.shared_data.action_count, none, .finish⟩, by simp, rfl, rfl⟩)
  | skier k =>
    obtain ⟨l, l1, hl, hs, hp, hbus⟩ := step_skier_inv h
    rw [hbus]
    intro hf
    obtain ⟨ln, hln, h1, h2⟩ := hi hf
    refine ⟨ln, ?_, h1, h2⟩
    obtain ⟨-, -, -, ⟨e1, -⟩ | ⟨e1, -⟩ | ⟨x, -, e1, -⟩⟩ := skier_process_sync hs
    · rw [e1]; exact hln
    · rw [e1]; exact hln
    · rw [e1]; exact List.mem_append_left _ hln

theorem reachable_finish {config : config_t} {stop_of : Nat → Int} {s : State}
    (h : Reachable config stop_of s) : finish_inv s := by
  induction h with
  | init => intro hc; simp [initial, BusLoc.finish_logged] at hc
  | step a _ hs ih => exact finish_inv_step hs ih

theorem bus_waits_not_holds (l : BusLoc) (h : l.waits = true) : l.holds = false := by
  cases l <;> (try (rename_i p; cases p))
    <;> simp_all [BusLoc.waits, BusLoc.holds, PrintStage.holds]

theorem skier_holds_not_waits (l : SkierLoc) (h : l.holds = true) :
    l.waits = false ∧ l ≠ .done := by
  cases l <;> (try (rename_i p; cases p))
    <;> simp_all [SkierLoc.waits, SkierLoc.holds, PrintStage.holds]

/-- A process of the bus that has not returned can step unless it stands at a
`sem_wait` with the semaphore taken. -/
theorem bus_enabled {config : config_t} {s : State}
    (hlen : s.mem.skiers.length = config.num_skiers.toNat) (hidx : idx_inv config s)
    (hd : s.bus.loc ≠ .done) (hw : s.bus.loc.waits = true → s.mem.sem ≠ 0) :
    ∃ s1, step config s .bus = some s1 := by
  obtain ⟨flag, hck, -⟩ := check_all_finished_spec config s.mem.skiers hlen
  have hsk : (s.bus.skier_id : Int) < config.num_skiers →
      ∃ sk, s.mem.skiers[s.bus.skier_id]? = some sk := by
    intro h
    have : s.bus.skier_id < s.mem.skiers.length := by omega
    exact ⟨_, List.getElem?_eq_getElem this⟩
  have hat : (s.bus.skier_id : Int) < config.num_skiers →
      ∃ sk, skier_at s.mem.skiers s.bus.skier_id = some sk := by
    intro h
    exact skier_at_some (by omega) (by omega)
  suffices h : ∃ r, skibus_process config s.mem s.bus = some r by
    obtain ⟨⟨m1, b1⟩, h⟩ := h
    exact ⟨{ s with mem := m1, bus := b1 }, by simp only [step, h]⟩
  unfold idx_inv at hidx
  obtain ⟨m, ⟨loc, stop, i, af⟩, procs⟩ := s
  simp only at hlen hidx hd hw hck hsk hat ⊢
  cases loc <;> (try (rename_i p; cases p))
    <;> simp only [skibus_process, bus_print_enter, bus_print_write, bus_print_count,
        bus_print_leave, hck, format_line]
    <;> simp only [BusLoc.waits, BusLoc.at_skier, Bool.false_eq_true, false_implies,
        true_implies, forall_true_left, ne_eq, not_true_eq_false] at hw hidx hd
    <;> first
      | exact ⟨_, rfl⟩
      | (rw [if_neg hw]; exact ⟨_, rfl⟩)
      | (obtain ⟨sk, hsk1⟩ := hat hidx
         rw [hsk1]
         exact ⟨_, rfl⟩)
      | (split <;> exact ⟨_, rfl⟩)
      | (split
         · next hlt =>
           obtain ⟨sk, hsk1⟩ := hsk hlt
           rw [hsk1]
           simp only
           repeat' split
           all_goals exact ⟨_, rfl⟩
         · exact ⟨_, rfl⟩)

/-- A skier process that has not returned can step unless it stands at a
`sem_wait` with the semaphore taken. -/
theorem skier_enabled (config : config_t) {s : State} {k : Nat} {l : SkierLoc}
    (hlen : s.procs.length = s.mem.skiers.length) (hl : s.procs[k]? = some l)
    (hd : l ≠ .done) (hw : l.waits = true → s.mem.sem ≠ 0) :
    ∃ s1, step config s (.skier k) = some s1 := by
  have hk : k < s.mem.skiers.length := by
    rw [← hlen]; exact (List.getElem?_eq_some_iff.1 hl).1
  have hsk : s.mem.skiers[k]? = some s.mem.skiers[k] := List.getElem?_eq_getElem hk
  obtain ⟨sk, hat⟩ : ∃ sk, skier_at s.mem.skiers (k : Int) = some sk :=
    skier_at_some (by omega) (by omega)
  suffices h : ∃ r, skier_process k s.mem l = some r by
    obtain ⟨⟨m1, l1⟩, h⟩ := h
    exact ⟨{ s with mem := m1, procs := s.procs.set k l1 }, by simp only [step, hl, h]⟩
  cases l <;> (try (rename_i p; cases p))
    <;> simp only [skier_process, skier_print_enter, skier_print_write, skier_print_count,
        skier_print_leave, format_line, hat, hsk]
    <;> simp only [SkierLoc.waits, Bool.false_eq_true, false_implies,
        true_implies, forall_true_left, ne_eq, not_true_eq_false] at hw hd
    <;> first
      | exact ⟨_, rfl⟩
      | (rw [if_neg hw]; exact ⟨_, rfl⟩)

/-- When the semaphore is taken and the bus does not hold it, a skier process
holds it. -/
theorem holder_exists {s : State} (he : excl_inv s) (h0 : s.mem.sem = 0)
    (hb : s.bus.loc.holds = false) :
    ∃ (k : Nat) (l : SkierLoc), s.procs[k]? = some l ∧ l.holds = true := by
  unfold excl_inv at he
  rw [h0, hb] at he
  simp only [Bool.false_eq_true, if_false] at he
  have hpos : 0 < s.procs.countP SkierLoc.holds := by omega
  obtain ⟨l, hl, hh⟩ := List.countP_pos_iff.1 hpos
  obtain ⟨k, hk⟩ := List.mem_iff_getElem?.1 hl
  exact ⟨k, l, hk, hh⟩

/-- No deadlock: as long as the bus has not returned, some process can step. -/
theorem no_deadlock {config : config_t} {stop_of : Nat → Int} {s : State}
    (hr : Reachable config stop_of s) (hd : s.bus.loc ≠ .done) :
    ∃ a s1, step config s a = some s1 := by
  have hinv := reachable_inv hr
  by_cases hw : s.bus.loc.waits = true ∧ s.mem.sem = 0
  · obtain ⟨k, l, hl, hh⟩ := holder_exists hinv.excl hw.2 (bus_waits_not_holds _ hw.1)
    obtain ⟨h1, h2⟩ := skier_holds_not_waits l hh
    obtain ⟨s1, hs1⟩ := skier_enabled config (by rw [hinv.shape.1, hinv.shape.2.1]) hl h2
      (fun hc => by rw [h1] at hc; cases hc)
    exact ⟨.skier k, s1, hs1⟩
  · obtain ⟨s1, hs1⟩ := bus_enabled hinv.shape.1 (reachable_idx hr) hd
      (fun h1 h2 => hw ⟨h1, h2⟩)
    exact ⟨.bus, s1, hs1⟩

theorem skier_left_step {j : Nat} {m m1 : Memory} {l l1 : SkierLoc}
    (h : skier_process j m l = some (m1, l1)) : l1.left + 1 = l.left := by
  cases l <;> (try (rename_i p; cases p))
    <;> simp only [skier_process, skier_print_enter, skier_print_write, skier_print_count,
        skier_print_leave] at h
    <;> (repeat' split at h)
    <;> cases h
    <;> rfl

theorem procs_left_set (l : List SkierLoc) (i : Nat) (x a : SkierLoc) (h : l[i]? = some x) :
    procs_left (l.set i a) + x.left = procs_left l + a.left := by
  unfold procs_left
  induction l generalizing i with
  | nil => simp at h
  | cons y ys ih =>
    cases i with
    | zero =>
      simp only [List.getElem?_cons_zero, Option.some.injEq] at h
      subst h
      simp only [List.set_cons_zero, List.map_cons, List.sum_cons]
      omega
    | succ k =>
      simp only [List.getElem?_cons_succ] at h
      have := ih k h
      simp only [List.set_cons_succ, List.map_cons, List.sum_cons]
      omega

/-- A step of a skier process uses up one of its steps and leaves the bus alone. -/
theorem step_skier_left {config : config_t} {s s1 : State} {k : Nat}
    (h : step config s (.skier k) = some s1) :
    procs_left s1.procs + 1 = procs_left s.procs ∧ s1.bus = s.bus := by
  obtain ⟨l, l1, hl, hs, hp, hbus⟩ := step_skier_inv h
  have h1 := skier_left_step hs
  have h2 := procs_left_set s.procs k l l1 hl
  rw [hp]
  exact ⟨by omega, hbus⟩

/-- A step of the bus on its way from an unloading phase that left every skier
finished to its return: the flag is (then) set, the bus stays on that way and
is one step closer to the return. -/
theorem exit_bus_step {config : config_t} {s s1 : State}
    (hlen : s.mem.skiers.length = config.num_skiers.toNat)
    (h : step config s .bus = some s1)
    (hE : (s.bus.loc = .unload_reset ∧ ∀ sk ∈ s.mem.skiers, sk.state = .SKIER_FINISHED)
      ∨ (s.bus.all_finished = true ∧ s.bus.loc.after_check = true)) :
    s1.bus.all_finished = true ∧ s1.bus.loc.after_check = true
      ∧ s1.bus.loc.exit_left + 1 = s.bus.loc.exit_left := by
  obtain ⟨hb, -⟩ := step_bus_inv h
  obtain ⟨flag, hck, hflag⟩ := check_all_finished_spec config s.mem.skiers hlen
  obtain ⟨m, ⟨loc, stop, i, af⟩, procs⟩ := s
  obtain ⟨m1, b1, procs1⟩ := s1
  simp only at hb hE hck hflag ⊢
  cases loc <;> (try (rename_i p; cases p))
    <;> simp only [BusLoc.after_check, Bool.false_eq_true, and_false, or_false, false_and,
        reduceCtorEq, false_or] at hE
    <;> simp only [skibus_process, bus_print_enter, bus_print_write, bus_print_count,
        bus_print_leave, hck] at hb
    <;> (repeat' split at hb)
    <;> cases hb
    <;> simp_all [BusLoc.after_check, BusLoc.exit_left, PrintStage.left]

/-- Along every schedule of enabled steps from such a state the bus stays on its
way out, and every step uses up one of the steps that are left. -/
theorem exit_path {config : config_t} {stop_of : Nat → Int} (schedule : List Actor) :
    ∀ (s : State), Reachable config stop_of s →
      ((s.bus.loc = .unload_reset ∧ ∀ sk ∈ s.mem.skiers, sk.state = .SKIER_FINISHED)
        ∨ (s.bus.all_finished = true ∧ s.bus.loc.after_check = true)) →
      enabled_path config s schedule = true →
      ((run config s schedule).bus.loc = .unload_reset
        ∨ ((run config s schedule).bus.all_finished = true
            ∧ (run config s schedule).bus.loc.after_check = true))
      ∧ schedule.length + (run config s schedule).bus.loc.exit_left
          + procs_left (run config s schedule).procs
        = s.bus.loc.exit_left + procs_left s.procs := by
  induction schedule with
  | nil =>
    intro s _ hE _
    refine ⟨?_, by simp [run]⟩
    rcases hE with hE | hE
    · exact Or.inl hE.1
    · exact Or.inr hE
  | cons a rest ih =>
    intro s hr hE hp
    simp only [enabled_path, Bool.and_eq_true] at hp
    obtain ⟨h1, h2⟩ := hp
    obtain ⟨s1, hs1⟩ := Option.isSome_iff_exists.1 h1
    have hn : next config s a = s1 := by simp [next, hs1]
    have hinv := reachable_inv hr
    simp only [run, List.foldl_cons, List.length_cons]
    rw [hn] at h2 ⊢
    have hr1 : Reachable config stop_of s1 := Reachable.step a hr hs1
    cases a with
    | bus =>
      obtain ⟨e1, e2, e3⟩ := exit_bus_step hinv.shape.1 hs1 hE
      obtain ⟨f1, f2⟩ := ih s1 hr1 (Or.inr ⟨e1, e2⟩) h2
      have hp := (step_bus_inv hs1).2
      refine ⟨f1, ?_⟩
      simp only [run] at f2
      rw [hp] at f2
      omega
    | skier k =>
      obtain ⟨e1, e2⟩ := step_skier_left hs1
      rcases hE with hE | hE
      · have := skier_blocked config hinv.excl (by rw [hE.1]; rfl) k
        rw [this] at hs1; cases hs1
      · obtain ⟨f1, f2⟩ := ih s1 hr1 (Or.inr (by rw [e2]; exact hE)) h2
        refine ⟨f1, ?_⟩
        simp only [run] at f2
        rw [e2] at f2
        omega

theorem times_bus_11 : times 11 Actor.bus
    = [.bus, .bus, .bus, .bus, .bus, .bus, .bus, .bus, .bus, .bus, .bus] := rfl

theorem times_bus_7 : times 7 Actor.bus = [.bus, .bus, .bus, .bus, .bus, .bus, .bus] := rfl

/-- The bus running on its own from the end of an unloading phase that left
every skier finished: it logs `leaving final` and `finish` and returns. -/
theorem exit_run {config : config_t} {s : State}
    (hlen : s.mem.skiers.length = config.num_skiers.toNat) (hex : excl_inv s)
    (hl : s.bus.loc = .unload_reset)
    (hfin : ∀ sk ∈ s.mem.skiers, sk.state = .SKIER_FINISHED) :
    enabled_path config s (times 11 .bus) = true
    ∧ (run config s (times 11 .bus)).bus.loc = .done
    ∧ (run config s (times 11 .bus)).mem.output
        = s.mem.output ++ [⟨s.mem.shared_data.action_count, none, .leaving_final⟩,
            ⟨wrap_int (s.mem.shared_data.action_count + 1), none, .finish⟩]
    ∧ (run config s (times 11 .bus)).mem.skiers = s.mem.skiers := by
  obtain ⟨flag, hck, hflag⟩ := check_all_finished_spec config s.mem.skiers hlen
  have hft : flag = true := hflag.2 hfin
  subst hft
  unfold excl_inv at hex
  rw [hl] at hex
  simp only [BusLoc.holds, if_true] at hex
  have hsem : s.mem.sem = 0 := by omega
  obtain ⟨⟨skiers, sd, sem, out⟩, ⟨loc, stop, i, af⟩, procs⟩ := s
  simp only at hl hsem hck ⊢
  subst hl
  subst hsem
  rw [times_bus_11]
  simp [enabled_path, run, next, step, skibus_process, bus_print, print_message, format_line,
    sem_wait, sem_post, hck]

/-- The bus running on its own from the end of an unloading phase that left
some skier unfinished: it logs `leaving final` and starts another round. -/
theorem round_run {config : config_t} {s : State}
    (hlen : s.mem.skiers.length = config.num_skiers.toNat) (hex : excl_inv s)
    (hl : s.bus.loc = .unload_reset)
    (hfin : ¬ ∀ sk ∈ s.mem.skiers, sk.state = .SKIER_FINISHED) :
    enabled_path config s (times 7 .bus) = true
    ∧ (run config s (times 7 .bus)).bus.loc = .arrived .enter
    ∧ (run config s (times 7 .bus)).bus.all_finished = false
    ∧ (run config s (times 7 .bus)).mem.output
        = s.mem.output ++ [⟨s.mem.shared_data.action_count, none, .leaving_final⟩]
    ∧ (run config s (times 7 .bus)).mem.skiers = s.mem.skiers := by
  obtain ⟨flag, hck, hflag⟩ := check_all_finished_spec config s.mem.skiers hlen
  have hft : flag = false := by
    cases flag
    · rfl
    · exact absurd (hflag.1 rfl) hfin
  subst hft
  unfold excl_inv at hex
  rw [hl] at hex
  simp only [BusLoc.holds, if_true] at hex
  have hsem : s.mem.sem = 0 := by omega
  obtain ⟨⟨skiers, sd, sem, out⟩, ⟨loc, stop, i, af⟩, procs⟩ := s
  simp only at hl hsem hck ⊢
  subst hl
  subst hsem
  rw [times_bus_7]
  simp [enabled_path, run, next, step, skibus_process, bus_print, print_message, format_line,
    sem_wait, sem_post, hck]

/-- C4: the step that ends an unloading phase (lines 260-269) sets
`all_finished` to true if and only if every skier record is `SKIER_FINISHED`
at that moment; at the loop test the bus leaves the loop exactly when the flag
is set; once the flag is set every skier is finished and the bus is on its way
from the end of that unloading phase to `BUS: finish`; and whenever the bus
has left its loop or `finish` is in the log, every skier is finished.
Progress: from the end of an unloading phase that leaves every skier finished,
the bus running on its own logs `leaving final`, then `finish`, and returns
after 11 steps; under every interleaving with the skier processes the bus stays
on that way, each step uses up one of the finitely many steps that are left,
some process can step as long as the bus has not returned, and once it has
returned `BUS: finish` is in the log.  From the end of an unloading phase that
leaves some skier unfinished the bus logs `leaving final` and starts another
round with the flag unset and no `finish` in the log. -/
theorem bus_terminates_when_all_finished (config : config_t) (stop_of : Nat → Int) :
    (∀ s, Reachable config stop_of s → s.bus.loc = .unload_reset →
        ∃ s1, step config s .bus = some s1 ∧ s1.mem.skiers = s.mem.skiers
          ∧ s1.bus.loc = .unload_end
          ∧ (s1.bus.all_finished = true ↔ ∀ sk ∈ s.mem.skiers, sk.state = .SKIER_FINISHED))
    ∧ (∀ s, Reachable config stop_of s → s.bus.loc = .loop_head →
        ∃ s1, step config s .bus = some s1 ∧ s1.mem = s.mem
          ∧ s1.bus.loc = (if s.bus.all_finished = true then .finish .enter else .arrived .enter))
    ∧ (∀ s, Reachable config stop_of s → s.bus.all_finished = true →
        (∀ sk ∈ s.mem.skiers, sk.state = .SKIER_FINISHED) ∧ s.bus.loc.after_check = true)
    ∧ (∀ s, Reachable config stop_of s →
        (s.bus.loc.finishing = true ∨ ∃ l ∈ s.mem.output, l.subject = none ∧ l.verb = .finish) →
        ∀ sk ∈ s.mem.skiers, sk.state = .SKIER_FINISHED)
    ∧ (∀ s, Reachable config stop_of s → s.bus.loc = .unload_reset →
        (∀ sk ∈ s.mem.skiers, sk.state = .SKIER_FINISHED) →
        enabled_path config s (times 11 .bus) = true
        ∧ (run config s (times 11 .bus)).bus.loc = .done
        ∧ (run config s (times 11 .bus)).mem.output
            = s.mem.output ++ [⟨s.mem.shared_data.action_count, none, .leaving_final⟩,
                ⟨wrap_int (s.mem.shared_data.action_count + 1), none, .finish⟩]
        ∧ ∀ schedule, enabled_path config s schedule = true →
            schedule.length + (run config s schedule).bus.loc.exit_left
                + procs_left (run config s schedule).procs = 11 + procs_left s.procs
            ∧ ((run config s schedule).bus.loc = .unload_reset
                ∨ (run config s schedule).bus.loc.after_check = true)
            ∧ ((run config s schedule).bus.loc ≠ .done →
                ∃ a s1, step config (run config s schedule) a = some s1)
            ∧ ((run config s schedule).bus.loc = .done →
                ∃ l ∈ (run config s schedule).mem.output, l.subject = none ∧ l.verb = .finish))
    ∧ (∀ s, Reachable config stop_of s → s.bus.loc = .unload_reset →
        (¬ ∀ sk ∈ s.mem.skiers, sk.state = .SKIER_FINISHED) →
        enabled_path config s (times 7 .bus) = true
        ∧ (run config s (times 7 .bus)).bus.loc = .arrived .enter
        ∧ (run config s (times 7 .bus)).bus.all_finished = false
        ∧ (run config s (times 7 .bus)).mem.output
            = s.mem.output ++ [⟨s.mem.shared_data.action_count, none, .leaving_final⟩]
        ∧ (run config s (times 7 .bus)).mem.skiers = s.mem.skiers
        ∧ ∀ l ∈ (run config s (times 7 .bus)).mem.output, l.verb ≠ .finish) := by
  refine ⟨?_, ?_, ?_, ?_, ?_, ?_⟩
  · intro s hr hl
    have hinv := reachable_inv hr
    obtain ⟨flag, h1, h2⟩ := check_all_finished_spec config s.mem.skiers hinv.shape.1
    refine ⟨{ s with
      mem := { s.mem with shared_data := { s.mem.shared_data with bus_occupied := 0 } },
      bus := { s.bus with loc := .unload_end, all_finished := flag } }, ?_, rfl, rfl, h2⟩
    simp only [step, skibus_process, hl, h1]
  · intro s hr hl
    by_cases haf : s.bus.all_finished = true
    · exact ⟨{ s with bus := { s.bus with loc := .finish .enter } },
        by simp only [step, skibus_process, hl, haf, if_true], rfl, by simp [haf]⟩
    · exact ⟨{ s with bus := { s.bus with loc := .arrived .enter } },
        by simp only [step, skibus_process, hl, haf, if_false]; rfl, rfl, by simp [haf]⟩
  · intro s hr haf
    exact (reachable_inv hr).fin.1 haf
  · intro s hr h
    have hf := (reachable_inv hr).fin
    have haf : s.bus.all_finished = true := by
      rcases h with h | ⟨l, hl, -, hv⟩
      · exact hf.2.1 h
      · have := hf.2.2 ⟨l, hl, hv⟩
        apply hf.2.1
        cases hloc : s.bus.loc <;> (try (rename_i p; cases p))
          <;> simp_all [BusLoc.finish_logged, BusLoc.finishing]
    exact (hf.1 haf).1
  · intro s hr hl hfin
    have hinv := reachable_inv hr
    obtain ⟨e1, e2, e3, -⟩ := exit_run hinv.shape.1 hinv.excl hl hfin
    refine ⟨e1, e2, e3, ?_⟩
    intro schedule hp
    obtain ⟨f1, f2⟩ := exit_path schedule s hr (Or.inl ⟨hl, hfin⟩) hp
    have hr1 : Reachable config stop_of (run config s schedule) := reachable_run hr schedule
    rw [hl] at f2
    refine ⟨f2, ?_, fun hd => no_deadlock hr1 hd, ?_⟩
    · rcases f1 with f1 | f1
      · exact Or.inl f1
      · exact Or.inr f1.2
    · intro hd
      exact reachable_finish hr1 (by rw [hd]; rfl)
  · intro s hr hl hfin
    have hinv := reachable_inv hr
    obtain ⟨e1, e2, e3, e4, e5⟩ := round_run hinv.shape.1 hinv.excl hl hfin
    refine ⟨e1, e2, e3, e4, e5, ?_⟩
    intro l hmem hv
    rw [e4] at hmem
    rcases List.mem_append.1 hmem with hm | hm
    · have := hinv.fin.2.2 ⟨l, hm, hv⟩
      rw [hl] at this
      cases this
    · simp only [List.mem_singleton] at hm
      rw [hm] at hv
      cases hv

theorem bus_terminates_when_all_finished_witness :
    (run two_stops_config (initial two_stops_config fun _ => 0)
        (times 11 (.skier 0) ++ times 55 .bus)).bus.loc = .unload_reset
    ∧ (∀ sk ∈ (run two_stops_config (initial two_stops_config fun _ => 0)
        (times 11 (.skier 0) ++ times 55 .bus)).mem.skiers, sk.state = .SKIER_FINISHED)
    ∧ (run two_stops_config (run two_stops_config (initial two_stops_config fun _ => 0)
        (times 11 (.skier 0) ++ times 55 .bus)) (times 11 .bus)).bus.loc = .done
    ∧ (run two_stops_config (run two_stops_config (initial two_stops_config fun _ => 0)
        (times 11 (.skier 0) ++ times 55 .bus)) (times 11 .bus)).mem.output.getLast?
        = some ⟨12, none, .finish⟩
    ∧ (run two_stops_config (initial two_stops_config fun _ => 0)
        (times 42 .bus)).bus.loc = .unload_reset
    ∧ (¬ ∀ sk ∈ (run two_stops_config (initial two_stops_config fun _ => 0)
        (times 42 .bus)).mem.skiers, sk.state = .SKIER_FINISHED)
    ∧ (run two_stops_config (run two_stops_config (initial two_stops_config fun _ => 0)
        (times 42 .bus)) (times 7 .bus)).bus.loc = .arrived .enter
    ∧ (run demo_config (initial demo_config fun _ => 0) round_schedule).bus.loc = .unload_reset
    ∧ (∃ s1, step demo_config (run demo_config (initial demo_config fun _ => 0) round_schedule)
          .bus = some s1
        ∧ s1.mem.skiers = (run demo_config (initial demo_config fun _ => 0)
            round_schedule).mem.skiers
        ∧ s1.bus.loc = .unload_end
        ∧ (s1.bus.all_finished = true ↔
            ∀ sk ∈ (run demo_config (initial demo_config fun _ => 0) round_schedule).mem.skiers,
              sk.state = .SKIER_FINISHED))
    ∧ (run demo_config (initial demo_config fun _ => 0)
        (round_schedule ++ times 11 .bus)).mem.output.getLast? = some ⟨14, none, .finish⟩ :=
  ⟨by decide, by decide,
   ((bus_terminates_when_all_finished two_stops_config fun _ => 0).2.2.2.2.1 _
     (reachable_run Reachable.init _) (by decide) (by decide)).2.1,
   by decide, by decide, by decide,
   ((bus_terminates_when_all_finished two_stops_config fun _ => 0).2.2.2.2.2 _
     (reachable_run Reachable.init _) (by decide) (by decide)).2.1,
   by decide,
   (bus_terminates_when_all_finished demo_config fun _ => 0).1 _
     (reachable_run Reachable.init _) (by decide),
   by decide⟩

theorem bus_scan_steps_of_path {config : config_t} {s0 : State} (n : Nat) :
    ∀ (s : State), BusScanSteps config s0 s → scan_path config s (times n .bus) = true →
      BusScanSteps config s0 (run config s (times n .bus)) := by
  induction n with
  | zero => intro s hs _; exact hs
  | succ n ih =>
    intro s hs hp
    simp only [times, List.replicate_succ, scan_path, Bool.and_eq_true, decide_eq_true_eq] at hp
    obtain ⟨⟨h1, h2⟩, h3⟩ := hp
    obtain ⟨s1, hs1⟩ := Option.isSome_iff_exists.1 h2
    have hn : next config s .bus = s1 := by simp [next, hs1]
    simp only [times, List.replicate_succ, run, List.foldl_cons]
    exact ih _ (by rw [hn]; exact BusScanSteps.step hs h1 hs1) h3

/-- The skier array keeps its length in a step of the bus. -/
theorem step_bus_length {config : config_t} {s s1 : State}
    (h : step config s .bus = some s1) : s1.mem.skiers.length = s.mem.skiers.length := by
  obtain ⟨hb, -⟩ := step_bus_inv h
  rcases skibus_process_skiers hb with e | ⟨sk, st, -, e, -⟩
  · rw [e]
  · rw [e]; simp

/-- A step of the bus inside a boarding scan brings the end of the scan closer;
when it leads to a `sem_wait`, the bus has just released the semaphore. -/
theorem scan_left_step {config : config_t} {m m1 : Memory} {b b1 : BusProc}
    (h : skibus_process config m b = some (m1, b1)) (hin : b.loc.in_scan = true)
    (hne : b.loc ≠ .board_end) :
    scan_left config b1 < scan_left config b ∧ b1.loc.in_scan = true
      ∧ (b1.loc.waits = true → m1.sem ≠ 0) := by
  obtain ⟨loc, stop, i, af⟩ := b
  cases loc <;> (try (rename_i p; cases p))
    <;> simp only [BusLoc.in_scan, Bool.false_eq_true, ne_eq, not_true_eq_false] at hin hne
    <;> simp only [skibus_process, bus_print_enter, bus_print_write, bus_print_count,
        bus_print_leave] at h
    <;> (repeat' split at h)
    <;> cases h
    <;> simp only [scan_left, PrintStage.left, BusLoc.waits, BusLoc.in_scan, sem_post, sem_wait,
        Bool.false_eq_true, false_implies, true_implies, and_true, true_and, ne_eq]
    <;> omega

/-- The boarding scan run by the bus on its own ends: the bus reaches the
`sem_post` of line 240 after at most `scan_left` steps. -/
theorem scan_terminates (config : config_t) : ∀ (k : Nat) (s : State),
    scan_left config s.bus ≤ k → s.mem.skiers.length = config.num_skiers.toNat →
    idx_inv config s → s.bus.loc.in_scan = true → (s.bus.loc.waits = true → s.mem.sem ≠ 0) →
    ∃ n, n ≤ k ∧ scan_path config s (times n .bus) = true
      ∧ (run config s (times n .bus)).bus.loc = .board_end := by
  intro k
  induction k with
  | zero =>
    intro s hk hlen hidx hin hw
    by_cases hend : s.bus.loc = .board_end
    · exact ⟨0, le_refl _, rfl, hend⟩
    · have hd : s.bus.loc ≠ .done := by
        intro hc; rw [hc] at hin; cases hin
      obtain ⟨s1, hs1⟩ := bus_enabled hlen hidx hd hw
      have := (scan_left_step (step_bus_inv hs1).1 hin hend).1
      omega
  | succ k ih =>
    intro s hk hlen hidx hin hw
    by_cases hend : s.bus.loc = .board_end
    · exact ⟨0, Nat.zero_le _, rfl, hend⟩
    · have hd : s.bus.loc ≠ .done := by
        intro hc; rw [hc] at hin; cases hin
      obtain ⟨s1, hs1⟩ := bus_enabled hlen hidx hd hw
      obtain ⟨e1, e2, e3⟩ := scan_left_step (step_bus_inv hs1).1 hin hend
      obtain ⟨n, hn, hp, hl⟩ := ih s1 (by omega) (by rw [step_bus_length hs1]; exact hlen)
        (idx_inv_step hs1 hidx) e2 e3
      have hnx : next config s .bus = s1 := by simp [next, hs1]
      refine ⟨n + 1, by omega, ?_, ?_⟩
      · simp only [times, List.replicate_succ, scan_path, Bool.and_eq_true, decide_eq_true_eq]
        refine ⟨⟨hend, by rw [hs1]; rfl⟩, ?_⟩
        rw [hnx]; exact hp
      · simp only [times, List.replicate_succ, run, List.foldl_cons]
        rw [hnx]; exact hl

/-- Under any interleaving, every step made while the scan runs uses up one of
the finitely many steps that the bus has left in the scan and the skier
processes have left in all. -/
theorem scan_path_bound {config : config_t} (schedule : List Actor) :
    ∀ (s : State), s.bus.loc.in_scan = true → scan_path config s schedule = true →
      (run config s schedule).bus.loc.in_scan = true
      ∧ schedule.length + scan_left config (run config s schedule).bus
          + procs_left (run config s schedule).procs
        ≤ scan_left config s.bus + procs_left s.procs := by
  induction schedule with
  | nil => intro s hin _; exact ⟨hin, by simp [run]⟩
  | cons a rest ih =>
    intro s hin hp
    simp only [scan_path, Bool.and_eq_true, decide_eq_true_eq] at hp
    obtain ⟨⟨h1, h2⟩, h3⟩ := hp
    obtain ⟨s1, hs1⟩ := Option.isSome_iff_exists.1 h2
    have hn : next config s a = s1 := by simp [next, hs1]
    simp only [run, List.foldl_cons, List.length_cons]
    rw [hn] at h3 ⊢
    cases a with
    | bus =>
      obtain ⟨hb, hpr⟩ := step_bus_inv hs1
      obtain ⟨e1, e2, -⟩ := scan_left_step hb hin h1
      obtain ⟨f1, f2⟩ := ih s1 e2 h3
      refine ⟨f1, ?_⟩
      simp only [run] at f2
      rw [hpr] at f2
      omega
    | skier k =>
      obtain ⟨e1, e2⟩ := step_skier_left hs1
      obtain ⟨f1, f2⟩ := ih s1 (by rw [e2]; exact hin) h3
      refine ⟨f1, ?_⟩
      simp only [run] at f2
      rw [e2] at f2
      omega

/-- C5: take a boarding scan that starts (bus at the top of the loop of line
229 with `skier_id = 0`) in a state in which skiers a and b, with
`id a < id b`, both wait at the stop of the bus.  In every state reached while
the scan runs, if b has been boarded then a has been boarded too.  If moreover
exactly one seat is free when the scan starts and no skier with a lower id than
a waits at that stop, then at the end of the scan a is on the ride and b still
waits.  The scan does end: run by the bus on its own it reaches the `sem_post`
of line 240 after at most `8 * num_skiers + 1` steps, and there the lower id has
boarded; under any interleaving with the skier processes some process can
step as long as the scan has not ended, and no interleaving of the scan has
more steps than the bus and the skier processes have left.  This holds (1)
from every reachable state of the simulation and (2) for the scan run on its
own from any state: every skier array with the ids of `init_resources`, every
stop and every occupancy. -/
theorem boarding_lower_id_first (config : config_t) :
    (∀ (stop_of : Nat → Int) (s0 : State) (i j : Nat) (ska skb : skier_t),
      Reachable config stop_of s0 →
      s0.bus.loc = .board_scan → s0.bus.skier_id = 0 →
      s0.mem.skiers[i]? = some ska → s0.mem.skiers[j]? = some skb → ska.id < skb.id →
      ska.state = .SKIER_WAITING ∧ ska.stop_id = s0.bus.stop →
      skb.state = .SKIER_WAITING ∧ skb.stop_id = s0.bus.stop →
      (∀ s, ScanSteps config s0 s →
        (∃ ska1 skb1, s.mem.skiers[i]? = some ska1 ∧ s.mem.skiers[j]? = some skb1
            ∧ (skb1.state = .SKIER_ONRIDE → ska1.state = .SKIER_ONRIDE))
        ∧ (s.bus.loc ≠ .board_end → ∃ a s1, step config s a = some s1)
        ∧ (s0.mem.shared_data.bus_occupied + 1 = config.bus_capacity →
            (∀ (k : Nat) (sk : skier_t), k < i → s0.mem.skiers[k]? = some sk →
                ¬ (sk.state = .SKIER_WAITING ∧ sk.stop_id = s0.bus.stop)) →
            s.bus.loc = .board_end →
            ∃ ska1 skb1, s.mem.skiers[i]? = some ska1 ∧ s.mem.skiers[j]? = some skb1
              ∧ ska1.state = .SKIER_ONRIDE ∧ skb1.state = .SKIER_WAITING))
      ∧ (∀ schedule, scan_path config s0 schedule = true →
          schedule.length ≤ 8 * config.num_skiers.toNat + 1 + procs_left s0.procs)
      ∧ (∃ n, n ≤ 8 * config.num_skiers.toNat + 1
          ∧ ScanSteps config s0 (run config s0 (times n .bus))
          ∧ (run config s0 (times n .bus)).bus.loc = .board_end
          ∧ (s0.mem.shared_data.bus_occupied + 1 = config.bus_capacity →
              (∀ (k : Nat) (sk : skier_t), k < i → s0.mem.skiers[k]? = some sk →
                  ¬ (sk.state = .SKIER_WAITING ∧ sk.stop_id = s0.bus.stop)) →
              ∃ ska1 skb1, (run config s0 (times n .bus)).mem.skiers[i]? = some ska1
                ∧ (run config s0 (times n .bus)).mem.skiers[j]? = some skb1
                ∧ ska1.state = .SKIER_ONRIDE ∧ skb1.state = .SKIER_WAITING)))
    ∧ (∀ (s0 : State) (i j : Nat) (ska skb : skier_t),
      s0.mem.skiers.length = config.num_skiers.toNat →
      (∀ (k : Nat) (sk : skier_t), s0.mem.skiers[k]? = some sk → sk.id = (k : Int) + 1) →
      s0.bus.loc = .board_scan → s0.bus.skier_id = 0 →
      s0.mem.skiers[i]? = some ska → s0.mem.skiers[j]? = some skb → ska.id < skb.id →
      ska.state = .SKIER_WAITING ∧ ska.stop_id = s0.bus.stop →
      skb.state = .SKIER_WAITING ∧ skb.stop_id = s0.bus.stop →
      (∀ s, BusScanSteps config s0 s →
        (∃ ska1 skb1, s.mem.skiers[i]? = some ska1 ∧ s.mem.skiers[j]? = some skb1
            ∧ (skb1.state = .SKIER_ONRIDE → ska1.state = .SKIER_ONRIDE))
        ∧ (s0.mem.shared_data.bus_occupied + 1 = config.bus_capacity →
            (∀ (k : Nat) (sk : skier_t), k < i → s0.mem.skiers[k]? = some sk →
                ¬ (sk.state = .SKIER_WAITING ∧ sk.stop_id = s0.bus.stop)) →
            s.bus.loc = .board_end →
            ∃ ska1 skb1, s.mem.skiers[i]? = some ska1 ∧ s.mem.skiers[j]? = some skb1
              ∧ ska1.state = .SKIER_ONRIDE ∧ skb1.state = .SKIER_WAITING))
      ∧ (∃ n, n ≤ 8 * config.num_skiers.toNat + 1
          ∧ BusScanSteps config s0 (run config s0 (times n .bus))
          ∧ (run config s0 (times n .bus)).bus.loc = .board_end
          ∧ (s0.mem.shared_data.bus_occupied + 1 = config.bus_capacity →
              (∀ (k : Nat) (sk : skier_t), k < i → s0.mem.skiers[k]? = some sk →
                  ¬ (sk.state = .SKIER_WAITING ∧ sk.stop_id = s0.bus.stop)) →
              ∃ ska1 skb1, (run config s0 (times n .bus)).mem.skiers[i]? = some ska1
                ∧ (run config s0 (times n .bus)).mem.skiers[j]? = some skb1
                ∧ ska1.state = .SKIER_ONRIDE ∧ skb1.state = .SKIER_WAITING))) := by
  have start_order : ∀ (s0 : State) (i j : Nat) (ska skb : skier_t),
      s0.bus.loc = .board_scan → s0.bus.skier_id = 0 →
      s0.mem.skiers[i]? = some ska → s0.mem.skiers[j]? = some skb →
      ska.state = .SKIER_WAITING ∧ ska.stop_id = s0.bus.stop →
      skb.state = .SKIER_WAITING ∧ skb.stop_id = s0.bus.stop →
      scan_order_inv config i j s0.bus.stop s0 := by
    intro s0 i j ska skb hl hid0 ha hb hwa hwb
    refine ⟨rfl, by rw [hl]; rfl, ska, skb, ha, hb, Or.inl hwa.1, Or.inl hwb.1,
      hwa.2, hwb.2, ?_, ?_⟩
    · intro hc; rw [hwb.1] at hc; cases hc
    · intro _
      left
      rw [hid0, hl]
      by_cases hi0 : 0 < i
      · exact Or.inl hi0
      · exact Or.inr ⟨by omega, rfl⟩
  have start_seat : ∀ (s0 : State) (i j : Nat) (ska skb : skier_t),
      s0.bus.loc = .board_scan → s0.bus.skier_id = 0 →
      s0.mem.skiers[i]? = some ska → s0.mem.skiers[j]? = some skb →
      ska.state = .SKIER_WAITING ∧ ska.stop_id = s0.bus.stop →
      skb.state = .SKIER_WAITING ∧ skb.stop_id = s0.bus.stop →
      s0.mem.shared_data.bus_occupied + 1 = config.bus_capacity →
      (∀ (k : Nat) (sk : skier_t), k < i → s0.mem.skiers[k]? = some sk →
          ¬ (sk.state = .SKIER_WAITING ∧ sk.stop_id = s0.bus.stop)) →
      one_seat_inv config i j s0.bus.stop s0 := by
    intro s0 i j ska skb hl hid0 ha hb hwa hwb hfree hlow
    refine ⟨ska, skb, ha, hb, hwb.1, Or.inl ⟨hl, by rw [hid0]; omega, hfree,
      hwa.1, hwa.2, rfl, ?_⟩⟩
    intro k sk _ hk hsk
    exact hlow k sk hk hsk
  have finish_seat : ∀ (S : Int) (s : State) (i j : Nat), one_seat_inv config i j S s →
      s.bus.loc = .board_end →
      ∃ ska1 skb1, s.mem.skiers[i]? = some ska1 ∧ s.mem.skiers[j]? = some skb1
        ∧ ska1.state = .SKIER_ONRIDE ∧ skb1.state = .SKIER_WAITING := by
    intro S s i j hinv hend
    obtain ⟨ska1, skb1, e1, e2, e3, e4⟩ := hinv
    refine ⟨ska1, skb1, e1, e2, ?_, e3⟩
    rcases e4 with ⟨hl, -⟩ | ⟨hp, -⟩ | ⟨-, hoa, -⟩
    · rw [hend] at hl; cases hl
    · rw [hend] at hp; simp [BusLoc.pending] at hp
    · exact hoa
  have start_left : ∀ (s0 : State), s0.bus.loc = .board_scan → s0.bus.skier_id = 0 →
      scan_left config s0.bus = 8 * config.num_skiers.toNat + 1 := by
    intro s0 hl hid0
    simp only [scan_left, hl, hid0, Nat.sub_zero]
  have start_ends : ∀ (s0 : State), s0.mem.skiers.length = config.num_skiers.toNat →
      s0.bus.loc = .board_scan → s0.bus.skier_id = 0 →
      ∃ n, n ≤ 8 * config.num_skiers.toNat + 1 ∧ scan_path config s0 (times n .bus) = true
        ∧ (run config s0 (times n .bus)).bus.loc = .board_end := by
    intro s0 hlen hl hid0
    exact scan_terminates config _ s0 (le_of_eq (start_left s0 hl hid0)) hlen
      (fun hc => by rw [hl] at hc; cases hc) (by rw [hl]; rfl)
      (fun hc => by rw [hl] at hc; cases hc)
  constructor
  · intro stop_of s0 i j ska skb h0 hl hid0 ha hb hid hwa hwb
    have hsh := (reachable_inv h0).shape.2.2
    have hij : i < j := by
      have e1 := (hsh i ska ha).1
      have e2 := (hsh j skb hb).1
      omega
    have safe : ∀ s, ScanSteps config s0 s →
        (∃ ska1 skb1, s.mem.skiers[i]? = some ska1 ∧ s.mem.skiers[j]? = some skb1
            ∧ (skb1.state = .SKIER_ONRIDE → ska1.state = .SKIER_ONRIDE))
        ∧ (s.bus.loc ≠ .board_end → ∃ a s1, step config s a = some s1)
        ∧ (s0.mem.shared_data.bus_occupied + 1 = config.bus_capacity →
            (∀ (k : Nat) (sk : skier_t), k < i → s0.mem.skiers[k]? = some sk →
                ¬ (sk.state = .SKIER_WAITING ∧ sk.stop_id = s0.bus.stop)) →
            s.bus.loc = .board_end →
            ∃ ska1 skb1, s.mem.skiers[i]? = some ska1 ∧ s.mem.skiers[j]? = some skb1
              ∧ ska1.state = .SKIER_ONRIDE ∧ skb1.state = .SKIER_WAITING) := by
      intro s hs
      have key : scan_order_inv config i j s0.bus.stop s ∧ Reachable config stop_of s := by
        induction hs with
        | refl => exact ⟨start_order s0 i j ska skb hl hid0 ha hb hwa hwb, h0⟩
        | step a _ hne hstep ih =>
          exact ⟨scan_order_step ih.2 hij ih.1 hne hstep, Reachable.step a ih.2 hstep⟩
      refine ⟨?_, ?_, ?_⟩
      · obtain ⟨-, -, ska1, skb1, e1, e2, -, -, -, -, e3, -⟩ := key.1
        exact ⟨ska1, skb1, e1, e2, e3⟩
      · intro _
        apply no_deadlock key.2
        intro hc
        have hin := key.1.2.1
        rw [hc] at hin
        cases hin
      · clear key
        intro hfree hlow
        have key2 : one_seat_inv config i j s0.bus.stop s ∧ Reachable config stop_of s := by
          induction hs with
          | refl => exact ⟨start_seat s0 i j ska skb hl hid0 ha hb hwa hwb hfree hlow, h0⟩
          | step a _ hne hstep ih =>
            exact ⟨one_seat_step ih.2 hij ih.1 hne hstep, Reachable.step a ih.2 hstep⟩
        exact finish_seat _ s i j key2.1
    refine ⟨safe, ?_, ?_⟩
    · intro schedule hp
      have := (scan_path_bound schedule s0 (by rw [hl]; rfl) hp).2
      rw [start_left s0 hl hid0] at this
      omega
    · obtain ⟨n, hn, hp, hend⟩ := start_ends s0 (reachable_inv h0).shape.1 hl hid0
      have hsteps := scan_steps_of_path (times n .bus) s0 ScanSteps.refl hp
      exact ⟨n, hn, hsteps, hend, fun hfree hlow => (safe _ hsteps).2.2 hfree hlow hend⟩
  · intro s0 i j ska skb hlen hids hl hid0 ha hb hid hwa hwb
    have hij : i < j := by
      have e1 := hids i ska ha
      have e2 := hids j skb hb
      omega
    have safe : ∀ s, BusScanSteps config s0 s →
        (∃ ska1 skb1, s.mem.skiers[i]? = some ska1 ∧ s.mem.skiers[j]? = some skb1
            ∧ (skb1.state = .SKIER_ONRIDE → ska1.state = .SKIER_ONRIDE))
        ∧ (s0.mem.shared_data.bus_occupied + 1 = config.bus_capacity →
            (∀ (k : Nat) (sk : skier_t), k < i → s0.mem.skiers[k]? = some sk →
                ¬ (sk.state = .SKIER_WAITING ∧ sk.stop_id = s0.bus.stop)) →
            s.bus.loc = .board_end →
            ∃ ska1 skb1, s.mem.skiers[i]? = some ska1 ∧ s.mem.skiers[j]? = some skb1
              ∧ ska1.state = .SKIER_ONRIDE ∧ skb1.state = .SKIER_WAITING) := by
      intro s hs
      constructor
      · have key : scan_order_inv config i j s0.bus.stop s
            ∧ s.mem.skiers.length = config.num_skiers.toNat := by
          induction hs with
          | refl => exact ⟨start_order s0 i j ska skb hl hid0 ha hb hwa hwb, hlen⟩
          | step _ hne hstep ih =>
            exact ⟨scan_order_bus_step ih.2 hij ih.1 hne hstep,
              by rw [step_bus_length hstep]; exact ih.2⟩
        obtain ⟨-, -, ska1, skb1, e1, e2, -, -, -, -, e3, -⟩ := key.1
        exact ⟨ska1, skb1, e1, e2, e3⟩
      · intro hfree hlow
        have key : one_seat_inv config i j s0.bus.stop s
            ∧ s.mem.skiers.length = config.num_skiers.toNat := by
          induction hs with
          | refl => exact ⟨start_seat s0 i j ska skb hl hid0 ha hb hwa hwb hfree hlow, hlen⟩
          | step _ hne hstep ih =>
            exact ⟨one_seat_bus_step ih.2 hij ih.1 hne hstep,
              by rw [step_bus_length hstep]; exact ih.2⟩
        exact finish_seat _ s i j key.1
    refine ⟨safe, ?_⟩
    obtain ⟨n, hn, hp, hend⟩ := start_ends s0 hlen hl hid0
    have hsteps := bus_scan_steps_of_path n s0 BusScanSteps.refl hp
    exact ⟨n, hn, hsteps, hend, fun hfree hlow => (safe _ hsteps).2 hfree hlow hend⟩

theorem boarding_lower_id_first_witness :
    (run full_config (initial full_config full_stops) full_schedule).bus.loc = .board_scan
    ∧ (run full_config (initial full_config full_stops)
        full_schedule).mem.shared_data.bus_occupied = 9
    ∧ (∃ n, n ≤ 8 * full_config.num_skiers.toNat + 1
        ∧ (run full_config (run full_config (initial full_config full_stops) full_schedule)
            (times n .bus)).bus.loc = .board_end
        ∧ ∃ ska1 skb1,
          (run full_config (run full_config (initial full_config full_stops) full_schedule)
            (times n .bus)).mem.skiers[9]? = some ska1
          ∧ (run full_config (run full_config (initial full_config full_stops) full_schedule)
            (times n .bus)).mem.skiers[10]? = some skb1
          ∧ ska1.state = .SKIER_ONRIDE ∧ skb1.state = .SKIER_WAITING)
    ∧ (run full_config (run full_config (initial full_config full_stops) full_schedule)
        (times 19 .bus)).bus.loc = .board_end
    ∧ ((run full_config (run full_config (initial full_config full_stops) full_schedule)
        (times 19 .bus)).mem.skiers.map fun sk => sk.state).drop 9
        = [.SKIER_ONRIDE, .SKIER_WAITING]
    ∧ (∃ n, n ≤ 8 * seat_config.num_skiers.toNat + 1
        ∧ (run seat_config seat_state (times n .bus)).bus.loc = .board_end
        ∧ ∃ ska1 skb1, (run seat_config seat_state (times n .bus)).mem.skiers[1]? = some ska1
          ∧ (run seat_config seat_state (times n .bus)).mem.skiers[2]? = some skb1
          ∧ ska1.state = .SKIER_ONRIDE ∧ skb1.state = .SKIER_WAITING)
    ∧ (run seat_config seat_state (times 11 .bus)).bus.loc = .board_end
    ∧ ((run seat_config seat_state (times 11 .bus)).mem.skiers.map fun sk => sk.state)
        = [.SKIER_WAITING, .SKIER_ONRIDE, .SKIER_WAITING] := by
  have hlow : ∀ k < 9, ((run full_config (initial full_config full_stops)
      full_schedule).mem.skiers[k]?).map (fun sk => sk.state) = some .SKIER_ONRIDE := by
    decide
  have hids : ∀ k : Nat, k < 3 →
      (seat_state.mem.skiers[k]?).map (fun sk => sk.id) = some ((k : Int) + 1) := by
    decide
  have hseat : ((seat_state.mem.skiers[0]?).map fun sk => sk.stop_id) = some 1 := by decide
  refine ⟨by decide, by decide, ?_, by decide, by decide, ?_, by decide, by decide⟩
  · obtain ⟨n, h1, -, h3, h4⟩ := ((boarding_lower_id_first full_config).1 full_stops
      (run full_config (initial full_config full_stops) full_schedule) 9 10
      ⟨10, 1, .SKIER_WAITING⟩ ⟨11, 1, .SKIER_WAITING⟩
      (reachable_run Reachable.init _) (by decide) (by decide) (by decide) (by decide)
      (by decide) (by decide) (by decide)).2.2
    refine ⟨n, h1, h3, h4 (by decide) ?_⟩
    intro k sk hk hsk hc
    have h := hlow k hk
    rw [hsk] at h
    simp only [Option.map_some', Option.some.injEq] at h
    rw [hc.1] at h
    cases h
  · obtain ⟨n, h1, -, h3, h4⟩ := ((boarding_lower_id_first seat_config).2 seat_state 1 2
      ⟨2, 0, .SKIER_WAITING⟩ ⟨3, 0, .SKIER_WAITING⟩ (by decide)
      (fun k sk hsk => by
        have hk : k < 3 := (List.getElem?_eq_some_iff.1 hsk).1
        have h := hids k hk
        rw [hsk] at h
        simpa using h)
      (by decide) (by decide) (by decide) (by decide) (by decide) (by decide) (by decide)).2
    refine ⟨n, h1, h3, h4 (by decide) ?_⟩
    intro k sk hk hsk hc
    have hk0 : k = 0 := by omega
    subst hk0
    rw [hsk] at hseat
    simp only [Option.map_some', Option.some.injEq] at hseat
    rw [hc.2] at hseat
    revert hseat
    decide

/-- Inside a boarding scan the number of riders is `bus_occupied`, plus one
while a boarding is in flight. -/
theorem count_in_scan {s : State} (hc : count_inv s) (h : s.bus.loc.in_scan = true) :
    (on_ride s.mem.skiers : Int)
      = s.mem.shared_data.bus_occupied + (if s.bus.loc.pending = true then 1 else 0) := by
  unfold count_inv at hc
  cases hloc : s.bus.loc <;> (try (rename_i p; cases p))
    <;> rw [hloc] at h hc
    <;> simp only [BusLoc.in_scan, Bool.false_eq_true] at h
    <;> simp only [BusLoc.phase, BusLoc.pending] at hc ⊢
    <;> simpa using hc

/-- C6: in every reachable state, at every program point of the bus outside a
boarding in flight and outside the unloading loop (in particular before a
boarding scan, between two boardings and after the scan) `bus_occupied` is the
number of skiers on the ride; between the state change of a boarding and its
count the number of riders is one ahead; after an unloading phase both are 0.
Replaying the log (one passenger more per `boarding` line, empty bus at each
`arrived to final` line) gives `bus_occupied` before and after every boarding
scan and after every unloading phase.  Moreover, for a boarding scan run on its
own from any state: if `bus_occupied` is the number of riders when the scan
starts, it is again when the scan ends, each boarding adding one to both. -/
theorem occupancy_counts_riders (config : config_t) :
    (∀ (stop_of : Nat → Int) (s : State), Reachable config stop_of s →
      (s.bus.loc.phase = .steady →
          (on_ride s.mem.skiers : Int) = s.mem.shared_data.bus_occupied)
      ∧ (s.bus.loc.phase = .pending →
          (on_ride s.mem.skiers : Int) = s.mem.shared_data.bus_occupied + 1)
      ∧ (s.bus.loc.phase = .emptied →
          on_ride s.mem.skiers = 0 ∧ s.mem.shared_data.bus_occupied = 0)
      ∧ (s.bus.loc.log_phase = .equal → replay s.mem.output = s.mem.shared_data.bus_occupied)
      ∧ ((s.bus.loc = .loop_head ∨ s.bus.loc = .board_wait ∨ s.bus.loc = .board_scan
            ∨ s.bus.loc = .board_end) →
          (on_ride s.mem.skiers : Int) = s.mem.shared_data.bus_occupied
            ∧ replay s.mem.output = s.mem.shared_data.bus_occupied)
      ∧ (s.bus.loc = .unload_end →
          on_ride s.mem.skiers = 0 ∧ s.mem.shared_data.bus_occupied = 0
            ∧ replay s.mem.output = 0))
    ∧ (∀ (s0 s : State), s0.mem.skiers.length = config.num_skiers.toNat →
        s0.bus.loc = .board_scan →
        (on_ride s0.mem.skiers : Int) = s0.mem.shared_data.bus_occupied →
        BusScanSteps config s0 s →
        (on_ride s.mem.skiers : Int)
            = s.mem.shared_data.bus_occupied + (if s.bus.loc.pending = true then 1 else 0)
          ∧ (s.bus.loc = .board_end →
              (on_ride s.mem.skiers : Int) = s.mem.shared_data.bus_occupied)) := by
  constructor
  · intro stop_of s hr
    have hc := (reachable_inv hr).count
    have hl := (reachable_inv hr).replay
    unfold count_inv at hc
    unfold replay_inv at hl
    refine ⟨?_, ?_, ?_, ?_, ?_, ?_⟩
    · intro h; rw [h] at hc; exact hc
    · intro h; rw [h] at hc; exact hc
    · intro h; rw [h] at hc; exact hc
    · intro h; rw [h] at hl; exact hl
    · intro h
      rcases h with h | h | h | h <;> rw [h] at hc hl
        <;> simp only [BusLoc.phase, BusLoc.log_phase] at hc hl <;> exact ⟨hc, hl⟩
    · intro h
      rw [h] at hc hl
      simp only [BusLoc.phase, BusLoc.log_phase] at hc hl
      exact ⟨hc.1, hc.2, by rw [hl, hc.2]⟩
  · intro s0 s hlen hl hcnt hs
    have key : count_inv s ∧ s.bus.loc.in_scan = true
        ∧ s.mem.skiers.length = config.num_skiers.toNat := by
      induction hs with
      | refl =>
        refine ⟨?_, by rw [hl]; rfl, hlen⟩
        unfold count_inv
        rw [hl]
        exact hcnt
      | step _ hne hstep ih =>
        obtain ⟨hb, -⟩ := step_bus_inv hstep
        exact ⟨count_inv_bus hstep ih.2.2 ih.1, (scan_bus_step hb ih.2.1 hne).2.1,
          by rw [step_bus_length hstep]; exact ih.2.2⟩
    have hres := count_in_scan key.1 key.2.1
    refine ⟨hres, ?_⟩
    intro hend
    rw [hend] at hres
    simpa [BusLoc.pending] using hres

theorem occupancy_counts_riders_witness :
    Reachable demo_config (fun _ => 0)
        (run demo_config (initial demo_config fun _ => 0) (demo_schedule ++ times 6 .bus))
    ∧ (run demo_config (initial demo_config fun _ => 0)
        (demo_schedule ++ times 6 .bus)).bus.loc = .board_scan
    ∧ (on_ride (run demo_config (initial demo_config fun _ => 0)
        (demo_schedule ++ times 6 .bus)).mem.skiers : Int) = 1
    ∧ (on_ride (run demo_config (initial demo_config fun _ => 0)
        (demo_schedule ++ times 6 .bus)).mem.skiers : Int)
      = (run demo_config (initial demo_config fun _ => 0)
        (demo_schedule ++ times 6 .bus)).mem.shared_data.bus_occupied :=
  ⟨reachable_run Reachable.init _, by decide, by decide,
   ((occupancy_counts_riders demo_config).1 (fun _ => 0) _
      (reachable_run Reachable.init _)).1 (by decide)⟩

/-- C7 (as stated) fails: with two skiers, after skier 1 arrived and the bus
changed its state to `SKIER_ONRIDE`, the bus releases the semaphore (line 233)
before it logs the boarding and before it increments `bus_occupied`.  In that
reachable state the semaphore is free, one skier is on the ride, `bus_occupied`
is still 0, and the process of skier 2 can take the semaphore. -/
theorem boarding_gate_released_mid_boarding :
    Reachable demo_config (fun _ => 0)
        (run demo_config (initial demo_config fun _ => 0) demo_schedule)
    ∧ (run demo_config (initial demo_config fun _ => 0) demo_schedule).bus.loc
        = .boarding .enter
    ∧ (run demo_config (initial demo_config fun _ => 0) demo_schedule).mem.sem = 1
    ∧ on_ride (run demo_config (initial demo_config fun _ => 0) demo_schedule).mem.skiers = 1
    ∧ (run demo_config (initial demo_config fun _ => 0)
        demo_schedule).mem.shared_data.bus_occupied = 0
    ∧ ((step demo_config (run demo_config (initial demo_config fun _ => 0) demo_schedule)
        (.skier 1)).map fun s1 => s1.mem.sem) = some 0 :=
  ⟨reachable_run Reachable.init _, by decide, by decide, by decide, by decide, by decide⟩

/-- A skier process that passes a `sem_wait` takes the semaphore. -/
theorem skier_wait_step {j : Nat} {m m1 : Memory} {l l1 : SkierLoc}
    (h : skier_process j m l = some (m1, l1)) (hw : l.waits = true) :
    l1.holds = true ∧ m1.sem + 1 = m.sem := by
  cases l <;> (try (rename_i p; cases p))
    <;> simp only [SkierLoc.waits, Bool.false_eq_true] at hw
    <;> simp only [skier_process, skier_print_enter] at h
    <;> (repeat' split at h)
    <;> cases h
    <;> exact ⟨rfl, by simp only [sem_wait]; omega⟩

/-- C7 (amended): in the boarding scan the eligibility check with the state
change (lines 229-232), the writing of the `boarding` line with the increment
of `action_count`, and the increment of `bus_occupied` (line 236) each run
while the bus alone holds the semaphore, in three separate acquire/release
scopes.  The bus releases the semaphore after the state change (line 233) and
again after the log line: the step leaves the semaphore free with the skier
array and the counters untouched.  Between the scopes the bus does not hold the
semaphore, one skier more is on the ride than `bus_occupied` counts, the bus can
go on only by taking the semaphore again, and every skier process that stands at
a `sem_wait` can take the free semaphore and then holds it in a state with that
uncounted rider.  Throughout the scan the number of skiers on the ride is
`bus_occupied`, plus one exactly between the state change and the increment;
and no step of a skier process changes `bus_occupied` or the number of skiers on
the ride. -/
theorem boarding_gate_scopes (config : config_t) (stop_of : Nat → Int) (s : State)
    (hr : Reachable config stop_of s) :
    ((s.bus.loc = .board_scan ∨ s.bus.loc = .board_post ∨ s.bus.loc = .boarding .write
        ∨ s.bus.loc = .boarding .count ∨ s.bus.loc = .boarding .leave
        ∨ s.bus.loc = .board_count) →
      s.bus.loc.holds = true ∧ s.mem.sem = 0 ∧ ∀ l ∈ s.procs, l.holds = false)
    ∧ ((s.bus.loc = .board_post ∨ s.bus.loc = .boarding .leave) →
        ∃ s1, step config s .bus = some s1
          ∧ s1.bus.loc = (if s.bus.loc = .board_post then .boarding .enter else .board_rewait)
          ∧ s1.mem.sem = 1 ∧ s1.bus.loc.holds = false ∧ (∀ l ∈ s1.procs, l.holds = false)
          ∧ s1.mem.skiers = s.mem.skiers ∧ s1.mem.shared_data = s.mem.shared_data
          ∧ (on_ride s1.mem.skiers : Int) = s1.mem.shared_data.bus_occupied + 1)
    ∧ ((s.bus.loc = .boarding .enter ∨ s.bus.loc = .board_rewait) →
        s.bus.loc.holds = false
        ∧ (on_ride s.mem.skiers : Int) = s.mem.shared_data.bus_occupied + 1
        ∧ (s.mem.sem = 1 ∨ (s.mem.sem = 0 ∧ ∃ l ∈ s.procs, l.holds = true))
        ∧ ((∃ s1, step config s .bus = some s1) ↔ s.mem.sem ≠ 0)
        ∧ (∀ s1, step config s .bus = some s1 →
            s1.bus.loc = (if s.bus.loc = .boarding .enter then .boarding .write else .board_count)
              ∧ s1.bus.loc.holds = true ∧ s1.mem.sem = 0)
        ∧ ∀ (k : Nat) (l : SkierLoc), s.procs[k]? = some l → l.waits = true →
            s.mem.sem ≠ 0 →
            ∃ s1, step config s (.skier k) = some s1 ∧ s1.mem.sem = 0
              ∧ (∃ l1, s1.procs[k]? = some l1 ∧ l1.holds = true)
              ∧ s1.bus = s.bus
              ∧ (on_ride s1.mem.skiers : Int) = s1.mem.shared_data.bus_occupied + 1)
    ∧ (s.bus.loc.in_scan = true →
        (on_ride s.mem.skiers : Int)
          = s.mem.shared_data.bus_occupied + (if s.bus.loc.pending = true then 1 else 0))
    ∧ (∀ (k : Nat) (s1 : State), step config s (.skier k) = some s1 →
        s1.mem.shared_data.bus_occupied = s.mem.shared_data.bus_occupied
          ∧ on_ride s1.mem.skiers = on_ride s.mem.skiers) := by
  have hinv := reachable_inv hr
  have he := hinv.excl
  unfold excl_inv at he
  have alone : s.bus.loc.holds = true → s.mem.sem = 0 ∧ ∀ l ∈ s.procs, l.holds = false := by
    intro hh
    rw [hh] at he
    simp only [if_true] at he
    refine ⟨by omega, ?_⟩
    have hz : s.procs.countP SkierLoc.holds = 0 := by omega
    rw [List.countP_eq_zero] at hz
    intro l hl
    simpa using hz l hl
  refine ⟨?_, ?_, ?_, ?_, ?_⟩
  · intro h
    have hh : s.bus.loc.holds = true := by
      rcases h with h | h | h | h | h | h <;> rw [h] <;> rfl
    exact ⟨hh, alone hh⟩
  · intro h
    obtain ⟨hsem, hno⟩ := alone (by rcases h with h | h <;> rw [h] <;> rfl)
    have hcnt := count_in_scan hinv.count (by rcases h with h | h <;> rw [h] <;> rfl)
    have hpend : s.bus.loc.pending = true := by rcases h with h | h <;> rw [h] <;> rfl
    rw [hpend] at hcnt
    simp only [if_true] at hcnt
    rcases h with h | h
    · refine ⟨{ s with mem := sem_post s.mem, bus := { s.bus with loc := .boarding .enter } },
        by simp only [step, skibus_process, h], by simp [h], ?_, rfl, hno, rfl, rfl, hcnt⟩
      simp only [sem_post, hsem]
    · refine ⟨{ s with mem := sem_post s.mem, bus := { s.bus with loc := .board_rewait } },
        by simp only [step, skibus_process, h, bus_print_leave], by simp [h], ?_, rfl, hno,
        rfl, rfl, hcnt⟩
      simp only [sem_post, hsem]
  · intro h
    have hh : s.bus.loc.holds = false := by rcases h with h | h <;> rw [h] <;> rfl
    have hcnt := count_in_scan hinv.count (by rcases h with h | h <;> rw [h] <;> rfl)
    have hpend : s.bus.loc.pending = true := by rcases h with h | h <;> rw [h] <;> rfl
    rw [hpend] at hcnt
    simp only [if_true] at hcnt
    rw [hh] at he
    simp only [Bool.false_eq_true, if_false, Nat.add_zero] at he
    refine ⟨hh, hcnt, ?_, ?_, ?_, ?_⟩
    · by_cases h0 : s.mem.sem = 0
      · right
        refine ⟨h0, ?_⟩
        have hpos : 0 < s.procs.countP SkierLoc.holds := by omega
        exact List.countP_pos_iff.1 hpos
      · left; omega
    · constructor
      · rintro ⟨s1, hs1⟩ h0
        obtain ⟨hb, -⟩ := step_bus_inv hs1
        rcases h with h | h
          <;> simp [skibus_process, h, bus_print_enter, h0] at hb
      · intro h0
        exact bus_enabled hinv.shape.1 (reachable_idx hr)
          (by rcases h with h | h <;> rw [h] <;> simp) (fun _ => h0)
    · intro s1 hs1
      obtain ⟨hb, -⟩ := step_bus_inv hs1
      have he1 := (reachable_inv (Reachable.step .bus hr hs1)).excl
      unfold excl_inv at he1
      have hloc : s1.bus.loc
          = (if s.bus.loc = .boarding .enter then .boarding .write else .board_count) := by
        rcases h with h | h
          <;> simp only [skibus_process, h, bus_print_enter] at hb
          <;> split at hb
          <;> simp only [Option.some.injEq, Prod.mk.injEq, reduceCtorEq] at hb
          <;> rw [← hb.2]
          <;> simp [h]
      have hh1 : s1.bus.loc.holds = true := by
        rw [hloc]
        rcases h with h | h <;> simp [h, BusLoc.holds, PrintStage.holds]
      rw [hh1] at he1
      simp only [if_true] at he1
      exact ⟨hloc, hh1, by omega⟩
    · intro k l hl hw h0
      have hld : l ≠ .done := by
        intro hc; rw [hc] at hw; cases hw
      obtain ⟨s1, hs1⟩ := skier_enabled config
        (by rw [hinv.shape.1, hinv.shape.2.1]) hl hld (fun _ => h0)
      obtain ⟨l0, l1, hl0, hs, hp, hbus⟩ := step_skier_inv hs1
      rw [hl] at hl0; cases hl0
      obtain ⟨f1, f2⟩ := skier_wait_step hs hw
      have hr1 : Reachable config stop_of s1 := Reachable.step (.skier k) hr hs1
      have hcnt1 := count_in_scan (reachable_inv hr1).count
        (by rw [hbus]; rcases h with h | h <;> rw [h] <;> rfl)
      rw [hbus, hpend] at hcnt1
      simp only [if_true] at hcnt1
      refine ⟨s1, hs1, by omega, ⟨l1, ?_, f1⟩, hbus, hcnt1⟩
      rw [hp, List.getElem?_set]
      have hk : k < s.procs.length := (List.getElem?_eq_some_iff.1 hl).1
      simp [hk]
  · intro h
    exact count_in_scan hinv.count h
  · intro k s1 hstep
    obtain ⟨l, l1, hl, hs, hp, hbus⟩ := step_skier_inv hstep
    refine ⟨(skier_process_shared hs).1, ?_⟩
    rcases skier_process_skiers hs with e | ⟨sk, hsk, rfl, -, e⟩
    · rw [e]
    · have hst := hinv.breakfast k _ sk hl hsk rfl
      have := on_ride_set .SKIER_WAITING hsk
      rw [e]
      simpa [hst] using this

theorem boarding_gate_scopes_witness :
    Reachable demo_config (fun _ => 0)
        (run demo_config (initial demo_config fun _ => 0) demo_schedule)
    ∧ (run demo_config (initial demo_config fun _ => 0) demo_schedule).bus.loc = .boarding .enter
    ∧ (run demo_config (initial demo_config fun _ => 0) demo_schedule).mem.sem = 1
    ∧ (run demo_config (initial demo_config fun _ => 0) demo_schedule).procs[1]?
        = some (.start .enter)
    ∧ (on_ride (run demo_config (initial demo_config fun _ => 0) demo_schedule).mem.skiers : Int)
        = (run demo_config (initial demo_config fun _ => 0)
            demo_schedule).mem.shared_data.bus_occupied + 1
    ∧ ∃ s1, step demo_config (run demo_config (initial demo_config fun _ => 0) demo_schedule)
          (.skier 1) = some s1
        ∧ s1.mem.sem = 0
        ∧ (on_ride s1.mem.skiers : Int) = s1.mem.shared_data.bus_occupied + 1 := by
  have h := (boarding_gate_scopes demo_config (fun _ => 0) _
    (reachable_run Reachable.init demo_schedule)).2.2.1 (Or.inl (by decide))
  obtain ⟨s1, e1, e2, -, -, e3⟩ := h.2.2.2.2.2 1 (.start .enter) (by decide) rfl (by decide)
  exact ⟨reachable_run Reachable.init _, by decide, by decide, by decide, h.2.1,
    s1, e1, e2, e3⟩

/-- C9 fails on the code: `shared_data->bus_stop_id` is written only with 0
(lines 114 and 217), so it is 0 in every reachable state; the bus advances its
local variable `stop` instead.  With two stops, right after the bus logged
`leaving 1` and advanced, the local `stop` is 1 = (0 + 1) mod 2 while the shared
field is still 0; it is still 0 when the bus has logged `arrived to 2`. -/
theorem bus_stop_id_never_advances :
    (∀ (config : config_t) (stop_of : Nat → Int) (s : State), Reachable config stop_of s →
        s.mem.shared_data.bus_stop_id = 0)
    ∧ (run two_stops_config (initial two_stops_config fun _ => 0)
        (times 21 .bus)).mem.output.getLast? = some ⟨3, none, .leaving 1⟩
    ∧ (run two_stops_config (initial two_stops_config fun _ => 0) (times 21 .bus)).bus.stop = 1
    ∧ (run two_stops_config (initial two_stops_config fun _ => 0)
        (times 21 .bus)).mem.shared_data.bus_stop_id = 0
    ∧ (run two_stops_config (initial two_stops_config fun _ => 0)
        (times 25 .bus)).mem.output.getLast? = some ⟨4, none, .arrived_to 2⟩
    ∧ (run two_stops_config (initial two_stops_config fun _ => 0)
        (times 25 .bus)).mem.shared_data.bus_stop_id = 0 :=
  ⟨fun _ _ _ hr => (reachable_inv hr).stop, by decide, by decide, by decide, by decide,
   by decide⟩

theorem digitChar_spec (k : Nat) (hk : k < 10) :
    isdigit (Nat.digitChar k) = true ∧ ((Nat.digitChar k).toNat : Int) - 48 = k
      ∧ isspace (Nat.digitChar k) = false ∧ Nat.digitChar k ≠ '-' ∧ Nat.digitChar k ≠ '+' := by
  interval_cases k <;> decide

theorem atoi_digits_append (ds tail : List Char) (hd : ∀ c ∈ ds, isdigit c = true) (a : Int) :
    atoi_digits a (ds ++ tail) = atoi_digits (atoi_digits a ds) tail := by
  induction ds generalizing a with
  | nil => simp [atoi_digits]
  | cons c cs ih =>
    have hc : isdigit c = true := hd c (by simp)
    simp only [List.cons_append, atoi_digits, hc, if_true]
    exact ih (fun x hx => hd x (by simp [hx])) _

/-- The decimal digits that `Nat.repr` produces, read back by the digit loop. -/
theorem toDigitsCore_spec (f : Nat) : ∀ (n : Nat) (acc : List Char), n < f →
    ∃ ds : List Char, Nat.toDigitsCore 10 f n acc = ds ++ acc ∧ (∀ c ∈ ds, isdigit c = true)
      ∧ (∃ c cs, ds = c :: cs ∧ isspace c = false ∧ c ≠ '-' ∧ c ≠ '+')
      ∧ ∀ a : Int, atoi_digits a ds = a * 10 ^ ds.length + n := by
  induction f with
  | zero => intro n acc h; omega
  | succ f ih =>
    intro n acc h
    have hm : n % 10 < 10 := Nat.mod_lt _ (by decide)
    obtain ⟨h1, h2, h3, h4, h5⟩ := digitChar_spec (n % 10) hm
    by_cases h0 : n / 10 = 0
    · refine ⟨[Nat.digitChar (n % 10)], ?_, ?_, ⟨_, _, rfl, h3, h4, h5⟩, ?_⟩
      · simp [Nat.toDigitsCore, h0]
      · simpa using h1
      · intro a
        simp only [atoi_digits, h1, if_true, h2, List.length_singleton, pow_one]
        have : n % 10 = n := by omega
        omega
    · have hlt : n / 10 < f := by omega
      obtain ⟨ds, e1, e2, ⟨c, cs, e3, e4⟩, e5⟩ :=
        ih (n / 10) (Nat.digitChar (n % 10) :: acc) hlt
      refine ⟨ds ++ [Nat.digitChar (n % 10)], ?_, ?_,
        ⟨c, cs ++ [Nat.digitChar (n % 10)], by simp [e3], e4⟩, ?_⟩
      · simp [Nat.toDigitsCore, h0, e1]
      · intro x hx
        rcases List.mem_append.1 hx with hx | hx
        · exact e2 x hx
        · simp at hx; subst hx; exact h1
      · intro a
        rw [atoi_digits_append ds _ e2, e5]
        simp only [atoi_digits, h1, if_true, h2, List.length_append, List.length_singleton,
          pow_succ]
        have : (n : Int) = 10 * ((n / 10 : Nat) : Int) + ((n % 10 : Nat) : Int) := by
          have := Nat.div_add_mod n 10
          omega
        push_cast at this ⊢
        rw [this]
        ring_nf
        omega

/-- `atoi` reads the decimal rendering of an integer back. -/
theorem atoi_toString (n : Int) : atoi (toString n) = n := by
  cases n with
  | ofNat m =>
    obtain ⟨ds, e1, e2, ⟨c, cs, e3, e4, e5, e6⟩, e7⟩ := toDigitsCore_spec (m + 1) m [] (by omega)
    have hs : (toString (Int.ofNat m)).toList = c :: cs := by
      show (Nat.repr m).toList = _
      simp [Nat.repr, Nat.toDigits, e1, e3, List.asString]
    have := e7 0
    unfold atoi
    rw [hs]
    simp only [List.dropWhile, e4, e5, e6, if_false]
    rw [← e3, this]; simp
  | negSucc m =>
    obtain ⟨ds, e1, e2, -, e7⟩ := toDigitsCore_spec (m + 2) (m + 1) [] (by omega)
    have hs : (toString (Int.negSucc m)).toList = '-' :: ds := by
      show ("-" ++ Nat.repr (m + 1)).toList = _
      simp [Nat.repr, Nat.toDigits, e1, List.asString]
    have h1 : isspace '-' = false := by decide
    have := e7 0
    unfold atoi
    rw [hs]
    simp only [List.dropWhile, h1, if_true, this]
    simp [Int.negSucc_eq]

/-- C8 (as stated) fails: the arguments `abc` and `12x` are not well-formed
integers, yet `parse_config` returns a configuration, with 0 and 12 in their
place. -/
theorem parse_config_accepts_malformed :
    parse_config 0 ["./proj2", "5", "3", "10", "abc", "12x"]
      = some { num_skiers := 5, num_stops := 3, bus_capacity := 10, max_travel_time := 0,
               max_skier_wait_time := 0, max_bus_travel_time := 12 } := by
  decide

/-- C8 (amended): `parse_config` returns a configuration if and only if exactly
five arguments are given and the integers that `atoi` reads from them (white
space, an optional sign, the leading decimal digits; 0 when there is no digit)
lie in [1, 20000], [1, 10], [10, 100], [0, 10000] and [0, 1000]; the returned
fields are those integers, and every other argument list ends the process with
a failure status.  In particular, for arguments that are the decimal renderings
of five integers the fields are exactly those integers, and the process fails
exactly when one of them is out of range.  (Arguments whose value fits a C
`int`.) -/
theorem parse_config_accepts (uninit : Int) :
    (∀ (argv : List String) (config : config_t),
        (∀ a ∈ argv.drop 1, INT_MIN ≤ atoi a ∧ atoi a ≤ INT_MAX) →
        (parse_config uninit argv = some config ↔
          argv.length = 6
          ∧ config = { num_skiers := atoi (argv.getD 1 ""), num_stops := atoi (argv.getD 2 ""),
                       bus_capacity := atoi (argv.getD 3 ""), max_travel_time := uninit,
                       max_skier_wait_time := atoi (argv.getD 4 ""),
                       max_bus_travel_time := atoi (argv.getD 5 "") }
          ∧ in_ranges (atoi (argv.getD 1 "")) (atoi (argv.getD 2 "")) (atoi (argv.getD 3 ""))
              (atoi (argv.getD 4 "")) (atoi (argv.getD 5 ""))))
    ∧ (∀ (argv : List String),
        (∀ a ∈ argv.drop 1, INT_MIN ≤ atoi a ∧ atoi a ≤ INT_MAX) →
        (parse_config uninit argv = none ↔
          ¬ (argv.length = 6
            ∧ in_ranges (atoi (argv.getD 1 "")) (atoi (argv.getD 2 ""))
                (atoi (argv.getD 3 "")) (atoi (argv.getD 4 "")) (atoi (argv.getD 5 "")))))
    ∧ (∀ (prog : String) (n1 n2 n3 n4 n5 : Int),
        (∀ n ∈ [n1, n2, n3, n4, n5], INT_MIN ≤ n ∧ n ≤ INT_MAX) →
        parse_config uninit
            [prog, toString n1, toString n2, toString n3, toString n4, toString n5]
          = if in_ranges n1 n2 n3 n4 n5 then
              some { num_skiers := n1, num_stops := n2, bus_capacity := n3,
                     max_travel_time := uninit, max_skier_wait_time := n4,
                     max_bus_travel_time := n5 }
            else none) := by
  have key : ∀ (argv : List String), parse_config uninit argv
      = if argv.length = 6 ∧ in_ranges (atoi (argv.getD 1 "")) (atoi (argv.getD 2 ""))
            (atoi (argv.getD 3 "")) (atoi (argv.getD 4 "")) (atoi (argv.getD 5 "")) then
          some { num_skiers := atoi (argv.getD 1 ""), num_stops := atoi (argv.getD 2 ""),
                 bus_capacity := atoi (argv.getD 3 ""), max_travel_time := uninit,
                 max_skier_wait_time := atoi (argv.getD 4 ""),
                 max_bus_travel_time := atoi (argv.getD 5 "") }
        else none := by
    intro argv
    simp only [parse_config, NUM_ARGS, MAX_SKIERS, MAX_STOPS, in_ranges]
    by_cases hlen : argv.length = 6
    · simp only [hlen, ne_eq, not_true_eq_false, if_false, true_and]
      repeat' split
      all_goals first
        | rfl
        | (exfalso; omega)
    · simp [hlen]
  refine ⟨?_, ?_, ?_⟩
  · intro argv config _
    rw [key]
    constructor
    · intro h
      split at h
      · next hc => cases h; exact ⟨hc.1, rfl, hc.2⟩
      · cases h
    · rintro ⟨h1, rfl, h3⟩
      rw [if_pos ⟨h1, h3⟩]
  · intro argv _
    rw [key]
    constructor
    · intro h hc
      rw [if_pos hc] at h; cases h
    · intro h
      rw [if_neg h]
  · intro prog n1 n2 n3 n4 n5 _
    rw [key]
    simp only [List.length_cons, List.length_nil, List.getD_cons_succ, List.getD_cons_zero,
      atoi_toString, Nat.reduceAdd, true_and]

theorem parse_config_accepts_witness :
    parse_config 0 ["./proj2", "5", "3", "10", "100", "50"]
        = some { num_skiers := 5, num_stops := 3, bus_capacity := 10, max_travel_time := 0,
                 max_skier_wait_time := 100, max_bus_travel_time := 50 }
    ∧ parse_config 0 ["./proj2", "5", "11", "10", "100", "50"] = none := by
  have h := (parse_config_accepts 0).2.2
  exact ⟨by simpa [in_ranges] using h "./proj2" 5 3 10 100 50 (by decide),
         by simpa [in_ranges] using h "./proj2" 5 11 10 100 50 (by decide)⟩

theorem reject_loop_first (R rem : Int) (rejected : List Int) (v : Int) (rest : List Int)
    (hrej : ∀ x ∈ rejected, R - rem ≤ x) (hv : v < R - rem) :
    reject_loop R rem (rejected ++ v :: rest) = some (v, rest) := by
  induction rejected with
  | nil =>
    have : ¬ (v ≥ R - rem) := by omega
    simp only [List.nil_append, reject_loop, this, if_false]
  | cons x xs ih =>
    have hx : x ≥ R - rem := hrej x (by simp)
    simp only [List.cons_append, reject_loop, hx, if_true]
    exact ih (fun y hy => hrej y (by simp [hy]))

theorem filter_length_count (A g t : Nat) (n : Nat) :
    ((List.range n).filter fun (v : Nat) => decide (v < A ∧ v % g = t % g)).length
      = Nat.count (fun v => v ≡ t [MOD g]) (min n A) := by
  induction n with
  | zero => simp
  | succ n ih =>
    rw [List.range_succ, List.filter_append, List.length_append, ih]
    by_cases h : n < A
    · have e1 : min (n + 1) A = n + 1 := Nat.min_eq_left (by omega)
      have e2 : min n A = n := Nat.min_eq_left (by omega)
      rw [e1, e2, Nat.count_succ]
      by_cases hp : n % g = t % g
      · simp [h, hp, Nat.ModEq]
      · simp [h, hp, Nat.ModEq]
    · have e1 : min (n + 1) A = A := Nat.min_eq_right (by omega)
      have e2 : min n A = A := Nat.min_eq_right (by omega)
      rw [e1, e2]
      simp [h]

theorem count_multiple (g t q n : Nat) (hg : 0 < g) (hn : q * g ≤ n) :
    ((List.range n).filter fun (v : Nat) => decide (v < q * g ∧ v % g = t % g)).length = q := by
  rw [filter_length_count, Nat.min_eq_right hn, Nat.count_modEq_card _ hg]
  simp [Nat.mul_div_cancel _ hg]

theorem accepted_count_eq (R min max r : Int) (hle : min ≤ max) (hr : max - min + 1 ≤ R)
    (h1 : min ≤ r) (h2 : r ≤ max) :
    (accepted_count R min max r : Int) = (R - R.tmod (max - min + 1)) / (max - min + 1) := by
  obtain ⟨g, hg⟩ : ∃ g : Nat, max - min + 1 = g := ⟨(max - min + 1).toNat, by omega⟩
  obtain ⟨t, ht⟩ : ∃ t : Nat, r - min = t := ⟨(r - min).toNat, by omega⟩
  obtain ⟨n, hn⟩ : ∃ n : Nat, R = n := ⟨R.toNat, by omega⟩
  have hgpos : 0 < g := by omega
  have htg : t < g := by omega
  have hR : R.tmod (max - min + 1) = ((n % g : Nat) : Int) := by
    rw [hg, hn, Int.tmod_eq_emod (by omega) (by omega)]; simp
  have hA : n - n % g = (n / g) * g := by
    have h := Nat.mod_add_div n g
    rw [Nat.mul_comm (n / g) g]
    omega
  have hmodle := Nat.mod_le n g
  have key : accepted_count R min max r = n / g := by
    unfold accepted_count
    subst hn
    have hlist : ((List.range ((n : Int).toNat + 1)).filter fun (v : Nat) =>
        decide ((v : Int) < (n : Int) - (n : Int).tmod (max - min + 1)
          ∧ (v : Int).tmod (max - min + 1) + min = r))
        = (List.range (n + 1)).filter fun (v : Nat) =>
            decide (v < n / g * g ∧ v % g = t % g) := by
      rw [Int.toNat_ofNat]
      apply List.filter_congr
      intro v _
      rw [hR, hg, Int.tmod_eq_emod (by omega) (by omega), ← hA, Nat.mod_eq_of_lt htg]
      have hv : ((v : Int) % (g : Int)) = ((v % g : Nat) : Int) := by simp
      rw [hv]
      apply decide_eq_decide.2
      constructor
      · rintro ⟨a, b⟩; exact ⟨by omega, by omega⟩
      · rintro ⟨a, b⟩; exact ⟨by omega, by omega⟩
    rw [hlist]
    exact count_multiple g t (n / g) (n + 1) hgpos (by rw [← hA]; omega)
  rw [key, hR, hg, hn]
  have : ((n : Int) - ((n % g : Nat) : Int)) = ((n / g * g : Nat) : Int) := by
    rw [← hA]; omega
  rw [this]
  push_cast
  rw [Int.mul_ediv_cancel _ (by omega)]

theorem tmod_bounds (v g : Int) (hv : 0 ≤ v) (hg : 0 < g) : 0 ≤ v.tmod g ∧ v.tmod g < g := by
  rw [Int.tmod_eq_emod hv (by omega)]
  exact ⟨Int.emod_nonneg _ (by omega), Int.emod_lt_of_pos _ hg⟩

/-- C10: for `min ≤ max` with `range = max - min + 1 ≤ RAND_MAX`, when `rand()`
returns rejected values and then a value `v` with
`0 ≤ v < RAND_MAX - RAND_MAX % range`, `rand_range` returns `v % range + min`
(having drawn exactly up to `v` when `min < max`), and that result lies in
`[min, max]`.  Every integer of `[min, max]` is the result for exactly
`(RAND_MAX - RAND_MAX % range) / range` of the raw values `0 .. RAND_MAX`, a
positive number that does not depend on the integer.  A call with `min = max`
returns `min` and draws nothing. -/
theorem rand_range_uniform (RAND_MAX min max : Int) (hle : min ≤ max)
    (hr : max - min + 1 ≤ RAND_MAX) :
    (∀ (rejected : List Int) (v : Int) (rest : List Int),
        (∀ x ∈ rejected, RAND_MAX - RAND_MAX.tmod (max - min + 1) ≤ x) →
        0 ≤ v → v < RAND_MAX - RAND_MAX.tmod (max - min + 1) →
        (rand_range RAND_MAX min max (rejected ++ v :: rest)).map Prod.fst
            = some (v.tmod (max - min + 1) + min)
          ∧ (min < max → rand_range RAND_MAX min max (rejected ++ v :: rest)
              = some (v.tmod (max - min + 1) + min, rest))
          ∧ min ≤ v.tmod (max - min + 1) + min ∧ v.tmod (max - min + 1) + min ≤ max)
    ∧ (∀ r : Int, min ≤ r → r ≤ max →
        (accepted_count RAND_MAX min max r : Int)
            = (RAND_MAX - RAND_MAX.tmod (max - min + 1)) / (max - min + 1)
          ∧ 0 < accepted_count RAND_MAX min max r)
    ∧ (∀ draws : List Int, min = max → rand_range RAND_MAX min max draws = some (min, draws)) := by
  refine ⟨?_, ?_, ?_⟩
  · intro rejected v rest hrej hv0 hv
    have hb := tmod_bounds v (max - min + 1) hv0 (by omega)
    have hval : min < max → rand_range RAND_MAX min max (rejected ++ v :: rest)
        = some (v.tmod (max - min + 1) + min, rest) := by
      intro hlt
      have h1 : ¬ (min = max) := by omega
      have h2 : ¬ (min > max) := by omega
      simp only [rand_range, h1, h2, if_false, reject_loop_first RAND_MAX _ rejected v rest hrej hv]
    refine ⟨?_, hval, by omega, by omega⟩
    rcases eq_or_lt_of_le hle with heq | hlt
    · subst heq
      simp [rand_range]
    · rw [hval hlt]; rfl
  · intro r h1 h2
    have hcnt := accepted_count_eq RAND_MAX min max r hle hr h1 h2
    refine ⟨hcnt, ?_⟩
    have hpos : 0 < (RAND_MAX - RAND_MAX.tmod (max - min + 1)) / (max - min + 1) := by
      have hm := tmod_bounds RAND_MAX (max - min + 1) (by omega) (by omega)
      rw [Int.tmod_eq_emod (by omega) (by omega)] at hm ⊢
      have hdiv := Int.emod_add_ediv RAND_MAX (max - min + 1)
      have : RAND_MAX - RAND_MAX % (max - min + 1)
          = (max - min + 1) * (RAND_MAX / (max - min + 1)) := by omega
      rw [this, Int.mul_ediv_cancel_left _ (by omega)]
      have hq := Int.ediv_le_ediv (show (0 : Int) < max - min + 1 by omega) hr
      rw [Int.ediv_self (by omega)] at hq
      omega
    omega
  · intro draws h
    simp [rand_range, h]

theorem rand_range_uniform_witness :
    rand_range 32767 0 9 ([32765] ++ 12345 :: [7]) = some (Int.tmod 12345 (9 - 0 + 1) + 0, [7])
    ∧ (0 : Int) ≤ Int.tmod 12345 (9 - 0 + 1) + 0 ∧ Int.tmod 12345 (9 - 0 + 1) + 0 ≤ 9
    ∧ (accepted_count 32767 0 9 5 : Int) = (32767 - Int.tmod 32767 (9 - 0 + 1)) / (9 - 0 + 1) := by
  have h := rand_range_uniform 32767 0 9 (by decide) (by decide)
  obtain ⟨-, h2, h3, h4⟩ := h.1 [32765] 12345 [7] (by decide) (by decide) (by decide)
  exact ⟨h2 (by decide), h3, h4, (h.2.1 5 (by decide) (by decide)).1⟩

end Skibus
